import Mathlib

/-!
# Client order book synchronizer of dcrdex: a shallow embedding

The definitions below embed `client/order/orderbook.go`: the per-market
`OrderBook` with its sequence-numbered `Sync` / `Book` / `Unbook` operations and
the pre-sync queue of buffered notes.  Unsigned 64-bit counters are natural
numbers with an explicit `% 2 ^ 64` where the source can wrap.  Go functions
returning `error` return the new state together with a `Ret`.

They are followed by the parts of `client/core/core.go` that keep the books of
a connection and list its markets, and by the DCR backend of
`server/asset/dcr/dcr.go`: the coin id codec, the lookup of an unspent output,
the fee rate of a transaction, and the block cache a new block is put into.
-/

namespace Dcrdex

/-! ## Wire constants and message types -/

/-- Modelled from the spec: `order.OrderIDSize` of package `dex/order`, the
length in bytes of an order id ("order_id: 32 bytes"). -/
def OrderIDSize : Nat := 32

/-- Modelled from the spec: `msgjson.BuyOrderNum`, the side encoding of a buy
order ("Side encoding: 1 = buy, 2 = sell"). -/
def BuyOrderNum : Nat := 1

/-- Modelled from the spec: `msgjson.SellOrderNum`, the side encoding of a sell
order ("Side encoding: 1 = buy, 2 = sell"). -/
def SellOrderNum : Nat := 2

/-- Modelled from the spec: `msgjson.BookOrderRoute`, the route of a
`book_order` notification. -/
def BookOrderRoute : String := "book_order"

/-- Modelled from the spec: `msgjson.UnbookOrderRoute`, the route of an
`unbook_order` notification. -/
def UnbookOrderRoute : String := "unbook_order"

/-- An order id as the byte string it is copied from.  The source copies
the note's bytes into a `[32]byte` only after checking that there are exactly
`OrderIDSize` of them, so the array holds exactly these bytes. -/
abbrev OrderID := List Nat

/-- Modelled from the spec: the entries of `msgjson.OrderBook.Orders`
("orders: [{order_id, side, quantity, rate, time}]"). -/
structure SnapshotOrder where
  OrderID : List Nat
  Side : Nat
  Quantity : Nat
  Rate : Nat
  Time : Nat
deriving DecidableEq

/-- Modelled from the spec: `msgjson.OrderBook`, the snapshot carried by an
`order_book` response ("{seq, market_id, orders}"). -/
structure Snapshot where
  Seq : Nat
  MarketID : String
  Orders : List SnapshotOrder
deriving DecidableEq

/-- Modelled from the spec: `msgjson.BookOrderNote`, the payload of a
`book_order` notification ("{seq, market_id, order_id, side, quantity, rate}"). -/
structure BookOrderNote where
  Seq : Nat
  MarketID : String
  OrderID : List Nat
  Side : Nat
  Quantity : Nat
  Rate : Nat
deriving DecidableEq

/-- Modelled from the spec: `msgjson.UnbookOrderNote`, the payload of an
`unbook_order` notification ("{seq, market_id, order_id}"). -/
structure UnbookOrderNote where
  Seq : Nat
  MarketID : String
  OrderID : List Nat
deriving DecidableEq

/-! ## Results -/

/-- The distinct `fmt.Errorf` sites of `orderbook.go`, and the failure of the
book side's `Remove`. -/
inductive Err where
  | unknownRoute
  | unknownCachedRoute
  | alreadySynced
  | invalidMarket
  | outOfSync
  | orderIDLength
  | unknownSide
  | orderNotFound
  | sideRemove
  | unsynced
deriving DecidableEq

/-- What a call hands back to its caller: `nil`, an error value, or a Go
panic (the failed type assertion in `processCachedNotes`). -/
inductive Ret where
  | nil
  | error (e : Err)
  | panic
deriving DecidableEq

/-! ## Orders and book sides -/

/-- The `Order` struct: an ask or bid. -/
structure Order where
  OrderID : OrderID
  Side : Nat
  Quantity : Nat
  Rate : Nat
  Time : Nat
deriving DecidableEq

/-- Modelled from the spec: the `orderPreference` handed to `NewBookSide`
("buys are descending by rate, sells are ascending by rate"). -/
inductive orderPreference where
  | ascending
  | descending
deriving DecidableEq

/-- Modelled from the spec: the `bookSide` type of `bookside.go`, "an ordered
collection of Orders keyed by rate": the rate levels best-first, each with its
FIFO of resting orders. -/
structure bookSide where
  bins : List (Nat × List Order)
  orderPref : orderPreference
deriving DecidableEq

/-- Modelled from the spec: `NewBookSide`, a side without levels. -/
def NewBookSide (pref : orderPreference) : bookSide :=
  { bins := [], orderPref := pref }

/-- Whether rate `a` is traversed before rate `b` under a preference. -/
def orderPreference.before (pref : orderPreference) (a b : Nat) : Bool :=
  match pref with
  | .ascending => decide (a < b)
  | .descending => decide (b < a)

/-- Level insertion behind `bookSide.Add`. -/
def addToBins (pref : orderPreference) (o : Order) :
    List (Nat × List Order) → List (Nat × List Order)
  | [] => [(o.Rate, [o])]
  | (r, q) :: rest =>
    if r = o.Rate then (r, q ++ [o]) :: rest
    else if pref.before o.Rate r then (o.Rate, [o]) :: (r, q) :: rest
    else (r, q) :: addToBins pref o rest

/-- Modelled from the spec: `bookSide.Add`, "insert. If no level exists at the
order's rate, create one. Append to the level's FIFO." -/
def bookSide.Add (d : bookSide) (o : Order) : bookSide :=
  { d with bins := addToBins d.orderPref o d.bins }

/-- Deletion of the first order of a FIFO carrying the given id. -/
def removeFromBin (id : OrderID) : List Order → Option (List Order)
  | [] => none
  | o :: rest =>
    if o.OrderID = id then some rest
    else (removeFromBin id rest).map (fun rest' => o :: rest')

/-- Level lookup and deletion behind `bookSide.Remove`. -/
def removeFromBins (o : Order) :
    List (Nat × List Order) → Option (List (Nat × List Order))
  | [] => none
  | (r, q) :: rest =>
    if r = o.Rate then
      match removeFromBin o.OrderID q with
      | none => none
      | some [] => some rest
      | some (x :: xs) => some ((r, x :: xs) :: rest)
    else (removeFromBins o rest).map (fun rest' => (r, q) :: rest')

/-- Modelled from the spec: `bookSide.Remove`, "delete by order_id within the
level identified by the order's rate. Fails with not-found if absent. If the
level empties, remove the level."  A failure leaves the side as it was. -/
def bookSide.Remove (d : bookSide) (o : Order) : bookSide × Ret :=
  match removeFromBins o d.bins with
  | none => (d, .error .sideRemove)
  | some bins' => ({ d with bins := bins' }, .nil)

/-- The resting orders of a side in best-first order. -/
def bookSide.orders (d : bookSide) : List Order :=
  d.bins.flatMap (fun lvl => lvl.2)

/-- The order ids held by a side, with multiplicity. -/
def bookSide.ids (d : bookSide) : List OrderID :=
  d.orders.map (fun o => o.OrderID)

/-- Modelled from the spec: `bookSide.BestNOrders`, "return up to n orders by
best-first traversal". -/
def bookSide.BestNOrders (d : bookSide) (n : Nat) : Except Err (List Order) :=
  .ok (d.orders.take n)

/-- Modelled from the spec: the `fill` type, "{order_id, fill_qty}". -/
structure fill where
  match_ : Order
  quantity : Nat
deriving DecidableEq

/-- Best-first consumption behind `bookSide.BestFill`. -/
def fillFrom : Nat → List Order → List fill
  | _, [] => []
  | qty, o :: rest =>
    if qty = 0 then []
    else if o.Quantity < qty then
      { match_ := o, quantity := o.Quantity } :: fillFrom (qty - o.Quantity) rest
    else [{ match_ := o, quantity := qty }]

/-- Modelled from the spec: `bookSide.BestFill`, "consume best-first, producing
a sequence of {order_id, fill_qty}"; the side is not mutated. -/
def bookSide.BestFill (d : bookSide) (qty : Nat) : Except Err (List fill) :=
  .ok (fillFrom qty d.orders)

/-! ## The order book -/

/-- The dynamically typed `OrderNote interface{}` of a cached note: a
`*msgjson.BookOrderNote`, a `*msgjson.UnbookOrderNote`, or a value of any
other dynamic type. -/
inductive NotePayload where
  | book (n : BookOrderNote)
  | unbook (n : UnbookOrderNote)
  | other
deriving DecidableEq

/-- The `cachedOrderNote` struct: a buffered note with its route. -/
structure cachedOrderNote where
  Route : String
  OrderNote : NotePayload
deriving DecidableEq

/-- The `Orders` map: a Go map is what its lookups return, so it is a
function from order ids to optional orders (a nil map reads as empty). -/
abbrev OrderMap := OrderID → Option Order

/-- The map without entries. -/
def OrderMap.empty : OrderMap := fun _ => none

/-- The assignment `m[k] = v`. -/
def OrderMap.set (m : OrderMap) (k : OrderID) (v : Order) : OrderMap :=
  fun k' => if k' = k then some v else m k'

/-- The statement `delete(m, k)`. -/
def OrderMap.delete (m : OrderMap) (k : OrderID) : OrderMap :=
  fun k' => if k' = k then none else m k'

/-- The `OrderBook` struct without its mutexes (calls are modelled one at a
time).  `Buys` and `Sells` are pointers in the source; a nil side is
represented by a side without levels, which is exact for every book obtained
from `NewOrderBook`: all code that dereferences a side or writes `Orders`
runs after `Sync` has allocated them. -/
structure OrderBook where
  Seq : Nat
  MarketID : String
  NoteQueue : List cachedOrderNote
  Orders : OrderMap
  Buys : bookSide
  Sells : bookSide
  Synced : Bool

/-- The constructor `NewOrderBook`: only the (empty) note queue is set, every
other field has its zero value. -/
def NewOrderBook : OrderBook :=
  { Seq := 0, MarketID := "", NoteQueue := [], Orders := OrderMap.empty,
    Buys := NewBookSide .descending, Sells := NewBookSide .ascending,
    Synced := false }

/-- The method `setSynced`. -/
def OrderBook.setSynced (ob : OrderBook) (value : Bool) : OrderBook :=
  { ob with Synced := value }

/-- The method `isSynced`. -/
def OrderBook.isSynced (ob : OrderBook) : Bool := ob.Synced

/-- The method `cacheOrderNote`: append the note for the two known routes,
fail for any other route. -/
def OrderBook.cacheOrderNote (ob : OrderBook) (route : String)
    (entry : NotePayload) : OrderBook × Ret :=
  if route = BookOrderRoute ∨ route = UnbookOrderRoute then
    ({ ob with NoteQueue := ob.NoteQueue ++ [{ Route := route, OrderNote := entry }] },
      .nil)
  else (ob, .error .unknownRoute)

/-- The method `book`, the workhorse of `Book`. -/
def OrderBook.book (ob : OrderBook) (note : BookOrderNote) (cached : Bool) :
    OrderBook × Ret :=
  if ob.MarketID ≠ note.MarketID then (ob, .error .invalidMarket)
  else if !cached && !ob.isSynced then
    ob.cacheOrderNote BookOrderRoute (.book note)
  else if ob.Seq > note.Seq then (ob, .nil)
  else
    let seq := (ob.Seq + 1) % 2 ^ 64
    let ob1 := { ob with Seq := seq }
    if seq ≠ note.Seq then (ob1, .error .outOfSync)
    else if note.OrderID.length ≠ OrderIDSize then (ob1, .error .orderIDLength)
    else
      let order : Order :=
        { OrderID := note.OrderID, Side := note.Side, Quantity := note.Quantity,
          Rate := note.Rate, Time := 0 }
      let ob2 := { ob1 with Orders := ob1.Orders.set order.OrderID order }
      if order.Side = BuyOrderNum then
        ({ ob2 with Buys := ob2.Buys.Add order }, .nil)
      else if order.Side = SellOrderNum then
        ({ ob2 with Sells := ob2.Sells.Add order }, .nil)
      else (ob2, .error .unknownSide)

/-- The method `Book`: adds a new order to the order book. -/
def OrderBook.Book (ob : OrderBook) (note : BookOrderNote) : OrderBook × Ret :=
  ob.book note false

/-- The method `unbook`, the workhorse of `Unbook`. -/
def OrderBook.unbook (ob : OrderBook) (note : UnbookOrderNote) (cached : Bool) :
    OrderBook × Ret :=
  if ob.MarketID ≠ note.MarketID then (ob, .error .invalidMarket)
  else if !cached && !ob.isSynced then
    ob.cacheOrderNote UnbookOrderRoute (.unbook note)
  else if ob.Seq > note.Seq then (ob, .nil)
  else
    let seq := (ob.Seq + 1) % 2 ^ 64
    let ob1 := { ob with Seq := seq }
    if seq ≠ note.Seq then (ob1, .error .outOfSync)
    else if note.OrderID.length ≠ OrderIDSize then (ob1, .error .orderIDLength)
    else
      match ob1.Orders note.OrderID with
      | none => (ob1, .error .orderNotFound)
      | some order =>
        if order.Side = BuyOrderNum then
          let r := ob1.Buys.Remove order
          if r.2 ≠ .nil then ({ ob1 with Buys := r.1 }, r.2)
          else ({ ob1 with Buys := r.1, Orders := ob1.Orders.delete note.OrderID }, .nil)
        else if order.Side = SellOrderNum then
          let r := ob1.Sells.Remove order
          if r.2 ≠ .nil then ({ ob1 with Sells := r.1 }, r.2)
          else ({ ob1 with Sells := r.1, Orders := ob1.Orders.delete note.OrderID }, .nil)
        else (ob1, .error .unknownSide)

/-- The method `Unbook`: removes an order from the order book. -/
def OrderBook.Unbook (ob : OrderBook) (note : UnbookOrderNote) : OrderBook × Ret :=
  ob.unbook note false

/-- The loop of `processCachedNotes` over the queue held by the book: each
iteration pops the head (`entry, ob.NoteQueue = ob.NoteQueue[0],
ob.NoteQueue[1:]`) and dispatches on its route.  `book` and `unbook` are
called with `cached = true` and therefore never touch the queue, so the
remaining queue of the next iteration is the tail popped here. -/
def processCachedLoop (ob : OrderBook) : List cachedOrderNote → OrderBook × Ret
  | [] => ({ ob with NoteQueue := [] }, .nil)
  | entry :: rest =>
    let ob1 := { ob with NoteQueue := rest }
    if entry.Route = BookOrderRoute then
      match entry.OrderNote with
      | .book note =>
        let r := ob1.book note true
        if r.2 ≠ .nil then r else processCachedLoop r.1 rest
      | _ => (ob1, .panic)
    else if entry.Route = UnbookOrderRoute then
      match entry.OrderNote with
      | .unbook note =>
        let r := ob1.unbook note true
        if r.2 ≠ .nil then r else processCachedLoop r.1 rest
      | _ => (ob1, .panic)
    else (ob1, .error .unknownCachedRoute)

/-- The method `processCachedNotes`: processes all cached notes, each processed
note is removed from the cache. -/
def OrderBook.processCachedNotes (ob : OrderBook) : OrderBook × Ret :=
  processCachedLoop ob ob.NoteQueue

/-- The range loop of `Sync` over `snapshot.Orders`. -/
def syncOrders (ob : OrderBook) : List SnapshotOrder → OrderBook × Ret
  | [] => (ob, .nil)
  | o :: rest =>
    if o.OrderID.length ≠ OrderIDSize then (ob, .error .orderIDLength)
    else
      let order : Order :=
        { OrderID := o.OrderID, Side := o.Side, Quantity := o.Quantity,
          Rate := o.Rate, Time := o.Time }
      let ob1 := { ob with Orders := ob.Orders.set order.OrderID order }
      if o.Side = BuyOrderNum then
        syncOrders { ob1 with Buys := ob1.Buys.Add order } rest
      else if o.Side = SellOrderNum then
        syncOrders { ob1 with Sells := ob1.Sells.Add order } rest
      else (ob1, .error .unknownSide)

/-- The assignments at the head of `Sync`: seq and market id are taken from
the snapshot, `Orders` and both sides are allocated afresh. -/
def OrderBook.syncInit (ob : OrderBook) (snapshot : Snapshot) : OrderBook :=
  { ob with
    Seq := snapshot.Seq, MarketID := snapshot.MarketID,
    Orders := OrderMap.empty, Buys := NewBookSide .descending,
    Sells := NewBookSide .ascending }

/-- The method `Sync`: updates a client tracked order book with an order book
snapshot. -/
def OrderBook.Sync (ob : OrderBook) (snapshot : Snapshot) : OrderBook × Ret :=
  if ob.isSynced then (ob, .error .alreadySynced)
  else
    let r1 := syncOrders (ob.syncInit snapshot) snapshot.Orders
    if r1.2 ≠ .nil then r1
    else
      let r2 := r1.1.processCachedNotes
      if r2.2 ≠ .nil then r2 else (r2.1.setSynced true, .nil)

/-- The method `BestNOrders`: the best n orders from the provided side. -/
def OrderBook.BestNOrders (ob : OrderBook) (n : Nat) (side : Nat) :
    Except Err (List Order) :=
  if !ob.isSynced then .error .unsynced
  else if side = BuyOrderNum then ob.Buys.BestNOrders n
  else if side = SellOrderNum then ob.Sells.BestNOrders n
  else .error .unknownSide

/-- The method `BestFill`: the best fill for a quantity from the provided
side. -/
def OrderBook.BestFill (ob : OrderBook) (qty : Nat) (side : Nat) :
    Except Err (List fill) :=
  if !ob.isSynced then .error .unsynced
  else if side = BuyOrderNum then ob.Buys.BestFill qty
  else if side = SellOrderNum then ob.Sells.BestFill qty
  else .error .unknownSide

/-! ## The coin id codec of the DCR backend

The functions `decodeCoinID` and `toCoinID` of `server/asset/dcr/dcr.go`.  A
byte is a natural number below 256. -/

/-- The errors of the coin id codec. -/
inductive DcrErr where
  | coinIDLength
deriving DecidableEq

/-- The size of `chainhash.Hash`, an array of 32 bytes (`chainhash.HashSize`
of dcrd). -/
def HashSize : Nat := 32

/-- The type `chainhash.Hash` of dcrd: an array of exactly `HashSize` bytes. -/
abbrev Hash := { l : List Nat // l.length = HashSize }

/-- The zero value of `chainhash.Hash`. -/
def Hash.zero : Hash := ⟨List.replicate HashSize 0, List.length_replicate _ _⟩

/-- Go's builtin `copy(dst, src)` as the new contents of `dst`: the first
`min (len dst) (len src)` elements are taken from `src`, the rest of `dst`
stays. -/
def copyInto (dst src : List Nat) : List Nat :=
  src.take dst.length ++ dst.drop src.length

/-- The function `binary.BigEndian.Uint32` of Go's `encoding/binary` on a
slice of at least four bytes: `b[3] | b[2]<<8 | b[1]<<16 | b[0]<<24`. -/
def BigEndian.Uint32 : List Nat → Nat
  | b0 :: b1 :: b2 :: b3 :: _ => b3 + b2 * 2 ^ 8 + b1 * 2 ^ 16 + b0 * 2 ^ 24
  | _ => 0

/-- The function `binary.BigEndian.PutUint32` of Go's `encoding/binary` as
the new contents of the slice: the first four bytes become `byte(v >> 24)`,
`byte(v >> 16)`, `byte(v >> 8)`, `byte(v)`. -/
def BigEndian.PutUint32 (b : List Nat) (v : Nat) : List Nat :=
  [(v / 2 ^ 24) % 256, (v / 2 ^ 16) % 256, (v / 2 ^ 8) % 256, v % 256] ++ b.drop 4

/-- The function `decodeCoinID`: decodes the coin ID into a tx hash and a
vout. -/
def decodeCoinID (coinID : List Nat) : Except DcrErr (Hash × Nat) :=
  if coinID.length ≠ 36 then .error .coinIDLength
  else
    let txHash : Hash :=
      ⟨copyInto Hash.zero.val (coinID.take 32), by
        simp only [copyInto, Hash.zero, HashSize, List.length_append, List.length_take,
          List.length_drop, List.length_replicate]
        omega⟩
    .ok (txHash, BigEndian.Uint32 (coinID.drop 32))

/-- The function `toCoinID`: converts the outpoint to a coin ID. -/
def toCoinID (txHash : Hash) (vout : Nat) : List Nat :=
  let hashLen := txHash.val.length
  let b := List.replicate (hashLen + 4) 0
  let b := copyInto (b.take hashLen) txHash.val ++ b.drop hashLen
  b.take hashLen ++ BigEndian.PutUint32 (b.drop hashLen) vout

/-! ## The client core

`client/core/core.go`: a connection to a DEX with its asset table, its order
books by market id and its configuration; the handlers of book and unbook
notes; the construction of a connection from a configuration in `addDex`; and
`ListMarkets`. -/

/-- Modelled from the spec: the `Asset` of the `config` response (package
`msgjson`), `{id: uint32, symbol: string, …}`; only the two fields the core
reads. -/
structure Asset where
  ID : Nat
  Symbol : String
deriving DecidableEq, Repr

/-- Modelled from the spec: the payload of the `config` response (package
`msgjson`), `{assets: [Asset], markets: [[base_id, quote_id]], …}`; a market is
the pair `(bq[0], bq[1])`. -/
structure ConfigResult where
  Assets : List Asset
  Markets : List (Nat × Nat)
deriving DecidableEq, Repr

/-- The type `Market` of `types.go`. -/
structure Market where
  BaseID : Nat
  BaseSymbol : String
  QuoteID : Nat
  QuoteSymbol : String
deriving DecidableEq, Repr

/-- The type `MarketInfo` of `types.go`. -/
structure MarketInfo where
  DEX : String
  Markets : List Market
deriving DecidableEq, Repr

/-- The type `dexConnection`, without the websocket and the mutex: `assets`
gives the asset a table entry points to (`none` for an id the table lacks),
`books` the order book registered under a market id, `cfg` the configuration
the pointer `cfg` refers to. -/
structure dexConnection where
  assets : Nat → Option Asset
  books : String → Option OrderBook
  cfg : ConfigResult

/-- What a note handler returns: `nil`, the error of a payload that does not
decode, the error of a market id without a registered book, or the error of
the book's own `Book` or `Unbook`, handed on as it is. -/
inductive HandlerRet where
  | nil
  | unmarshalError
  | noOrderBook (marketID : String)
  | bookError (r : Ret)
deriving DecidableEq

/-- The registry `books` with the book under `marketID` replaced. -/
def dexConnection.setBook (dc : dexConnection) (marketID : String) (ob : OrderBook) :
    dexConnection :=
  { dc with books := fun m => if m = marketID then some ob else dc.books m }

/-- The method `handleBookOrderMsg`. The payload is given as what
`json.Unmarshal` makes of it (`none` when it fails). The registry holds a
pointer to the book, so what `Book` does to the book is seen through the
registry whatever `Book` returns. -/
def handleBookOrderMsg (dc : dexConnection) (payload : Option BookOrderNote) :
    dexConnection × HandlerRet :=
  match payload with
  | none => (dc, .unmarshalError)
  | some note =>
    match dc.books note.MarketID with
    | none => (dc, .noOrderBook note.MarketID)
    | some ob =>
      let r := ob.Book note
      if r.2 ≠ .nil then (dc.setBook note.MarketID r.1, .bookError r.2)
      else (dc.setBook note.MarketID r.1, .nil)

/-- The method `handleUnbookOrderMsg`, as `handleBookOrderMsg`. -/
def handleUnbookOrderMsg (dc : dexConnection) (payload : Option UnbookOrderNote) :
    dexConnection × HandlerRet :=
  match payload with
  | none => (dc, .unmarshalError)
  | some note =>
    match dc.books note.MarketID with
    | none => (dc, .noOrderBook note.MarketID)
    | some ob =>
      let r := ob.Unbook note
      if r.2 ≠ .nil then (dc.setBook note.MarketID r.1, .bookError r.2)
      else (dc.setBook note.MarketID r.1, .nil)

/-- The asset table `addDex` builds from the assets of a configuration,
`for _, asset := range dexCfg.Assets { assets[asset.ID] = &asset }`: a key for
every asset id. The loop variable `asset` is one variable for all iterations
(the language before Go 1.22, which this code is written in), so every entry
holds its address, and when the loop has ended the variable holds the last
asset of the list. -/
def assetTable (as : List Asset) : Nat → Option Asset :=
  fun id => if as.any (fun a => a.ID = id) then as.getLast? else none

/-- A line the `config` callback of `addDex` logs: the response message does
not parse, the configuration does not parse, or, while the markets of a
configuration are validated, an asset is missing. -/
inductive ConfigLog where
  | failedResponse
  | failedConfig
  | missingBase (uri : String) (id : Nat)
  | missingQuote (uri : String) (id : Nat)
deriving DecidableEq, Repr

/-- The validation loop of `addDex` over the markets of a configuration: an
asset id without an entry in the table is logged; nothing else is done. -/
def validateMarkets (uri : String) (assets : Nat → Option Asset) :
    List (Nat × Nat) → List ConfigLog
  | [] => []
  | bq :: rest =>
    (if (assets bq.1).isSome then [] else [ConfigLog.missingBase uri bq.1]) ++
    (if (assets bq.2).isSome then [] else [ConfigLog.missingQuote uri bq.2]) ++
    validateMarkets uri assets rest

/-- The statements of the `config` callback of `addDex` that follow the decode
(core.go:180-205), on the configuration `dexCfg` points to: the asset table is
built, the markets are validated, and the connection is created with that
table, no books, and the configuration as it is. Returns the connection and
the lines logged. The callback reaches these statements only when the decode
has returned no error. -/
def addDexConnection (uri : String) (dexCfg : ConfigResult) : dexConnection × List ConfigLog :=
  let assets := assetTable dexCfg.Assets
  let logged := validateMarkets uri assets dexCfg.Markets
  ({ assets := assets, books := fun _ => none, cfg := dexCfg }, logged)

/-- The function `json.Unmarshal(data, v)` of Go's `encoding/json` for a target
`v` that is a pointer: `decoded` is the value the JSON text `data` denotes
(`none` when it denotes none), `v` is `none` for a nil pointer and otherwise
what the pointer refers to. Returns what the pointer refers to afterwards, or
`none` for an error: "if v is nil or not a pointer, Unmarshal returns an
InvalidUnmarshalError". -/
def jsonUnmarshal {α : Type} (decoded : Option α) (v : Option α) : Option α :=
  match v with
  | none => none
  | some _ => decoded

/-- The type `Core`, as far as the markets go: the connections by DEX URL, in
the order a `range` over the map `conns` visits them. -/
structure Core where
  conns : List (String × dexConnection)

/-- The constructor `New`: a core without connections. -/
def New : Core := { conns := [] }

/-- The assignment `c.conns[uri] = dc`. -/
def Core.setConn (c : Core) (uri : String) (dc : dexConnection) : Core :=
  { conns :=
      if c.conns.any (fun p => decide (p.1 = uri)) then
        c.conns.map (fun p => if p.1 = uri then (uri, dc) else p)
      else c.conns ++ [(uri, dc)] }

/-- The callback `addDex` hands to `conn.Request` for the `config` request.
`response` is what `msg.Response()` gives, `none` for an error, with the
result as the configuration its JSON text denotes. The callback declares
`var dexCfg *msgjson.ConfigResult`, a nil pointer, and hands it to
`json.Unmarshal` as it is; only when that returns no error is the connection
built and added to `conns`. Returns the core and the lines logged. -/
def Core.addDexConfig (c : Core) (uri : String) (response : Option (Option ConfigResult)) :
    Core × List ConfigLog :=
  match response with
  | none => (c, [.failedResponse])
  | some result =>
    let dexCfg : Option ConfigResult := none
    match jsonUnmarshal result dexCfg with
    | none => (c, [.failedConfig])
    | some cfg =>
      let r := addDexConnection uri cfg
      (c.setConn uri r.1, r.2)

/-- The inner loop of `ListMarkets` over the markets of one connection,
appending to `markets`. `base` and `quote` are the table entries of the two
asset ids, nil for an id the table lacks; reading `base.ID` or `quote.ID`
through a nil pointer is a run-time panic, returned as `none`. -/
def listMarketsOf (dc : dexConnection) : List (Nat × Nat) → List Market → Option (List Market)
  | [], markets => some markets
  | bq :: rest, markets =>
    match dc.assets bq.1, dc.assets bq.2 with
    | some base, some quote =>
      listMarketsOf dc rest
        (markets ++ [{ BaseID := base.ID, BaseSymbol := base.Symbol, QuoteID := quote.ID,
                        QuoteSymbol := quote.Symbol }])
    | _, _ => none

/-- The outer loop of `ListMarkets` over the connections, appending to
`infos`. -/
def listMarketsLoop : List (String × dexConnection) → List MarketInfo → Option (List MarketInfo)
  | [], infos => some infos
  | (uri, dc) :: rest, infos =>
    match listMarketsOf dc dc.cfg.Markets [] with
    | none => none
    | some markets => listMarketsLoop rest (infos ++ [{ DEX := uri, Markets := markets }])

/-- The method `ListMarkets`, on the connections of the core in the order the
`range` over the map `conns` visits them. `none` is a run-time panic. -/
def ListMarkets (conns : List (String × dexConnection)) : Option (List MarketInfo) :=
  listMarketsLoop conns []

/-! ## The DCR backend

`server/asset/dcr/dcr.go`: `Coin`, `utxo`, `transaction`, the lookups they
make on the node, and the step of `superQueue` for a new block. The results of
the node (package `chainjson` of dcrd) are records of the fields the backend
reads; an amount, a float of coins on the wire, is given as the atoms
`toAtoms` converts it to. -/

/-- The fields of `chainjson.GetTxOutResult` the backend reads. -/
structure GetTxOutResult where
  Confirmations : Int
  Value : Nat
  ScriptPubKeyHex : String
  Coinbase : Bool
deriving DecidableEq

/-- The fields of `chainjson.Vin` the backend reads. -/
structure Vin where
  Coinbase : String
  AmountIn : Nat
  Txid : String
  Vout : Nat
deriving DecidableEq

/-- The fields of `chainjson.Vout` the backend reads. -/
structure Vout where
  Value : Nat
  ScriptPubKeyHex : String
deriving DecidableEq

/-- The fields of `chainjson.TxRawResult` the backend reads. -/
structure TxRawResult where
  Hex : String
  BlockHash : String
  BlockHeight : Int
  Vin : List Vin
  Vout : List Vout
deriving DecidableEq

/-- The fields of `chainjson.GetBlockVerboseResult` the block cache is given,
the hash as the `chainhash.Hash` it decodes to. -/
structure GetBlockVerboseResult where
  Hash : Hash
  Confirmations : Int
  Height : Int
deriving DecidableEq

/-- Modelled from the spec: the record the block cache keeps for a block (type
`dcrBlock`, not under src/): its hash, its height, and whether it is marked
orphaned. -/
structure dcrBlock where
  hash : Hash
  height : Nat
  orphaned : Bool
deriving DecidableEq

/-- Modelled from the spec: the type `blockCache` (not under src/), section 4.4,
"two indexes: by block-hash and by height (only for mainchain entries)". Each
index is the list of its records, at most one per key. -/
structure blockCache where
  blocks : List dcrBlock
  mainchain : List dcrBlock
deriving DecidableEq

/-- Modelled from the spec: the constructor `newBlockCache` (not under src/),
a cache with both indexes empty. -/
def newBlockCache : blockCache := { blocks := [], mainchain := [] }

/-- Modelled from the spec: `block(hash)` of the block cache (not under src/),
"hash lookup". -/
def blockCache.block (cache : blockCache) (hash : Hash) : Option dcrBlock :=
  cache.blocks.find? (fun b => decide (b.hash = hash))

/-- Modelled from the spec: `at_height(h)` of the block cache (not under
src/), "mainchain lookup; returns none when the height is unknown". -/
def blockCache.atHeight (cache : blockCache) (height : Nat) : Option dcrBlock :=
  cache.mainchain.find? (fun b => decide (b.height = height))

/-- Modelled from the spec: `tip_height()` of the block cache (not under
src/), the height of "the highest mainchain block"; 0 for a cache without
mainchain blocks. -/
def blockCache.tipHeight (cache : blockCache) : Nat :=
  (cache.mainchain.map (fun b => b.height)).foldl max 0

/-- Modelled from the spec: `tip_hash()` of the block cache (not under src/),
the hash of "the highest mainchain block"; the zero hash for a cache without
mainchain blocks. -/
def blockCache.tipHash (cache : blockCache) : Hash :=
  match cache.atHeight cache.tipHeight with
  | some b => b.hash
  | none => Hash.zero

/-- Modelled from the spec: `add(block)` of the block cache (not under src/):
"if `block.confirmations < 0` the block is orphaned — mark orphan, do not
install in the height index. Otherwise, install/replace in both indexes.
Returns the cached record." -/
def blockCache.add (cache : blockCache) (block : GetBlockVerboseResult) :
    blockCache × dcrBlock :=
  let blk : dcrBlock :=
    { hash := block.Hash, height := block.Height.toNat,
      orphaned := decide (block.Confirmations < 0) }
  let blocks := blk :: cache.blocks.filter (fun b => !decide (b.hash = blk.hash))
  if blk.orphaned then ({ cache with blocks := blocks }, blk)
  else
    ({ blocks := blocks,
       mainchain := blk :: cache.mainchain.filter (fun b => !decide (b.height = blk.height)) },
      blk)

/-- Modelled from the spec: `reorg(new_block)` of the block cache (not under
src/): "all cached mainchain blocks at heights ≥ new_block.height are marked
orphaned and removed from the height index. The new_block is then added
normally." -/
def blockCache.reorg (cache : blockCache) (newBlock : GetBlockVerboseResult) : blockCache :=
  let height := newBlock.Height.toNat
  let stripped : blockCache :=
    { blocks :=
        cache.blocks.map (fun b =>
          if cache.mainchain.any (fun m => decide (m.hash = b.hash) && decide (height ≤ m.height))
          then { b with orphaned := true } else b),
      mainchain := cache.mainchain.filter (fun b => decide (b.height < height)) }
  (stripped.add newBlock).1

/-- The type `dexdcr.DCRScriptType` (not under src/): a script type is taken as
what its methods `IsP2SH` and `IsStake` return for it. -/
structure DCRScriptType where
  IsP2SH : Bool
  IsStake : Bool
deriving DecidableEq

/-- The fields of the result of `dexdcr.InputInfo` that `utxo` reads: the
script type, `ScriptAddrs.NRequired` and `SigScriptSize`. -/
structure SpendInfo where
  ScriptType : DCRScriptType
  NRequired : Nat
  SigScriptSize : Nat
deriving DecidableEq

/-- What the backend uses from outside `dcr.go`, as parameters: the decoders
of Go's `encoding/hex` and of `chainhash` (`none` when they fail), whether the
transaction a hex string deserializes to is a stake transaction (`msgTxFromHex`
followed by `stake.DetermineTxType`, `none` when the hex does not
deserialize), the script functions of package `dexdcr` with the chain
parameters applied, `dcrutil.Hash160`, and the constants
`chainParams.CoinbaseMaturity` and `dexdcr.TxInOverhead`. -/
structure Externals where
  hexDecodeString : String → Option (List Nat)
  NewHashFromStr : String → Option Hash
  isStakeTx : String → Option Bool
  InputInfo : List Nat → List Nat → Option SpendInfo
  ExtractScriptHashByType : DCRScriptType → List Nat → Option (List Nat)
  Hash160 : List Nat → List Nat
  CoinbaseMaturity : Nat
  TxInOverhead : Nat

/-- The interface `dcrNode`: what the node answers to each call, `none` for an
error. `GetTxOut` answers `some none` when it returns a nil result without an
error. -/
structure dcrNode where
  GetTxOut : Hash → Nat → Bool → Option (Option GetTxOutResult)
  GetRawTransactionVerbose : Hash → Option TxRawResult
  GetBlockVerbose : Hash → Bool → Option GetBlockVerboseResult
  GetBlockHash : Int → Option Hash

/-- A call made on the node. -/
inductive RPC where
  | getTxOut (txHash : Hash) (index : Nat) (mempool : Bool)
  | getRawTransactionVerbose (txHash : Hash)
  | getBlockVerbose (blockHash : Hash) (verboseTx : Bool)
  | getBlockHash (blockHeight : Int)
deriving DecidableEq

/-- The type `DCRBackend`: the node and the block cache. `calls` is not a
field of the source: it records the calls made on the node so far, the latest
last. -/
structure DCRBackend where
  node : dcrNode
  blockCache : blockCache
  calls : List RPC

/-- The errors of the backend, one for each error `dcr.go` returns. -/
inductive BackendErr where
  | decodeCoinID (e : DcrErr)
  | getTxOut
  | noUnspentTxOut
  | decodePkScript
  | getRawTransactionVerbose
  | inputInfo
  | extractScriptHash
  | scriptHashCheck
  | noRawTransaction
  | decodeBlockHash
  | retrieveBlock
  | immatureTransaction
  | decodeMsgTx
  | cacheBlock
  | decodePrevTxHash
  | divideByZero
  | fetchTransaction (e : BackendErr)
deriving DecidableEq

/-- An input of a `Tx`: the type `txIn` (not under src/), as `transaction`
fills it. -/
structure txIn where
  prevTx : Hash
  vout : Nat
deriving DecidableEq

/-- An output of a `Tx`: the type `txOut` (not under src/), as `transaction`
fills it. -/
structure txOut where
  value : Nat
  pkScript : List Nat
deriving DecidableEq

/-- The type `Tx` (not under src/), as the record of what `transaction` hands
to `newTransaction`. -/
structure Tx where
  hash : Hash
  blockHash : Option Hash
  lastLookup : Option Hash
  height : Int
  isStake : Bool
  ins : List txIn
  outs : List txOut
  feeRate : Nat
deriving DecidableEq

/-- The type `UTXO` (not under src/), as the record `utxo` fills. -/
structure UTXO where
  tx : Tx
  height : Nat
  blockHash : Hash
  vout : Nat
  maturity : Int
  scriptType : DCRScriptType
  pkScript : List Nat
  redeemScript : List Nat
  numSigs : Nat
  spendSize : Nat
  value : Nat
  lastLookup : Option Hash
deriving DecidableEq

/-- A call on the node is recorded. -/
def DCRBackend.called (dcr : DCRBackend) (c : RPC) : DCRBackend :=
  { dcr with calls := dcr.calls ++ [c] }

/-- The function `toAtoms` on an amount given in atoms: the conversion to
`uint64`. -/
def toAtoms (v : Nat) : Nat := v % 2 ^ 64

/-- The method `getUnspentTxOut`: get information for an unspent transaction
output. -/
def DCRBackend.getUnspentTxOut (dcr : DCRBackend) (x : Externals) (txHash : Hash)
    (vout : Nat) : DCRBackend × Except BackendErr (GetTxOutResult × List Nat) :=
  let dcr1 := dcr.called (.getTxOut txHash vout true)
  match dcr.node.GetTxOut txHash vout true with
  | none => (dcr1, .error .getTxOut)
  | some none => (dcr1, .error .noUnspentTxOut)
  | some (some out) =>
    match x.hexDecodeString out.ScriptPubKeyHex with
    | none => (dcr1, .error .decodePkScript)
    | some pkScript => (dcr1, .ok (out, pkScript))

/-- The method `getTxOutInfo`: get information for an unspent transaction
output, plus the verbose transaction. -/
def DCRBackend.getTxOutInfo (dcr : DCRBackend) (x : Externals) (txHash : Hash) (vout : Nat) :
    DCRBackend × Except BackendErr (GetTxOutResult × TxRawResult × List Nat) :=
  let r := dcr.getUnspentTxOut x txHash vout
  match r.2 with
  | .error e => (r.1, .error e)
  | .ok (out, pkScript) =>
    let dcr2 := r.1.called (.getRawTransactionVerbose txHash)
    match r.1.node.GetRawTransactionVerbose txHash with
    | none => (dcr2, .error .getRawTransactionVerbose)
    | some verboseTx => (dcr2, .ok (out, verboseTx, pkScript))

/-- The method `getDcrBlock`: get the block information, checking the cache
first. -/
def DCRBackend.getDcrBlock (dcr : DCRBackend) (blockHash : Hash) :
    DCRBackend × Except BackendErr dcrBlock :=
  match dcr.blockCache.block blockHash with
  | some cachedBlock => (dcr, .ok cachedBlock)
  | none =>
    let dcr1 := dcr.called (.getBlockVerbose blockHash false)
    match dcr.node.GetBlockVerbose blockHash false with
    | none => (dcr1, .error .retrieveBlock)
    | some blockVerbose =>
      let r := dcr1.blockCache.add blockVerbose
      ({ dcr1 with blockCache := r.1 }, .ok r.2)

/-- The method `getBlockInfo`: same as `getDcrBlock`, but takes a string
argument. -/
def DCRBackend.getBlockInfo (dcr : DCRBackend) (x : Externals) (blockid : String) :
    DCRBackend × Except BackendErr dcrBlock :=
  match x.NewHashFromStr blockid with
  | none => (dcr, .error .decodeBlockHash)
  | some blockHash => dcr.getDcrBlock blockHash

/-- The loop of `transaction` over the inputs of the verbose transaction, from
the values `sumIn`, `isCoinbase` and `inputs` have before an iteration. -/
def transactionInputs (x : Externals) :
    List Vin → Nat → Bool → List txIn → Except BackendErr (Nat × Bool × List txIn)
  | [], sumIn, isCoinbase, inputs => .ok (sumIn, isCoinbase, inputs)
  | input :: rest, sumIn, _, inputs =>
    let isCoinbase := decide (input.Coinbase ≠ "")
    let sumIn := (sumIn + toAtoms input.AmountIn) % 2 ^ 64
    match x.NewHashFromStr input.Txid with
    | none => .error .decodePrevTxHash
    | some hash =>
      transactionInputs x rest sumIn isCoinbase
        (inputs ++ [{ prevTx := hash, vout := input.Vout }])

/-- The loop of `transaction` over the outputs of the verbose transaction,
from the values `sumOut` and `outputs` have before an iteration. -/
def transactionOutputs (x : Externals) :
    List Vout → Nat → List txOut → Except BackendErr (Nat × List txOut)
  | [], sumOut, outputs => .ok (sumOut, outputs)
  | output :: rest, sumOut, outputs =>
    match x.hexDecodeString output.ScriptPubKeyHex with
    | none => .error .decodePkScript
    | some pkScript =>
      transactionOutputs x rest ((sumOut + toAtoms output.Value) % 2 ^ 64)
        (outputs ++ [{ value := toAtoms output.Value, pkScript := pkScript }])

/-- The block of `transaction` that finds the block of the transaction: for a
mempool transaction the tip of the cache is the last lookup, otherwise the
block is fetched so that it is cached. Returns `blockHash` and `lastLookup`
(`none` for a nil pointer). -/
def DCRBackend.transactionBlock (dcr : DCRBackend) (x : Externals) (verboseTx : TxRawResult) :
    DCRBackend × Except BackendErr (Option Hash × Option Hash) :=
  if verboseTx.BlockHash = "" then
    let tipHash := dcr.blockCache.tipHash
    (dcr, .ok (none, if tipHash ≠ Hash.zero then some tipHash else none))
  else
    match x.NewHashFromStr verboseTx.BlockHash with
    | none => (dcr, .error .decodeBlockHash)
    | some blockHash =>
      let r := dcr.getDcrBlock blockHash
      match r.2 with
      | .error _ => (r.1, .error .cacheBlock)
      | .ok _ => (r.1, .ok (some blockHash, none))

/-- The method `transaction`. `sumIn` and `sumOut` are `uint64`: the sums and
their difference are taken modulo `2^64`. The division by the byte count
`len(verboseTx.Hex)/2` is a run-time panic when that count is 0, returned as
the error `divideByZero`. -/
def DCRBackend.transaction (dcr : DCRBackend) (x : Externals) (txHash : Hash)
    (verboseTx : TxRawResult) : DCRBackend × Except BackendErr Tx :=
  match x.isStakeTx verboseTx.Hex with
  | none => (dcr, .error .decodeMsgTx)
  | some isStake =>
    let b := dcr.transactionBlock x verboseTx
    match b.2 with
    | .error e => (b.1, .error e)
    | .ok (blockHash, lastLookup) =>
      match transactionInputs x verboseTx.Vin 0 false [] with
      | .error e => (b.1, .error e)
      | .ok (sumIn, isCoinbase, inputs) =>
        match transactionOutputs x verboseTx.Vout 0 [] with
        | .error e => (b.1, .error e)
        | .ok (sumOut, outputs) =>
          if verboseTx.Hex.utf8ByteSize / 2 = 0 then (b.1, .error .divideByZero)
          else
            let feeRate := ((sumIn + 2 ^ 64 - sumOut) % 2 ^ 64) / (verboseTx.Hex.utf8ByteSize / 2)
            let feeRate := if isCoinbase then 0 else feeRate
            (b.1, .ok
              { hash := txHash, blockHash := blockHash, lastLookup := lastLookup,
                height := verboseTx.BlockHeight, isStake := isStake, ins := inputs,
                outs := outputs, feeRate := feeRate })

/-- The block of `utxo` for a pay-to-script-hash output: the script hash is
extracted from the pubkey script and checked against the hash of the
user-supplied redeem script. -/
def utxoScriptHashCheck (x : Externals) (scriptType : DCRScriptType)
    (pkScript redeemScript : List Nat) : Except BackendErr Unit :=
  if scriptType.IsP2SH then
    match x.ExtractScriptHashByType scriptType pkScript with
    | none => .error .extractScriptHash
    | some scriptHash =>
      if x.Hash160 redeemScript ≠ scriptHash then .error .scriptHashCheck else .ok ()
  else .ok ()

/-- The block of `utxo` that finds the block of the output: a confirmed output
needs the block of its transaction, a mempool output takes the tip of the
cache as the last lookup. Returns `blockHeight`, `blockHash` and `lastLookup`
(`none` for a nil pointer). -/
def DCRBackend.utxoBlock (dcr : DCRBackend) (x : Externals) (out : GetTxOutResult)
    (verboseTx : TxRawResult) : DCRBackend × Except BackendErr (Nat × Hash × Option Hash) :=
  let blockHeight := (verboseTx.BlockHeight % 2 ^ 32).toNat
  if out.Confirmations > 0 then
    if blockHeight = 0 then (dcr, .error .noRawTransaction)
    else
      let r := dcr.getBlockInfo x verboseTx.BlockHash
      match r.2 with
      | .error e => (r.1, .error e)
      | .ok blk => (r.1, .ok (blk.height, blk.hash, none))
  else
    let tipHash := dcr.blockCache.tipHash
    (dcr, .ok (blockHeight, Hash.zero, if tipHash ≠ Hash.zero then some tipHash else none))

/-- The maturity `utxo` requires of an output: coinbase, vote, and revocation
transactions all must mature before spending. -/
def utxoMaturity (x : Externals) (scriptType : DCRScriptType) (out : GetTxOutResult) : Int :=
  if scriptType.IsStake || out.Coinbase then (x.CoinbaseMaturity : Int) else 0

/-- The end of `utxo`, after the maturity check: the transaction is fetched and
the `UTXO` is filled. -/
def DCRBackend.utxoBuild (dcr : DCRBackend) (x : Externals) (txHash : Hash) (vout : Nat)
    (redeemScript : List Nat) (out : GetTxOutResult) (verboseTx : TxRawResult)
    (pkScript : List Nat) (inputNfo : SpendInfo) (blockHeight : Nat) (blockHash : Hash)
    (lastLookup : Option Hash) (maturity : Int) : DCRBackend × Except BackendErr UTXO :=
  let r := dcr.transaction x txHash verboseTx
  match r.2 with
  | .error e => (r.1, .error (.fetchTransaction e))
  | .ok tx =>
    (r.1, .ok
      { tx := tx, height := blockHeight, blockHash := blockHash, vout := vout,
        maturity := maturity, scriptType := inputNfo.ScriptType, pkScript := pkScript,
        redeemScript := redeemScript, numSigs := inputNfo.NRequired,
        spendSize := inputNfo.SigScriptSize + x.TxInOverhead, value := toAtoms out.Value,
        lastLookup := lastLookup })

/-- The part of `utxo` after the script hash check: the block of the output is
found, the maturity is checked, and the `UTXO` is built. -/
def DCRBackend.utxoChecked (dcr : DCRBackend) (x : Externals) (txHash : Hash) (vout : Nat)
    (redeemScript : List Nat) (out : GetTxOutResult) (verboseTx : TxRawResult)
    (pkScript : List Nat) (inputNfo : SpendInfo) : DCRBackend × Except BackendErr UTXO :=
  let b := dcr.utxoBlock x out verboseTx
  match b.2 with
  | .error e => (b.1, .error e)
  | .ok (blockHeight, blockHash, lastLookup) =>
    let maturity := utxoMaturity x inputNfo.ScriptType out
    if out.Confirmations < maturity then (b.1, .error .immatureTransaction)
    else
      b.1.utxoBuild x txHash vout redeemScript out verboseTx pkScript inputNfo blockHeight
        blockHash lastLookup maturity

/-- The method `utxo`: get the UTXO, populating the block data along the
way. -/
def DCRBackend.utxo (dcr : DCRBackend) (x : Externals) (txHash : Hash) (vout : Nat)
    (redeemScript : List Nat) : DCRBackend × Except BackendErr UTXO :=
  let r := dcr.getTxOutInfo x txHash vout
  match r.2 with
  | .error e => (r.1, .error e)
  | .ok (out, verboseTx, pkScript) =>
    match x.InputInfo pkScript redeemScript with
    | none => (r.1, .error .inputInfo)
    | some inputNfo =>
      match utxoScriptHashCheck x inputNfo.ScriptType pkScript redeemScript with
      | .error e => (r.1, .error e)
      | .ok _ => r.1.utxoChecked x txHash vout redeemScript out verboseTx pkScript inputNfo

/-- The method `Coin`: the coin id is decoded and the output looked up. -/
def DCRBackend.Coin (dcr : DCRBackend) (x : Externals) (coinID redeemScript : List Nat) :
    DCRBackend × Except BackendErr UTXO :=
  match decodeCoinID coinID with
  | .error e => (dcr, .error (.decodeCoinID e))
  | .ok (txHash, vout) => dcr.utxo x txHash vout redeemScript

/-- The case of `superQueue` for a new block notification, up to the fanout:
the block is fetched, a block at or below the tip of the cache forces a reorg,
and the block is added to the cache. Returns the height sent to the block
channels, `none` when the block cannot be fetched and `superQueue` returns. -/
def DCRBackend.superQueueBlock (dcr : DCRBackend) (blockHash : Hash) :
    DCRBackend × Option Nat :=
  let dcr1 := dcr.called (.getBlockVerbose blockHash false)
  match dcr.node.GetBlockVerbose blockHash false with
  | none => (dcr1, none)
  | some blockVerbose =>
    let currentTip : Int := dcr1.blockCache.tipHeight
    let cache :=
      if blockVerbose.Height ≤ currentTip then dcr1.blockCache.reorg blockVerbose
      else dcr1.blockCache
    let r := cache.add blockVerbose
    ({ dcr1 with blockCache := r.1 }, some r.2.height)

/-! ## Notions the statements are phrased in -/

/-- The order built from a snapshot entry by the loop of `Sync`. -/
def SnapshotOrder.toOrder (o : SnapshotOrder) : Order :=
  { OrderID := o.OrderID, Side := o.Side, Quantity := o.Quantity, Rate := o.Rate,
    Time := o.Time }

/-- A snapshot entry the loop of `Sync` accepts: a 32-byte order id and side
buy (1) or sell (2). -/
def SnapshotOrder.wellFormed (o : SnapshotOrder) : Bool :=
  decide (o.OrderID.length = 32) && (decide (o.Side = 1) || decide (o.Side = 2))

/-- The market id carried by a cached note's payload, if it is a note. -/
def NotePayload.MarketID : NotePayload → Option String
  | .book n => some n.MarketID
  | .unbook n => some n.MarketID
  | .other => none

/-- The seq carried by a cached note's payload, if it is a note. -/
def NotePayload.Seq : NotePayload → Option Nat
  | .book n => some n.Seq
  | .unbook n => some n.Seq
  | .other => none

/-- A cached note as `cacheOrderNote` is handed it by `book` and `unbook`: a
book note under the book route or an unbook note under the unbook route. -/
def cachedOrderNote.wellTyped (c : cachedOrderNote) : Bool :=
  match c.OrderNote with
  | .book _ => decide (c.Route = BookOrderRoute)
  | .unbook _ => decide (c.Route = UnbookOrderRoute)
  | .other => false

/-- Replay of one buffered note on a book through the exported `Book` /
`Unbook`, as the spec words the drain ("applying n1..nk in arrival order
through Book/Unbook"); a payload that is no note makes no call. -/
def replayNote (ob : OrderBook) (c : cachedOrderNote) : OrderBook × Ret :=
  match c.OrderNote with
  | .book n => ob.Book n
  | .unbook n => ob.Unbook n
  | .other => (ob, .nil)

/-- Replay of buffered notes in arrival order through `Book` / `Unbook`. -/
def replayNotes (ob : OrderBook) : List cachedOrderNote → OrderBook
  | [] => ob
  | c :: rest => replayNotes (replayNote ob c).1 rest

/-- A call the listener makes on a registered book: `Book` for a `book_order`
notification, `Unbook` for an `unbook_order` notification. -/
inductive Call where
  | book (n : BookOrderNote)
  | unbook (n : UnbookOrderNote)
deriving DecidableEq

/-- The seq carried by the note of a call. -/
def Call.Seq : Call → Nat
  | .book n => n.Seq
  | .unbook n => n.Seq

/-- One call on a book; the book stays in use whatever the call returns, as
`listen` only logs the error of a failed handler. -/
def OrderBook.call (ob : OrderBook) : Call → OrderBook × Ret
  | .book n => ob.Book n
  | .unbook n => ob.Unbook n

/-- The book after a sequence of calls. -/
def OrderBook.run (ob : OrderBook) : List Call → OrderBook
  | [] => ob
  | c :: cs => (ob.call c).1.run cs

/-- Whether a call is applied on a synced book: it returns no error and
advances the seq.  A call on a synced book that returns no error either
discards the note and changes nothing, or applies it, which advances the seq
and writes `Orders`. -/
def OrderBook.applies (ob : OrderBook) (c : Call) : Bool :=
  decide ((ob.call c).2 = .nil) && decide ((ob.call c).1.Seq ≠ ob.Seq)

/-- The seq values of the notes applied by a sequence of calls, in order. -/
def OrderBook.appliedSeqs (ob : OrderBook) : List Call → List Nat
  | [] => []
  | c :: cs =>
    if ob.applies c then c.Seq :: (ob.call c).1.appliedSeqs cs
    else (ob.call c).1.appliedSeqs cs

/-- Whether no failing call of a sequence advances the seq: every call either
returns no error or leaves the seq as it was. -/
def OrderBook.noFailedAdvance (ob : OrderBook) : List Call → Bool
  | [] => true
  | c :: cs =>
    (decide ((ob.call c).2 = .nil) || decide ((ob.call c).1.Seq = ob.Seq)) &&
      (ob.call c).1.noFailedAdvance cs

/-- The calls a pending queue stands for: one per buffered note, in arrival
order. -/
def queueCalls : List cachedOrderNote → List Call
  | [] => []
  | c :: rest =>
    match c.OrderNote with
    | .book n => .book n :: queueCalls rest
    | .unbook n => .unbook n :: queueCalls rest
    | .other => queueCalls rest

/-- Whether a book note passes every check `book` makes on a synced book
before it writes `Orders`: own market, not stale, the next seq, a 32-byte
order id. -/
def OrderBook.inserts (ob : OrderBook) (n : BookOrderNote) : Bool :=
  decide (ob.MarketID = n.MarketID) && !decide (ob.Seq > n.Seq) &&
    decide ((ob.Seq + 1) % 2 ^ 64 = n.Seq) && decide (n.OrderID.length = OrderIDSize)

/-- Whether a call is one the order map keeps unique: a book note that reaches
the write to `Orders` names side buy or sell and an order id `Orders` does
not hold. -/
def OrderBook.admits (ob : OrderBook) : Call → Bool
  | .book n =>
    !ob.inserts n ||
      ((decide (n.Side = BuyOrderNum) || decide (n.Side = SellOrderNum)) &&
        decide (ob.Orders n.OrderID = none))
  | .unbook _ => true

/-- Whether every call of a sequence is admitted by the book it is made on. -/
def OrderBook.admitsAll (ob : OrderBook) : List Call → Bool
  | [] => true
  | c :: cs => ob.admits c && (ob.call c).1.admitsAll cs

/-- The agreement between the order map and the two sides that `Sync`
establishes: every resting order of a side is the map's entry for its id and
names that side, every entry of the map is keyed by its own id and rests on
the side it names, and no side holds an id twice. -/
def Consistent (orders : OrderMap) (buys sells : bookSide) : Prop :=
  (∀ o ∈ buys.orders, orders o.OrderID = some o ∧ o.Side = BuyOrderNum) ∧
  (∀ o ∈ sells.orders, orders o.OrderID = some o ∧ o.Side = SellOrderNum) ∧
  (∀ k o, orders k = some o →
    o.OrderID = k ∧
      ((o.Side = BuyOrderNum ∧ o ∈ buys.orders) ∨
        (o.Side = SellOrderNum ∧ o ∈ sells.orders))) ∧
  buys.ids.Nodup ∧ sells.ids.Nodup

/-- The representation invariant of the modelled book side: no level is
empty, every order rests in the level of its rate, and the levels are strictly
ordered best-first, so there is one level per rate.  `NewBookSide` establishes
it, `Add` and `Remove` keep it. -/
def bookSide.wellFormed (d : bookSide) : Prop :=
  (∀ lvl ∈ d.bins, lvl.2 ≠ [] ∧ ∀ o ∈ lvl.2, o.Rate = lvl.1) ∧
  (d.bins.map (fun lvl => lvl.1)).Pairwise (fun a b => d.orderPref.before a b = true)

/-- An operation on an order book: `Sync` with a snapshot, `Book` or
`Unbook` with a note. -/
inductive Op where
  | sync (S : Snapshot)
  | book (n : BookOrderNote)
  | unbook (n : UnbookOrderNote)
deriving DecidableEq

/-- One operation on a book, whatever it returns. -/
def OrderBook.step (ob : OrderBook) : Op → OrderBook × Ret
  | .sync S => ob.Sync S
  | .book n => ob.Book n
  | .unbook n => ob.Unbook n

/-- The book after a sequence of operations. -/
def OrderBook.exec (ob : OrderBook) : List Op → OrderBook
  | [] => ob
  | op :: ops => (ob.step op).1.exec ops

/-- Whether a book note does not overwrite an entry of `Orders`: if it passes
every check before the write (own market, not stale, the next seq, a 32-byte
order id), `Orders` does not hold its order id. -/
def OrderBook.writesFresh (ob : OrderBook) (n : BookOrderNote) : Bool :=
  !ob.inserts n || decide (ob.Orders n.OrderID = none)

/-- Whether the drain of a pending queue overwrites no entry of `Orders`: the
condition `writesFresh` for every book note the loop of `processCachedNotes`
processes, on the book it is processed on. -/
def drainFresh (ob : OrderBook) : List cachedOrderNote → Bool
  | [] => true
  | entry :: rest =>
    let ob1 := { ob with NoteQueue := rest }
    if entry.Route = BookOrderRoute then
      match entry.OrderNote with
      | .book note =>
        ob1.writesFresh note &&
          (decide ((ob1.book note true).2 ≠ .nil) || drainFresh (ob1.book note true).1 rest)
      | _ => true
    else if entry.Route = UnbookOrderRoute then
      match entry.OrderNote with
      | .unbook note =>
        decide ((ob1.unbook note true).2 ≠ .nil) ||
          drainFresh (ob1.unbook note true).1 rest
      | _ => true
    else true

/-- Whether an operation introduces no order id twice: a snapshot handed to
`Sync` on an unsynced book has pairwise distinct order ids and the drain that
follows it overwrites no entry of `Orders`; a book note passed to `Book` on a
synced book overwrites no entry of `Orders`. -/
def OrderBook.keepsUnique (ob : OrderBook) : Op → Bool
  | .sync S =>
    ob.Synced ||
      (decide (S.Orders.map (fun o => o.OrderID)).Nodup &&
        (decide ((syncOrders (ob.syncInit S) S.Orders).2 ≠ .nil) ||
          drainFresh (syncOrders (ob.syncInit S) S.Orders).1 ob.NoteQueue))
  | .book n => !ob.Synced || ob.writesFresh n
  | .unbook _ => true

/-- Whether every operation of a sequence introduces no order id twice on the
book it is made on. -/
def OrderBook.keepsUniqueAll (ob : OrderBook) : List Op → Bool
  | [] => true
  | op :: ops => ob.keepsUnique op && (ob.step op).1.keepsUniqueAll ops

/-- The uniqueness of order ids on the sides, with what keeps it: no id is
held twice on the two sides together, every id on a side is a key of
`Orders`, and every entry of `Orders` is keyed by its own id. -/
def Unique (orders : OrderMap) (buys sells : bookSide) : Prop :=
  (buys.ids ++ sells.ids).Nodup ∧
  (∀ k ∈ buys.ids ++ sells.ids, orders k ≠ none) ∧
  (∀ k o, orders k = some o → o.OrderID = k)

/-- The market id carried by the note of a call. -/
def Call.MarketID : Call → String
  | .book n => n.MarketID
  | .unbook n => n.MarketID

/-- The body of the drain loop of `processCachedNotes` for one entry taken off
the queue: the cached apply of the entry's note, selected by its route. -/
def OrderBook.applyCached (ob : OrderBook) (entry : cachedOrderNote) : OrderBook × Ret :=
  if entry.Route = BookOrderRoute then
    match entry.OrderNote with
    | .book note => ob.book note true
    | _ => (ob, .panic)
  else if entry.Route = UnbookOrderRoute then
    match entry.OrderNote with
    | .unbook note => ob.unbook note true
    | _ => (ob, .panic)
  else (ob, .error .unknownCachedRoute)

/-- The book after the cached apply of each entry of a list, in order. -/
def OrderBook.applyAllCached (ob : OrderBook) : List cachedOrderNote → OrderBook
  | [] => ob
  | e :: es => (ob.applyCached e).1.applyAllCached es

/-- Whether the cached apply of every entry of a list, each on the book its
predecessors leave, returns no error. -/
def OrderBook.appliesAllCached (ob : OrderBook) : List cachedOrderNote → Bool
  | [] => true
  | e :: es => decide ((ob.applyCached e).2 = .nil) && (ob.applyCached e).1.appliesAllCached es

/-- The summed input value of a verbose transaction, in atoms. -/
def sumAmountIn (vin : List Vin) : Nat := (vin.map (fun i => toAtoms i.AmountIn)).sum

/-- The summed output value of a verbose transaction, in atoms. -/
def sumValue (vout : List Vout) : Nat := (vout.map (fun o => toAtoms o.Value)).sum

/-- Whether the last input of a verbose transaction is a coinbase input: the
value the flag `isCoinbase` of `transaction` has after the loop over the
inputs. -/
def lastInputIsCoinbase (vin : List Vin) : Bool :=
  match vin.getLast? with
  | some i => decide (i.Coinbase ≠ "")
  | none => false

/-- Modelled from the spec: the other reading of `remove`, "delete by order_id
within the level" (`bookside.go` is not under src/): deletion of the last
order of a FIFO carrying the given id, which is what a removal by
back-reference from the order appended last amounts to. -/
def removeLastFromBin (id : OrderID) (q : List Order) : Option (List Order) :=
  (removeFromBin id q.reverse).map List.reverse

/-! ## Concrete books and notes -/

/-- The 32-byte order id whose bytes all equal `b`. -/
def idOf (b : Nat) : OrderID := List.replicate 32 b

/-- An empty snapshot of market `dcr_btc` at seq 42. -/
def snapshot42 : Snapshot := { Seq := 42, MarketID := "dcr_btc", Orders := [] }

/-- The book obtained from `NewOrderBook` by syncing `snapshot42`: synced at
seq 42. -/
def bookAt42 : OrderBook := (NewOrderBook.Sync snapshot42).1

/-- A well-formed buy note of market `dcr_btc` carrying seq 42. -/
def bookNote42 : BookOrderNote :=
  { Seq := 42, MarketID := "dcr_btc", OrderID := idOf 1, Side := 1, Quantity := 5,
    Rate := 100 }

/-- An unbook note of market `dcr_btc` carrying seq 42. -/
def unbookNote42 : UnbookOrderNote :=
  { Seq := 42, MarketID := "dcr_btc", OrderID := idOf 1 }

/-- A well-formed buy note of market `dcr_btc` carrying seq 43, the seq that
follows 42. -/
def bookNote43 : BookOrderNote :=
  { Seq := 43, MarketID := "dcr_btc", OrderID := idOf 1, Side := 1, Quantity := 5,
    Rate := 100 }

/-- A well-formed buy note of market `dcr_btc` carrying seq 44, one beyond the
seq that follows 42. -/
def bookNote44 : BookOrderNote :=
  { Seq := 44, MarketID := "dcr_btc", OrderID := idOf 1, Side := 1, Quantity := 5,
    Rate := 100 }

/-- An unbook note of market `dcr_btc` carrying seq 44. -/
def unbookNote44 : UnbookOrderNote :=
  { Seq := 44, MarketID := "dcr_btc", OrderID := idOf 1 }

/-- A book note carrying the empty market id of a book fresh from
`NewOrderBook`. -/
def bookNoteNoMarket : BookOrderNote :=
  { Seq := 7, MarketID := "", OrderID := idOf 1, Side := 1, Quantity := 5, Rate := 100 }

/-- An unbook note carrying the empty market id of a book fresh from
`NewOrderBook`. -/
def unbookNoteNoMarket : UnbookOrderNote :=
  { Seq := 9, MarketID := "", OrderID := idOf 2 }

/-- A snapshot of market `dcr_btc` at seq 8 holding the sell order B. -/
def snapshot8 : Snapshot :=
  { Seq := 8, MarketID := "dcr_btc",
    Orders := [{ OrderID := idOf 2, Side := 2, Quantity := 3, Rate := 105, Time := 1 }] }

/-- A buy note for order A of market `dcr_btc` carrying seq 8, the seq of
`snapshot8`. -/
def bookNote8 : BookOrderNote :=
  { Seq := 8, MarketID := "dcr_btc", OrderID := idOf 1, Side := 1, Quantity := 5,
    Rate := 100 }

/-- An unsynced book of market `dcr_btc` whose pending queue holds
`bookNote8`. -/
def pendingAt8 : OrderBook :=
  { NewOrderBook with
    MarketID := "dcr_btc",
    NoteQueue := [{ Route := BookOrderRoute, OrderNote := .book bookNote8 }] }

/-- The snapshot `snapshot8` under the empty market id. -/
def snapshot8NoMarket : Snapshot := { snapshot8 with MarketID := "" }

/-- The note `bookNote8` under the empty market id. -/
def bookNote8NoMarket : BookOrderNote := { bookNote8 with MarketID := "" }

/-- A buy note for order A of market `dcr_btc` carrying seq 7. -/
def bookNote7 : BookOrderNote :=
  { Seq := 7, MarketID := "dcr_btc", OrderID := idOf 1, Side := 1, Quantity := 5,
    Rate := 100 }

/-- An unbook note for order B of market `dcr_btc` carrying seq 9. -/
def unbookNote9 : UnbookOrderNote :=
  { Seq := 9, MarketID := "dcr_btc", OrderID := idOf 2 }

/-- An unsynced book of market `dcr_btc` whose pending queue holds
`bookNote7` and then `unbookNote9`. -/
def pendingS1 : OrderBook :=
  { NewOrderBook with
    MarketID := "dcr_btc",
    NoteQueue :=
      [{ Route := BookOrderRoute, OrderNote := .book bookNote7 },
       { Route := UnbookOrderRoute, OrderNote := .unbook unbookNote9 }] }

/-- A snapshot of market `dcr_btc` at seq 8 whose second order has a side that
is neither buy nor sell. -/
def snapshotBadSide : Snapshot :=
  { Seq := 8, MarketID := "dcr_btc",
    Orders :=
      [{ OrderID := idOf 2, Side := 2, Quantity := 3, Rate := 105, Time := 1 },
       { OrderID := idOf 3, Side := 3, Quantity := 1, Rate := 101, Time := 2 }] }

/-- A book note of market `dcr_btc` carrying seq 43 whose order id has only 31
bytes. -/
def bookNote43Short : BookOrderNote :=
  { Seq := 43, MarketID := "dcr_btc", OrderID := List.replicate 31 1, Side := 1,
    Quantity := 5, Rate := 100 }

/-- A book note of market `dcr_btc` carrying seq 43 and the unknown side 3. -/
def bookNote43BadSide : BookOrderNote :=
  { Seq := 43, MarketID := "dcr_btc", OrderID := idOf 1, Side := 3, Quantity := 5,
    Rate := 100 }

/-- A second buy note for the order id of `bookNote43`, at seq 44 and rate 99. -/
def bookNote44Again : BookOrderNote :=
  { Seq := 44, MarketID := "dcr_btc", OrderID := idOf 1, Side := 1, Quantity := 5,
    Rate := 99 }

/-- An unbook note of market `dcr_btc` for the same order id, carrying
seq 45. -/
def unbookNote45 : UnbookOrderNote :=
  { Seq := 45, MarketID := "dcr_btc", OrderID := idOf 1 }

/-- A buy note for order C of market `dcr_btc` carrying seq 10. -/
def bookNote10 : BookOrderNote :=
  { Seq := 10, MarketID := "dcr_btc", OrderID := idOf 3, Side := 1, Quantity := 2,
    Rate := 99 }

/-- A well-formed buy note of another market, `dcr_eth`, carrying seq 43. -/
def bookNoteForeign : BookOrderNote := { bookNote43 with MarketID := "dcr_eth" }

/-- An unbook note of another market, `dcr_eth`, carrying seq 43. -/
def unbookNoteForeign : UnbookOrderNote :=
  { Seq := 43, MarketID := "dcr_eth", OrderID := idOf 1 }

/-- An unbook note of market `dcr_btc` carrying seq 43, for an order id the
book synced at seq 42 does not hold. -/
def unbookNote43 : UnbookOrderNote :=
  { Seq := 43, MarketID := "dcr_btc", OrderID := idOf 1 }

/-- The book of scenario S1 of the spec after its last note: synced at seq 10,
holding the buy order C. -/
def bookS1 : OrderBook := (pendingS1.Sync snapshot8).1.run [.book bookNote10]

/-- A snapshot of market `dcr_btc` at the largest 64-bit seq. -/
def snapshotMaxSeq : Snapshot :=
  { Seq := 2 ^ 64 - 1, MarketID := "dcr_btc", Orders := [] }

/-- The book obtained from `NewOrderBook` by syncing `snapshotMaxSeq`. -/
def bookAtMaxSeq : OrderBook := (NewOrderBook.Sync snapshotMaxSeq).1

/-- A well-formed buy note of market `dcr_btc` carrying the largest 64-bit
seq. -/
def bookNoteMaxSeq : BookOrderNote :=
  { Seq := 2 ^ 64 - 1, MarketID := "dcr_btc", OrderID := idOf 1, Side := 1,
    Quantity := 5, Rate := 100 }

/-- An unbook note of market `dcr_btc` carrying the largest 64-bit seq. -/
def unbookNoteMaxSeq : UnbookOrderNote :=
  { Seq := 2 ^ 64 - 1, MarketID := "dcr_btc", OrderID := idOf 1 }

/-- The tx hash of scenario S4 of the spec: 32 bytes of `0x11`. -/
def hashS4 : Hash := ⟨List.replicate 32 0x11, by decide⟩

/-- The book synced at seq 42 after two `Book` calls for the same order id, at
rates 100 and 99: synced at seq 44, `Orders` holds the second order, the buy
side holds both. -/
def bookTwice : OrderBook := bookAt42.run [.book bookNote43, .book bookNote44Again]

/-- The book `bookTwice` after the unbook note with seq 45: the order id is no
key of `Orders` but still rests on the buy side at rate 100. -/
def bookLeftover : OrderBook := bookTwice.run [.unbook unbookNote45]

/-- A buy note of market `dcr_btc` for the same order id at seq 46, rate 100
and quantity 7. -/
def bookNote46 : BookOrderNote :=
  { Seq := 46, MarketID := "dcr_btc", OrderID := idOf 1, Side := 1, Quantity := 7,
    Rate := 100 }

/-- An unbook note of market `dcr_btc` for the same order id, carrying
seq 47. -/
def unbookNote47 : UnbookOrderNote :=
  { Seq := 47, MarketID := "dcr_btc", OrderID := idOf 1 }

/-- The book synced at seq 42 after the buy note with seq 43: synced at seq 43
with one resting buy order. -/
def bookOne : OrderBook := bookAt42.run [.book bookNote43]

/-- A run from `NewOrderBook` in which the same order id is booked twice: the
snapshot at seq 42, then buy notes for one id at seq 43 and seq 44. -/
def opsBookTwice : List Op :=
  [.sync snapshot42, .book bookNote43, .book bookNote44Again]

/-- A snapshot of market `dcr_btc` at seq 8 that lists the same order id
twice, at rates 105 and 106. -/
def snapshotTwice : Snapshot :=
  { Seq := 8, MarketID := "dcr_btc",
    Orders :=
      [{ OrderID := idOf 2, Side := 2, Quantity := 3, Rate := 105, Time := 1 },
       { OrderID := idOf 2, Side := 2, Quantity := 3, Rate := 106, Time := 2 }] }

/-- A run from `NewOrderBook` along scenario S1 of the spec: a book note that
arrives before the snapshot (and is rejected, the fresh book has no market
id), the snapshot at seq 8, the unbook note with seq 9, and the book note with
seq 10. -/
def opsS1 : List Op :=
  [.book bookNote7, .sync snapshot8, .unbook unbookNote9, .book bookNote10]

/-- A buy note for order A of market `dcr_btc` carrying seq 11. -/
def bookNote11 : BookOrderNote :=
  { Seq := 11, MarketID := "dcr_btc", OrderID := idOf 1, Side := 1, Quantity := 5,
    Rate := 100 }

/-- An unsynced book of market `dcr_btc` whose pending queue holds
`unbookNote9`, then `bookNote11`, then `bookNote10`. -/
def pendingGap : OrderBook :=
  { NewOrderBook with
    MarketID := "dcr_btc",
    NoteQueue :=
      [{ Route := UnbookOrderRoute, OrderNote := .unbook unbookNote9 },
       { Route := BookOrderRoute, OrderNote := .book bookNote11 },
       { Route := BookOrderRoute, OrderNote := .book bookNote10 }] }

/-- A connection whose only book is the book synced at seq 42, registered
under its market `dcr_btc`. -/
def connAt42 : dexConnection :=
  { assets := fun _ => none,
    books := fun m => if m = "dcr_btc" then some bookAt42 else none,
    cfg := { Assets := [], Markets := [] } }

/-- A configuration with the asset `dcr` and one market whose quote asset,
id 0, is not among the assets. -/
def cfgMissingQuote : ConfigResult :=
  { Assets := [{ ID := 42, Symbol := "dcr" }], Markets := [(42, 0)] }

/-- A configuration with the assets `dcr` and `btc` and two markets: the
market of the two, and a market whose quote asset, id 2, is not among the
assets. -/
def cfgTwoMarkets : ConfigResult :=
  { Assets := [{ ID := 42, Symbol := "dcr" }, { ID := 0, Symbol := "btc" }],
    Markets := [(42, 0), (42, 2)] }

/-- A configuration with the assets `dcr` and `btc` and the market of the
two. -/
def cfgDcrBtc : ConfigResult :=
  { Assets := [{ ID := 42, Symbol := "dcr" }, { ID := 0, Symbol := "btc" }],
    Markets := [(42, 0)] }

/-- Stand-ins for the functions outside `dcr.go`, in the way of a test stub: a
hex string decodes to the codes of its characters, every hash string decodes
to the zero hash, no transaction is a stake transaction, a non-empty pubkey
script is a regular-tree P2SH script whose script hash is the script itself
(an empty one is regular-tree and not P2SH), and `Hash160` gives back its
argument. -/
def externalsStub : Externals :=
  { hexDecodeString := fun s => some (s.toList.map Char.toNat),
    NewHashFromStr := fun _ => some Hash.zero,
    isStakeTx := fun _ => some false,
    InputInfo := fun pkScript _ =>
      some { ScriptType := { IsP2SH := !pkScript.isEmpty, IsStake := false },
             NRequired := 1, SigScriptSize := 108 },
    ExtractScriptHashByType := fun _ pkScript => some pkScript,
    Hash160 := fun script => script,
    CoinbaseMaturity := 16,
    TxInOverhead := 57 }

/-- A mempool transaction of 2 bytes with one input of 5 atoms and one output
of 3 atoms. -/
def verboseTxStub : TxRawResult :=
  { Hex := "0000", BlockHash := "", BlockHeight := 0,
    Vin := [{ Coinbase := "", AmountIn := 5, Txid := "", Vout := 0 }],
    Vout := [{ Value := 3, ScriptPubKeyHex := "" }] }

/-- A mined transaction of 2 bytes in block `b` at height 7, with a coinbase
input of 3 atoms and one output of 3 atoms. -/
def verboseTxMined : TxRawResult :=
  { Hex := "0000", BlockHash := "b", BlockHeight := 7,
    Vin := [{ Coinbase := "c", AmountIn := 3, Txid := "", Vout := 0 }],
    Vout := [{ Value := 3, ScriptPubKeyHex := "" }] }

/-- A node in the way of a test stub. The transaction with hash `hashS4` is
`verboseTxMined`, and its output 0 is an unspent coinbase output with 3
confirmations. Every other transaction is `verboseTxStub`, with the unspent
outputs 0, a regular-tree mempool output, 2, a regular-tree output reported
with -1 confirmations, and 3, a P2SH mempool output with pubkey script `a`.
Every block is the block at height 7 with 3 confirmations. -/
def nodeStub : dcrNode :=
  { GetTxOut := fun txHash index _ =>
      if txHash = hashS4 then
        if index = 0 then
          some (some { Confirmations := 3, Value := 3, ScriptPubKeyHex := "", Coinbase := true })
        else some none
      else if index = 0 then
        some (some { Confirmations := 0, Value := 3, ScriptPubKeyHex := "", Coinbase := false })
      else if index = 2 then
        some (some { Confirmations := -1, Value := 3, ScriptPubKeyHex := "", Coinbase := false })
      else if index = 3 then
        some (some { Confirmations := 0, Value := 3, ScriptPubKeyHex := "a", Coinbase := false })
      else some none,
    GetRawTransactionVerbose := fun txHash =>
      if txHash = hashS4 then some verboseTxMined else some verboseTxStub,
    GetBlockVerbose := fun _ _ => some { Hash := Hash.zero, Confirmations := 3, Height := 7 },
    GetBlockHash := fun _ => none }

/-- A backend on `nodeStub` with an empty block cache that has made no call on
the node. -/
def backendStub : DCRBackend := { node := nodeStub, blockCache := newBlockCache, calls := [] }

/-- The value of a hexadecimal digit, `none` for any other character. -/
def hexDigit (c : Char) : Option Nat :=
  if 48 ≤ c.toNat ∧ c.toNat ≤ 57 then some (c.toNat - 48)
  else if 97 ≤ c.toNat ∧ c.toNat ≤ 102 then some (c.toNat - 87)
  else if 65 ≤ c.toNat ∧ c.toNat ≤ 70 then some (c.toNat - 55)
  else none

/-- The function `hex.DecodeString` of Go's `encoding/hex` on the characters of
a string: two digits give a byte, an odd length or a character that is no
hexadecimal digit is an error. -/
def hexBytes : List Char → Option (List Nat)
  | [] => some []
  | [_] => none
  | a :: b :: rest =>
    match hexDigit a, hexDigit b, hexBytes rest with
    | some hi, some lo, some bytes => some ((16 * hi + lo) :: bytes)
    | _, _, _ => none

/-- The serialization, in hexadecimal, of a Decred transaction of 109 bytes:
version 1, one input spending output 0 of the transaction with hash
`11…11`, one output of 2 atoms to a pay-to-pubkey-hash script, no lock time
and no expiry, and the witness of the input with a value of 1 atom and an
empty signature script. -/
def txHexUnderflow : String :=
  "010000000111111111111111111111111111111111111111111111111111111111111111110000000000ffffffff01020000000000000000001976a914222222222222222222222222222222222222222288ac000000000000000001010000000000000000000000ffffffff00"

/-- The serialization, in hexadecimal, of the same transaction with an output
of 782 atoms and an input value of 1000 atoms. -/
def txHexFee : String :=
  "010000000111111111111111111111111111111111111111111111111111111111111111110000000000ffffffff010e0300000000000000001976a914222222222222222222222222222222222222222288ac000000000000000001e80300000000000000000000ffffffff00"

/-- The functions outside `dcr.go` as they answer on the strings of the two
transactions above: `hex.DecodeString` is `hexBytes`; `NewHashFromStr` gives,
for a string of 64 hexadecimal digits, the bytes it denotes in reverse order
(shorter strings are not needed and are answered with an error); the two
serializations above deserialize to regular transactions, and no other string
is taken to deserialize. The script functions are those of `externalsStub`. -/
def externalsWire : Externals :=
  { externalsStub with
    hexDecodeString := fun s => hexBytes s.toList,
    NewHashFromStr := fun s =>
      match hexBytes s.toList with
      | some bytes =>
        if h : bytes.length = HashSize then some ⟨bytes.reverse, by simpa using h⟩ else none
      | none => none,
    isStakeTx := fun s => if s = txHexUnderflow ∨ s = txHexFee then some false else none }

/-- The verbose transaction of `txHexUnderflow`, in the mempool and not
coinbase: one input of 1 atom and one output of 2 atoms. -/
def verboseTxUnderflow : TxRawResult :=
  { Hex := txHexUnderflow, BlockHash := "", BlockHeight := 0,
    Vin := [{ Coinbase := "", AmountIn := 1,
              Txid := "1111111111111111111111111111111111111111111111111111111111111111",
              Vout := 0 }],
    Vout := [{ Value := 2, ScriptPubKeyHex := "76a914222222222222222222222222222222222222222288ac" }] }

/-- The verbose transaction of `txHexFee`, in the mempool and not coinbase: one
input of 1000 atoms and one output of 782 atoms. -/
def verboseTxFee : TxRawResult :=
  { Hex := txHexFee, BlockHash := "", BlockHeight := 0,
    Vin := [{ Coinbase := "", AmountIn := 1000,
              Txid := "1111111111111111111111111111111111111111111111111111111111111111",
              Vout := 0 }],
    Vout := [{ Value := 782, ScriptPubKeyHex := "76a914222222222222222222222222222222222222222288ac" }] }

/-- The pay-to-pubkey-hash script of the two transactions above. -/
def pkScriptP2PKH : List Nat := [118, 169, 20] ++ List.replicate 20 34 ++ [136, 172]

/-- A block hash: 32 bytes of `0x22`. -/
def hashB : Hash := ⟨List.replicate 32 0x22, by decide⟩

/-- A block cache holding two mainchain blocks: `hashS4` at height 7 and
`hashB` at height 8. -/
def cacheTo8 : blockCache :=
  ((newBlockCache.add { Hash := hashS4, Confirmations := 2, Height := 7 }).1.add
    { Hash := hashB, Confirmations := 1, Height := 8 }).1

/-- A backend on `nodeStub`, for which every block is the block with the zero
hash at height 7, with the cache `cacheTo8`. -/
def backendTo8 : DCRBackend := { node := nodeStub, blockCache := cacheTo8, calls := [] }

/-- A backend with the cache `cacheTo8` on a node that reports the block with
the zero hash at height 7 with -1 confirmations: a block that is not on the
main chain. -/
def backendOrphan : DCRBackend :=
  { node :=
      { nodeStub with
        GetBlockVerbose := fun _ _ => some { Hash := Hash.zero, Confirmations := -1, Height := 7 } },
    blockCache := cacheTo8, calls := [] }

/-- A coin id of 36 bytes: 32 bytes of `0x11` followed by `01 02 03 04`. -/
def coinIDS4 : List Nat := List.replicate 32 0x11 ++ [1, 2, 3, 4]

/-! ## Theorems -/

/-! ### Stale, current and future notes on a synced book -/

/-- A book note below the book's seq is discarded by `book` whenever the note
reaches the seq check: nothing changes. -/
theorem book_stale (ob : OrderBook) (note : BookOrderNote) (cached : Bool)
    (hs : cached = true ∨ ob.Synced = true) (hm : note.MarketID = ob.MarketID)
    (hlt : note.Seq < ob.Seq) : ob.book note cached = (ob, .nil) := by
  rcases hs with hs | hs <;>
    simp [OrderBook.book, OrderBook.isSynced, hs, hm, hlt]

/-- An unbook note below the book's seq is discarded by `unbook` whenever the
note reaches the seq check: nothing changes. -/
theorem unbook_stale (ob : OrderBook) (note : UnbookOrderNote) (cached : Bool)
    (hs : cached = true ∨ ob.Synced = true) (hm : note.MarketID = ob.MarketID)
    (hlt : note.Seq < ob.Seq) : ob.unbook note cached = (ob, .nil) := by
  rcases hs with hs | hs <;>
    simp [OrderBook.unbook, OrderBook.isSynced, hs, hm, hlt]

/-- A book note carrying exactly the book's seq is not discarded: `book`
advances the seq and fails with the out-of-sync error. -/
theorem book_current_seq (ob : OrderBook) (note : BookOrderNote) (cached : Bool)
    (hs : cached = true ∨ ob.Synced = true) (hm : note.MarketID = ob.MarketID)
    (heq : note.Seq = ob.Seq) :
    ob.book note cached =
      ({ ob with Seq := (ob.Seq + 1) % 2 ^ 64 }, .error .outOfSync) := by
  have hne : (ob.Seq + 1) % 2 ^ 64 ≠ ob.Seq := by omega
  simp only [Nat.reducePow] at hne
  rcases hs with hs | hs <;>
    simp [OrderBook.book, OrderBook.isSynced, hs, hm, heq, hne]

/-- An unbook note carrying exactly the book's seq is not discarded: `unbook`
advances the seq and fails with the out-of-sync error. -/
theorem unbook_current_seq (ob : OrderBook) (note : UnbookOrderNote) (cached : Bool)
    (hs : cached = true ∨ ob.Synced = true) (hm : note.MarketID = ob.MarketID)
    (heq : note.Seq = ob.Seq) :
    ob.unbook note cached =
      ({ ob with Seq := (ob.Seq + 1) % 2 ^ 64 }, .error .outOfSync) := by
  have hne : (ob.Seq + 1) % 2 ^ 64 ≠ ob.Seq := by omega
  simp only [Nat.reducePow] at hne
  rcases hs with hs | hs <;>
    simp [OrderBook.unbook, OrderBook.isSynced, hs, hm, heq, hne]

/-- A book note beyond the next seq: `book` advances the seq and fails with the
out-of-sync error, touching neither `Orders` nor a side. -/
theorem book_gap (ob : OrderBook) (note : BookOrderNote) (cached : Bool)
    (hs : cached = true ∨ ob.Synced = true) (hm : note.MarketID = ob.MarketID)
    (hgt : note.Seq > ob.Seq + 1) :
    ob.book note cached =
      ({ ob with Seq := (ob.Seq + 1) % 2 ^ 64 }, .error .outOfSync) := by
  have hne : (ob.Seq + 1) % 2 ^ 64 ≠ note.Seq := by omega
  simp only [Nat.reducePow] at hne
  have hng : ¬ note.Seq < ob.Seq := by omega
  rcases hs with hs | hs <;>
    simp [OrderBook.book, OrderBook.isSynced, hs, hm, hne, hng]

/-- An unbook note beyond the next seq: `unbook` advances the seq and fails
with the out-of-sync error, touching neither `Orders` nor a side. -/
theorem unbook_gap (ob : OrderBook) (note : UnbookOrderNote) (cached : Bool)
    (hs : cached = true ∨ ob.Synced = true) (hm : note.MarketID = ob.MarketID)
    (hgt : note.Seq > ob.Seq + 1) :
    ob.unbook note cached =
      ({ ob with Seq := (ob.Seq + 1) % 2 ^ 64 }, .error .outOfSync) := by
  have hne : (ob.Seq + 1) % 2 ^ 64 ≠ note.Seq := by omega
  simp only [Nat.reducePow] at hne
  have hng : ¬ note.Seq < ob.Seq := by omega
  rcases hs with hs | hs <;>
    simp [OrderBook.unbook, OrderBook.isSynced, hs, hm, hne, hng]

/-- C1, evaluated on the code at the boundary `note.seq = s`: the book synced
at seq 42 receives a book note and an unbook note of its own market carrying
seq 42.  Neither is discarded: `Book` and `Unbook` return the out-of-sync error
and move the seq to 43, where the claim promises no error and an unchanged
seq. -/
theorem C1_replay_at_current_seq_is_rejected :
    bookAt42.Synced = true ∧ bookAt42.Seq = 42 ∧
    bookNote42.MarketID = bookAt42.MarketID ∧ bookNote42.Seq ≤ bookAt42.Seq ∧
    (bookAt42.Book bookNote42).2 = .error .outOfSync ∧
    (bookAt42.Book bookNote42).1.Seq = 43 ∧
    unbookNote42.MarketID = bookAt42.MarketID ∧ unbookNote42.Seq ≤ bookAt42.Seq ∧
    (bookAt42.Unbook unbookNote42).2 = .error .outOfSync ∧
    (bookAt42.Unbook unbookNote42).1.Seq = 43 := by
  decide

/-- C2: on a synced book with seq `s < 2^64 - 1`, a book note of the book's
market with a 32-byte order id, side buy (1) or sell (2) and seq `s + 1` is
applied: `Book` returns no error, the seq becomes `s + 1`, `Orders` maps the
note's order id to an order with the note's side, quantity and rate, every
other entry of `Orders` is unchanged, and the order is added to the side it
names while the other side is untouched. -/
theorem C2_book_next_seq_applies (ob : OrderBook) (note : BookOrderNote)
    (hs : ob.Synced = true) (hlt : ob.Seq < 2 ^ 64 - 1)
    (hm : note.MarketID = ob.MarketID) (hlen : note.OrderID.length = 32)
    (hside : note.Side = 1 ∨ note.Side = 2) (hseq : note.Seq = ob.Seq + 1) :
    (ob.Book note).2 = .nil ∧
    (ob.Book note).1.Seq = ob.Seq + 1 ∧
    (ob.Book note).1.Orders note.OrderID =
      some { OrderID := note.OrderID, Side := note.Side,
             Quantity := note.Quantity, Rate := note.Rate, Time := 0 } ∧
    (∀ k, k ≠ note.OrderID → (ob.Book note).1.Orders k = ob.Orders k) ∧
    (note.Side = 1 →
      (ob.Book note).1.Buys = ob.Buys.Add
        { OrderID := note.OrderID, Side := note.Side,
          Quantity := note.Quantity, Rate := note.Rate, Time := 0 } ∧
      (ob.Book note).1.Sells = ob.Sells) ∧
    (note.Side = 2 →
      (ob.Book note).1.Sells = ob.Sells.Add
        { OrderID := note.OrderID, Side := note.Side,
          Quantity := note.Quantity, Rate := note.Rate, Time := 0 } ∧
      (ob.Book note).1.Buys = ob.Buys) := by
  have hmod : (ob.Seq + 1) % 2 ^ 64 = ob.Seq + 1 := by omega
  simp only [Nat.reducePow] at hmod
  rcases hside with h1 | h2
  · simp [OrderBook.Book, OrderBook.book, OrderBook.isSynced, hs, hm, hseq, hmod,
      hlen, OrderIDSize, BuyOrderNum, SellOrderNum, h1, OrderMap.set]
    intro k hk
    simp [hk]
  · simp [OrderBook.Book, OrderBook.book, OrderBook.isSynced, hs, hm, hseq, hmod,
      hlen, OrderIDSize, BuyOrderNum, SellOrderNum, h2, OrderMap.set]
    intro k hk
    simp [hk]

/-- Witness of C2: the book synced at seq 42 applies the buy note with
seq 43. -/
theorem C2_book_next_seq_applies_witness :
    (bookAt42.Book bookNote43).2 = .nil ∧
    (bookAt42.Book bookNote43).1.Seq = bookAt42.Seq + 1 ∧
    (bookAt42.Book bookNote43).1.Orders bookNote43.OrderID =
      some { OrderID := bookNote43.OrderID, Side := bookNote43.Side,
             Quantity := bookNote43.Quantity, Rate := bookNote43.Rate, Time := 0 } ∧
    (∀ k, k ≠ bookNote43.OrderID →
      (bookAt42.Book bookNote43).1.Orders k = bookAt42.Orders k) ∧
    (bookNote43.Side = 1 →
      (bookAt42.Book bookNote43).1.Buys = bookAt42.Buys.Add
        { OrderID := bookNote43.OrderID, Side := bookNote43.Side,
          Quantity := bookNote43.Quantity, Rate := bookNote43.Rate, Time := 0 } ∧
      (bookAt42.Book bookNote43).1.Sells = bookAt42.Sells) ∧
    (bookNote43.Side = 2 →
      (bookAt42.Book bookNote43).1.Sells = bookAt42.Sells.Add
        { OrderID := bookNote43.OrderID, Side := bookNote43.Side,
          Quantity := bookNote43.Quantity, Rate := bookNote43.Rate, Time := 0 } ∧
      (bookAt42.Book bookNote43).1.Buys = bookAt42.Buys) :=
  C2_book_next_seq_applies bookAt42 bookNote43 (by decide) (by decide) (by decide)
    (by decide) (by decide) (by decide)

/-- C3: on a synced book with seq `s`, a book or unbook note of the book's own
market with `note.seq > s + 1` makes `Book` / `Unbook` return the out-of-sync
error, and no order is added to or removed from `Orders` or either side. -/
theorem C3_gap_fails_out_of_sync (ob : OrderBook) (bn : BookOrderNote)
    (un : UnbookOrderNote) (hs : ob.Synced = true)
    (hbm : bn.MarketID = ob.MarketID) (hbs : bn.Seq > ob.Seq + 1)
    (hum : un.MarketID = ob.MarketID) (hus : un.Seq > ob.Seq + 1) :
    ((ob.Book bn).2 = .error .outOfSync ∧ (ob.Book bn).1.Orders = ob.Orders ∧
      (ob.Book bn).1.Buys = ob.Buys ∧ (ob.Book bn).1.Sells = ob.Sells) ∧
    ((ob.Unbook un).2 = .error .outOfSync ∧ (ob.Unbook un).1.Orders = ob.Orders ∧
      (ob.Unbook un).1.Buys = ob.Buys ∧ (ob.Unbook un).1.Sells = ob.Sells) := by
  unfold OrderBook.Book OrderBook.Unbook
  rw [book_gap ob bn false (Or.inr hs) hbm hbs,
    unbook_gap ob un false (Or.inr hs) hum hus]
  exact ⟨⟨rfl, rfl, rfl, rfl⟩, rfl, rfl, rfl, rfl⟩

/-- Witness of C3: the book synced at seq 42 receives notes with seq 44. -/
theorem C3_gap_fails_out_of_sync_witness :
    ((bookAt42.Book bookNote44).2 = .error .outOfSync ∧
      (bookAt42.Book bookNote44).1.Orders = bookAt42.Orders ∧
      (bookAt42.Book bookNote44).1.Buys = bookAt42.Buys ∧
      (bookAt42.Book bookNote44).1.Sells = bookAt42.Sells) ∧
    ((bookAt42.Unbook unbookNote44).2 = .error .outOfSync ∧
      (bookAt42.Unbook unbookNote44).1.Orders = bookAt42.Orders ∧
      (bookAt42.Unbook unbookNote44).1.Buys = bookAt42.Buys ∧
      (bookAt42.Unbook unbookNote44).1.Sells = bookAt42.Sells) :=
  C3_gap_fails_out_of_sync bookAt42 bookNote44 unbookNote44 (by decide) (by decide)
    (by decide) (by decide) (by decide)

/-! ### Buffering on an unsynced book -/

/-- C4 as stated fails: the book just built by `NewOrderBook` has the empty
market id, so a book note and an unbook note of market `dcr_btc` are rejected
with the invalid-market error and are not appended to the pending queue. -/
theorem C4_fresh_book_rejects_foreign_market :
    NewOrderBook.Synced = false ∧
    (NewOrderBook.Book bookNote43).2 = .error .invalidMarket ∧
    (NewOrderBook.Book bookNote43).2 ≠ .nil ∧
    (NewOrderBook.Book bookNote43).1.NoteQueue = [] ∧
    (NewOrderBook.Unbook unbookNote44).2 = .error .invalidMarket ∧
    (NewOrderBook.Unbook unbookNote44).2 ≠ .nil ∧
    (NewOrderBook.Unbook unbookNote44).1.NoteQueue = [] := by
  decide

/-- C4, amended: on every book that is not synced, every book or unbook note
whose market id equals the book's `MarketID` (the empty string for a book just
built by `NewOrderBook`) is buffered: `Book` / `Unbook` returns no error,
appends the note with its route as the last element of the pending queue, and
leaves seq, `Orders`, both sides and the synced flag unchanged. -/
theorem C4_unsynced_buffers_own_market (ob : OrderBook) (bn : BookOrderNote)
    (un : UnbookOrderNote) (hs : ob.Synced = false)
    (hbm : bn.MarketID = ob.MarketID) (hum : un.MarketID = ob.MarketID) :
    ((ob.Book bn).2 = .nil ∧
      (ob.Book bn).1.NoteQueue =
        ob.NoteQueue ++ [{ Route := BookOrderRoute, OrderNote := .book bn }] ∧
      (ob.Book bn).1.Seq = ob.Seq ∧ (ob.Book bn).1.Orders = ob.Orders ∧
      (ob.Book bn).1.Buys = ob.Buys ∧ (ob.Book bn).1.Sells = ob.Sells ∧
      (ob.Book bn).1.Synced = false) ∧
    ((ob.Unbook un).2 = .nil ∧
      (ob.Unbook un).1.NoteQueue =
        ob.NoteQueue ++ [{ Route := UnbookOrderRoute, OrderNote := .unbook un }] ∧
      (ob.Unbook un).1.Seq = ob.Seq ∧ (ob.Unbook un).1.Orders = ob.Orders ∧
      (ob.Unbook un).1.Buys = ob.Buys ∧ (ob.Unbook un).1.Sells = ob.Sells ∧
      (ob.Unbook un).1.Synced = false) := by
  simp [OrderBook.Book, OrderBook.book, OrderBook.Unbook, OrderBook.unbook,
    OrderBook.isSynced, OrderBook.cacheOrderNote, hs, hbm, hum]

/-- Witness of C4 (amended): the book just built by `NewOrderBook` buffers notes
carrying the empty market id. -/
theorem C4_unsynced_buffers_own_market_witness :
    ((NewOrderBook.Book bookNoteNoMarket).2 = .nil ∧
      (NewOrderBook.Book bookNoteNoMarket).1.NoteQueue =
        NewOrderBook.NoteQueue ++
          [{ Route := BookOrderRoute, OrderNote := .book bookNoteNoMarket }] ∧
      (NewOrderBook.Book bookNoteNoMarket).1.Seq = NewOrderBook.Seq ∧
      (NewOrderBook.Book bookNoteNoMarket).1.Orders = NewOrderBook.Orders ∧
      (NewOrderBook.Book bookNoteNoMarket).1.Buys = NewOrderBook.Buys ∧
      (NewOrderBook.Book bookNoteNoMarket).1.Sells = NewOrderBook.Sells ∧
      (NewOrderBook.Book bookNoteNoMarket).1.Synced = false) ∧
    ((NewOrderBook.Unbook unbookNoteNoMarket).2 = .nil ∧
      (NewOrderBook.Unbook unbookNoteNoMarket).1.NoteQueue =
        NewOrderBook.NoteQueue ++
          [{ Route := UnbookOrderRoute, OrderNote := .unbook unbookNoteNoMarket }] ∧
      (NewOrderBook.Unbook unbookNoteNoMarket).1.Seq = NewOrderBook.Seq ∧
      (NewOrderBook.Unbook unbookNoteNoMarket).1.Orders = NewOrderBook.Orders ∧
      (NewOrderBook.Unbook unbookNoteNoMarket).1.Buys = NewOrderBook.Buys ∧
      (NewOrderBook.Unbook unbookNoteNoMarket).1.Sells = NewOrderBook.Sells ∧
      (NewOrderBook.Unbook unbookNoteNoMarket).1.Synced = false) :=
  C4_unsynced_buffers_own_market NewOrderBook bookNoteNoMarket unbookNoteNoMarket
    (by decide) (by decide) (by decide)

/-! ### Draining the pending queue -/

/-- With `cached = true`, `book` never touches the pending queue or the synced
flag. -/
theorem book_cached_frame (ob : OrderBook) (note : BookOrderNote) :
    (ob.book note true).1.NoteQueue = ob.NoteQueue ∧
    (ob.book note true).1.Synced = ob.Synced ∧
    (ob.book note true).1.MarketID = ob.MarketID := by
  simp only [OrderBook.book]
  split_ifs <;> simp_all

/-- With `cached = true`, `unbook` never touches the pending queue or the
synced flag. -/
theorem unbook_cached_frame (ob : OrderBook) (note : UnbookOrderNote) :
    (ob.unbook note true).1.NoteQueue = ob.NoteQueue ∧
    (ob.unbook note true).1.Synced = ob.Synced ∧
    (ob.unbook note true).1.MarketID = ob.MarketID := by
  simp only [OrderBook.unbook]
  cases hO : ob.Orders note.OrderID <;> simp only [hO] <;> split_ifs <;> simp_all

/-- A queue of well-typed notes of the book's market that all lie below the
book's seq is drained without any effect but emptying the queue. -/
theorem processCachedLoop_stale (q : List cachedOrderNote) (ob : OrderBook)
    (hq : ∀ c ∈ q, c.wellTyped = true ∧ c.OrderNote.MarketID = some ob.MarketID ∧
      ∃ s, c.OrderNote.Seq = some s ∧ s < ob.Seq) :
    processCachedLoop ob q = ({ ob with NoteQueue := [] }, .nil) := by
  induction q generalizing ob with
  | nil => rfl
  | cons c rest ih =>
    obtain ⟨hwt, hmk, s, hsq, hlt⟩ := hq c (List.mem_cons_self _ _)
    have hrest := fun d hd => hq d (List.mem_cons_of_mem _ hd)
    obtain ⟨route, payload⟩ := c
    cases payload with
    | book n =>
      simp only [cachedOrderNote.wellTyped, decide_eq_true_eq] at hwt
      simp only [NotePayload.MarketID, Option.some.injEq] at hmk
      simp only [NotePayload.Seq, Option.some.injEq] at hsq
      subst hsq
      have hb := book_stale { ob with NoteQueue := rest } n true (Or.inl rfl) hmk hlt
      simp only [processCachedLoop, hwt, if_true, hb, ne_eq, not_true_eq_false, if_false]
      exact ih { ob with NoteQueue := rest } hrest
    | unbook n =>
      simp only [cachedOrderNote.wellTyped, decide_eq_true_eq] at hwt
      simp only [NotePayload.MarketID, Option.some.injEq] at hmk
      simp only [NotePayload.Seq, Option.some.injEq] at hsq
      subst hsq
      have hne : UnbookOrderRoute ≠ BookOrderRoute := by decide
      have hb := unbook_stale { ob with NoteQueue := rest } n true (Or.inl rfl) hmk hlt
      simp only [processCachedLoop, hwt, hne, if_true, if_false, hb, ne_eq,
        not_true_eq_false]
      exact ih { ob with NoteQueue := rest } hrest
    | other => simp [cachedOrderNote.wellTyped] at hwt

/-- C5, evaluated on the code at the boundary `note.seq = snapshot.seq`: an
unsynced book of market `dcr_btc` holds one buffered book note with seq 8 and
is synced with a well-formed snapshot of that market at seq 8.  The claim
promises the result of `Sync` on an empty queue (no error, seq 8, synced); the
code does not discard the note: the drain fails with the out-of-sync error,
the seq is left at 9 and the book stays unsynced.  The same happens on a book
that buffered the note through `Book` after `NewOrderBook`. -/
theorem C5_buffered_note_at_snapshot_seq_fails :
    pendingAt8.Synced = false ∧
    (∀ c ∈ pendingAt8.NoteQueue, c.wellTyped = true ∧
      c.OrderNote.MarketID = some snapshot8.MarketID ∧
      ∃ s, c.OrderNote.Seq = some s ∧ s ≤ snapshot8.Seq) ∧
    (({ pendingAt8 with NoteQueue := [] } : OrderBook).Sync snapshot8).2 = .nil ∧
    (({ pendingAt8 with NoteQueue := [] } : OrderBook).Sync snapshot8).1.Seq = 8 ∧
    (({ pendingAt8 with NoteQueue := [] } : OrderBook).Sync snapshot8).1.Synced = true ∧
    (pendingAt8.Sync snapshot8).2 = .error .outOfSync ∧
    (pendingAt8.Sync snapshot8).1.Seq = 9 ∧
    (pendingAt8.Sync snapshot8).1.Synced = false ∧
    (NewOrderBook.Book bookNote8NoMarket).2 = .nil ∧
    ((NewOrderBook.Book bookNote8NoMarket).1.Sync snapshot8NoMarket).2 =
      .error .outOfSync ∧
    ((NewOrderBook.Book bookNote8NoMarket).1.Sync snapshot8NoMarket).1.Seq = 9 := by
  refine ⟨by decide, ?_, by decide, by decide, by decide, by decide, by decide,
    by decide, by decide, by decide, by decide⟩
  intro c hc
  simp only [pendingAt8, NewOrderBook, List.mem_singleton] at hc
  subst hc
  exact ⟨by decide, by decide, 8, by decide, by decide⟩

/-! ### The drain of `Sync` replays the queue -/

/-- Booking on the synced counterpart of a book through the exported path does
what the cached path does on the book itself. -/
theorem book_replay_frame (ob : OrderBook) (n : BookOrderNote)
    (q : List cachedOrderNote) :
    ({ ob with Synced := true, NoteQueue := q } : OrderBook).book n false =
      ({ (ob.book n true).1 with Synced := true, NoteQueue := q }, (ob.book n true).2) := by
  obtain ⟨s, m, q0, o, bu, se, sy⟩ := ob
  simp only [OrderBook.book, OrderBook.isSynced, Bool.not_true, Bool.not_false,
    Bool.and_false, Bool.false_and, Bool.false_eq_true, if_false]
  split_ifs <;> rfl

/-- Unbooking on the synced counterpart of a book through the exported path
does what the cached path does on the book itself. -/
theorem unbook_replay_frame (ob : OrderBook) (n : UnbookOrderNote)
    (q : List cachedOrderNote) :
    ({ ob with Synced := true, NoteQueue := q } : OrderBook).unbook n false =
      ({ (ob.unbook n true).1 with Synced := true, NoteQueue := q },
        (ob.unbook n true).2) := by
  obtain ⟨s, m, q0, o, bu, se, sy⟩ := ob
  simp only [OrderBook.unbook, OrderBook.isSynced, Bool.not_true, Bool.not_false,
    Bool.and_false, Bool.false_and, Bool.false_eq_true, if_false]
  cases hO : o n.OrderID <;> simp only [hO] <;> split_ifs <;> rfl

/-- The snapshot loop neither reads nor writes the pending queue. -/
theorem syncOrders_queue_frame (l : List SnapshotOrder) (ob : OrderBook)
    (q : List cachedOrderNote) :
    syncOrders { ob with NoteQueue := q } l =
      ({ (syncOrders ob l).1 with NoteQueue := q }, (syncOrders ob l).2) := by
  induction l generalizing ob with
  | nil => rfl
  | cons o rest ih =>
    obtain ⟨s, m, q0, om, bu, se, sy⟩ := ob
    simp only [syncOrders]
    split_ifs
    · rfl
    · exact ih ⟨s, m, q0, _, _, se, sy⟩
    · exact ih ⟨s, m, q0, _, bu, _, sy⟩
    · rfl

/-- The snapshot loop keeps seq, market id, pending queue and synced flag. -/
theorem syncOrders_frame (l : List SnapshotOrder) (ob : OrderBook) :
    (syncOrders ob l).1.Seq = ob.Seq ∧ (syncOrders ob l).1.MarketID = ob.MarketID ∧
    (syncOrders ob l).1.NoteQueue = ob.NoteQueue ∧
    (syncOrders ob l).1.Synced = ob.Synced := by
  induction l generalizing ob with
  | nil => exact ⟨rfl, rfl, rfl, rfl⟩
  | cons o rest ih =>
    simp only [syncOrders]
    split_ifs
    · exact ⟨rfl, rfl, rfl, rfl⟩
    · exact ih _
    · exact ih _
    · exact ⟨rfl, rfl, rfl, rfl⟩

/-- A drain that returns no error leaves the queue empty and the synced flag
as it was. -/
theorem processCachedLoop_ok_frame (q : List cachedOrderNote) (ob : OrderBook)
    (hok : (processCachedLoop ob q).2 = .nil) :
    (processCachedLoop ob q).1.NoteQueue = [] ∧
    (processCachedLoop ob q).1.Synced = ob.Synced := by
  induction q generalizing ob with
  | nil => exact ⟨rfl, rfl⟩
  | cons c rest ih =>
    obtain ⟨route, payload⟩ := c
    simp only [processCachedLoop] at hok ⊢
    split_ifs at hok ⊢ with h1 h2
    · cases payload with
      | book n =>
        simp only at hok ⊢
        split_ifs at hok ⊢ with h3
        · exact absurd hok h3
        · have := ih _ hok
          rw [(book_cached_frame _ n).2.1] at this
          exact this
      | unbook n => simp at hok
      | other => simp at hok
    · cases payload with
      | book n => simp at hok
      | unbook n =>
        simp only at hok ⊢
        split_ifs at hok ⊢ with h3
        · exact absurd hok h3
        · have := ih _ hok
          rw [(unbook_cached_frame _ n).2.1] at this
          exact this
      | other => simp at hok

/-- A drain that returns no error computes what replaying the queue through
`Book` / `Unbook` computes on the synced counterpart of the book. -/
theorem processCachedLoop_replay (l : List cachedOrderNote) (ob : OrderBook)
    (q : List cachedOrderNote) (hok : (processCachedLoop ob l).2 = .nil) :
    replayNotes { ob with Synced := true, NoteQueue := q } l =
      { (processCachedLoop ob l).1 with Synced := true, NoteQueue := q } := by
  induction l generalizing ob with
  | nil => rfl
  | cons c rest ih =>
    obtain ⟨route, payload⟩ := c
    simp only [processCachedLoop] at hok ⊢
    split_ifs at hok ⊢ with h1 h2
    · cases payload with
      | book n =>
        simp only at hok ⊢
        split_ifs at hok ⊢ with h3
        · exact absurd hok h3
        · simp only [replayNotes, replayNote, OrderBook.Book]
          have hf := book_replay_frame { ob with NoteQueue := rest } n q
          simp only at hf
          rw [hf]
          exact ih _ hok
      | unbook n => simp at hok
      | other => simp at hok
    · cases payload with
      | book n => simp at hok
      | unbook n =>
        simp only at hok ⊢
        split_ifs at hok ⊢ with h3
        · exact absurd hok h3
        · simp only [replayNotes, replayNote, OrderBook.Unbook]
          have hf := unbook_replay_frame { ob with NoteQueue := rest } n q
          simp only at hf
          rw [hf]
          exact ih _ hok
      | other => simp at hok

/-- On an unsynced book `Sync` is the snapshot loop followed by the drain of
the pending queue the book held on entry. -/
theorem Sync_unsynced (ob : OrderBook) (S : Snapshot) (hs : ob.Synced = false) :
    ob.Sync S =
      if (syncOrders (ob.syncInit S) S.Orders).2 ≠ .nil then
        syncOrders (ob.syncInit S) S.Orders
      else if (processCachedLoop (syncOrders (ob.syncInit S) S.Orders).1 ob.NoteQueue).2
          ≠ .nil then
        processCachedLoop (syncOrders (ob.syncInit S) S.Orders).1 ob.NoteQueue
      else
        ((processCachedLoop (syncOrders (ob.syncInit S) S.Orders).1
            ob.NoteQueue).1.setSynced true, .nil) := by
  have hq : (syncOrders (ob.syncInit S) S.Orders).1.NoteQueue = ob.NoteQueue :=
    (syncOrders_frame S.Orders (ob.syncInit S)).2.2.1
  simp only [OrderBook.Sync, OrderBook.isSynced, hs, Bool.false_eq_true, if_false,
    OrderBook.processCachedNotes, hq]

/-- What a `Sync` that returns no error went through: the book was unsynced,
the snapshot loop and the drain both returned no error, and the result is the
drained book with the synced flag set. -/
theorem Sync_ok_inv (ob : OrderBook) (S : Snapshot) (hok : (ob.Sync S).2 = .nil) :
    ob.Synced = false ∧
    (syncOrders (ob.syncInit S) S.Orders).2 = .nil ∧
    (processCachedLoop (syncOrders (ob.syncInit S) S.Orders).1 ob.NoteQueue).2 = .nil ∧
    ob.Sync S =
      ((processCachedLoop (syncOrders (ob.syncInit S) S.Orders).1
          ob.NoteQueue).1.setSynced true, .nil) := by
  have hs : ob.Synced = false := by
    cases h : ob.Synced with
    | false => rfl
    | true => simp [OrderBook.Sync, OrderBook.isSynced, h] at hok
  rw [Sync_unsynced ob S hs] at hok ⊢
  by_cases h1 : (syncOrders (ob.syncInit S) S.Orders).2 = .nil
  · by_cases h2 :
        (processCachedLoop (syncOrders (ob.syncInit S) S.Orders).1 ob.NoteQueue).2 = .nil
    · simp only [h1, h2, ne_eq, not_true_eq_false, if_false]
      exact ⟨hs, trivial, trivial, trivial⟩
    · simp only [h1, h2, ne_eq, not_true_eq_false, not_false_eq_true, if_false,
        if_true] at hok
  · simp only [h1, ne_eq, not_false_eq_true, if_true] at hok

/-- The result of `Sync` on an unsynced book with an empty pending queue, once
the snapshot loop returns no error: the book the loop built, synced. -/
theorem Sync_empty_queue (ob : OrderBook) (S : Snapshot) (hs : ob.Synced = false)
    (h1 : (syncOrders (ob.syncInit S) S.Orders).2 = .nil) :
    ({ ob with NoteQueue := [] } : OrderBook).Sync S =
      ({ (syncOrders (ob.syncInit S) S.Orders).1 with NoteQueue := [], Synced := true },
        .nil) := by
  have hinit : ({ ob with NoteQueue := [] } : OrderBook).syncInit S =
      { ob.syncInit S with NoteQueue := [] } := rfl
  rw [Sync_unsynced ({ ob with NoteQueue := [] } : OrderBook) S hs, hinit,
    syncOrders_queue_frame]
  simp only [h1, ne_eq, not_true_eq_false, if_false, processCachedLoop,
    OrderBook.setSynced]

/-- C7: whenever `Sync` returns no error on a book with pending notes
n1..nk, the resulting seq, `Orders` and sides are those obtained by `Sync` of
the same snapshot on the book with an empty pending queue (which returns no
error either) followed by replaying n1..nk in arrival order through `Book` /
`Unbook` on that synced book; afterwards the book is synced and the pending
queue is empty.  (A book on which `Sync` returns no error is unsynced.) -/
theorem C7_sync_drain_is_replay (ob : OrderBook) (S : Snapshot)
    (hok : (ob.Sync S).2 = .nil) :
    ob.Synced = false ∧
    (({ ob with NoteQueue := [] } : OrderBook).Sync S).2 = .nil ∧
    (ob.Sync S).1.Seq =
      (replayNotes (({ ob with NoteQueue := [] } : OrderBook).Sync S).1 ob.NoteQueue).Seq ∧
    (ob.Sync S).1.Orders =
      (replayNotes (({ ob with NoteQueue := [] } : OrderBook).Sync S).1
        ob.NoteQueue).Orders ∧
    (ob.Sync S).1.Buys =
      (replayNotes (({ ob with NoteQueue := [] } : OrderBook).Sync S).1 ob.NoteQueue).Buys ∧
    (ob.Sync S).1.Sells =
      (replayNotes (({ ob with NoteQueue := [] } : OrderBook).Sync S).1
        ob.NoteQueue).Sells ∧
    (ob.Sync S).1.Synced = true ∧ (ob.Sync S).1.NoteQueue = [] := by
  obtain ⟨hs, h1, h2, hS⟩ := Sync_ok_inv ob S hok
  have hrep := processCachedLoop_replay ob.NoteQueue
    (syncOrders (ob.syncInit S) S.Orders).1 [] h2
  have hfr := processCachedLoop_ok_frame ob.NoteQueue
    (syncOrders (ob.syncInit S) S.Orders).1 h2
  have hrep' :
      replayNotes
        { (syncOrders (ob.syncInit S) S.Orders).1 with NoteQueue := [], Synced := true }
        ob.NoteQueue =
      { (processCachedLoop (syncOrders (ob.syncInit S) S.Orders).1 ob.NoteQueue).1 with
        Synced := true, NoteQueue := [] } := hrep
  rw [Sync_empty_queue ob S hs h1, hS, hrep']
  exact ⟨hs, rfl, rfl, rfl, rfl, rfl, rfl, hfr.1⟩

/-- Witness of C7: scenario S1 of the spec, a book that buffered the stale
book note with seq 7 and the unbook note with seq 9 before the snapshot at
seq 8 arrived. -/
theorem C7_sync_drain_is_replay_witness :
    pendingS1.Synced = false ∧
    (({ pendingS1 with NoteQueue := [] } : OrderBook).Sync snapshot8).2 = .nil ∧
    (pendingS1.Sync snapshot8).1.Seq =
      (replayNotes (({ pendingS1 with NoteQueue := [] } : OrderBook).Sync snapshot8).1
        pendingS1.NoteQueue).Seq ∧
    (pendingS1.Sync snapshot8).1.Orders =
      (replayNotes (({ pendingS1 with NoteQueue := [] } : OrderBook).Sync snapshot8).1
        pendingS1.NoteQueue).Orders ∧
    (pendingS1.Sync snapshot8).1.Buys =
      (replayNotes (({ pendingS1 with NoteQueue := [] } : OrderBook).Sync snapshot8).1
        pendingS1.NoteQueue).Buys ∧
    (pendingS1.Sync snapshot8).1.Sells =
      (replayNotes (({ pendingS1 with NoteQueue := [] } : OrderBook).Sync snapshot8).1
        pendingS1.NoteQueue).Sells ∧
    (pendingS1.Sync snapshot8).1.Synced = true ∧
    (pendingS1.Sync snapshot8).1.NoteQueue = [] :=
  C7_sync_drain_is_replay pendingS1 snapshot8 (by decide)

/-- Buffered notes of the snapshot's market that lie strictly below the
snapshot's seq are discarded by `Sync`: the call does what it does on the
book with an empty pending queue. -/
theorem Sync_discards_stale (ob : OrderBook) (S : Snapshot) (hs : ob.Synced = false)
    (hq : ∀ c ∈ ob.NoteQueue, c.wellTyped = true ∧
      c.OrderNote.MarketID = some S.MarketID ∧
      ∃ s, c.OrderNote.Seq = some s ∧ s < S.Seq)
    (h1 : (syncOrders (ob.syncInit S) S.Orders).2 = .nil) :
    ob.Sync S = ({ ob with NoteQueue := [] } : OrderBook).Sync S := by
  obtain ⟨hseq, hmk, -, -⟩ := syncOrders_frame S.Orders (ob.syncInit S)
  have hseq' : (syncOrders (ob.syncInit S) S.Orders).1.Seq = S.Seq := hseq
  have hmk' : (syncOrders (ob.syncInit S) S.Orders).1.MarketID = S.MarketID := hmk
  have hloop := processCachedLoop_stale ob.NoteQueue
    (syncOrders (ob.syncInit S) S.Orders).1 (by rw [hseq', hmk']; exact hq)
  rw [Sync_empty_queue ob S hs h1, Sync_unsynced ob S hs, hloop]
  simp only [h1, ne_eq, not_true_eq_false, if_false, OrderBook.setSynced]

/-! ### The snapshot loop -/

/-- On a list of well-formed entries the snapshot loop returns no error, and
every key of the resulting `Orders` either keeps its old value and is no id of
the list, or holds the order built from a list entry with that id. -/
theorem syncOrders_wellFormed (l : List SnapshotOrder) (ob : OrderBook)
    (hwf : ∀ o ∈ l, o.wellFormed = true) :
    (syncOrders ob l).2 = .nil ∧
    ∀ k, ((syncOrders ob l).1.Orders k = ob.Orders k ∧
        k ∉ l.map (fun o => o.OrderID)) ∨
      ∃ so ∈ l, so.OrderID = k ∧ (syncOrders ob l).1.Orders k = some so.toOrder := by
  induction l generalizing ob with
  | nil => exact ⟨rfl, fun k => Or.inl ⟨rfl, by simp⟩⟩
  | cons o rest ih =>
    have ho := hwf o (List.mem_cons_self _ _)
    have hrest := fun d hd => hwf d (List.mem_cons_of_mem _ hd)
    simp only [SnapshotOrder.wellFormed, Bool.and_eq_true, Bool.or_eq_true,
      decide_eq_true_eq] at ho
    obtain ⟨hlen, hside⟩ := ho
    have key : ∀ ob' : OrderBook,
        ob'.Orders = ob.Orders.set o.OrderID o.toOrder →
        (syncOrders ob' rest).2 = .nil ∧
        ∀ k, ((syncOrders ob' rest).1.Orders k = ob.Orders k ∧
            k ∉ (o :: rest).map (fun o => o.OrderID)) ∨
          ∃ so ∈ o :: rest, so.OrderID = k ∧
            (syncOrders ob' rest).1.Orders k = some so.toOrder := by
      intro ob' hO
      obtain ⟨hr, hk⟩ := ih ob' hrest
      refine ⟨hr, fun k => ?_⟩
      rcases hk k with ⟨heq, hnot⟩ | ⟨so, hso, hid, hval⟩
      · by_cases hko : k = o.OrderID
        · refine Or.inr ⟨o, List.mem_cons_self _ _, hko.symm, ?_⟩
          rw [heq, hO]
          simp [OrderMap.set, hko]
        · refine Or.inl ⟨?_, ?_⟩
          · rw [heq, hO]
            simp [OrderMap.set, hko]
          · simp only [List.map_cons, List.mem_cons, not_or]
            exact ⟨hko, hnot⟩
      · exact Or.inr ⟨so, List.mem_cons_of_mem _ hso, hid, hval⟩
    rcases hside with h1 | h2
    · simp only [syncOrders, hlen, OrderIDSize, ne_eq, not_true_eq_false, if_false, h1,
        BuyOrderNum, if_true]
      exact key _ (by simp [SnapshotOrder.toOrder, h1])
    · simp only [syncOrders, hlen, OrderIDSize, ne_eq, not_true_eq_false, if_false, h2,
        BuyOrderNum, SellOrderNum, if_true]
      exact key _ (by simp [SnapshotOrder.toOrder, h2])

/-- On a list holding an entry that is not well-formed the snapshot loop stops
with the order-id-length error or the unknown-side error. -/
theorem syncOrders_malformed (l : List SnapshotOrder) (ob : OrderBook)
    (hbad : ∃ o ∈ l, o.wellFormed = false) :
    (syncOrders ob l).2 = .error .orderIDLength ∨
    (syncOrders ob l).2 = .error .unknownSide := by
  induction l generalizing ob with
  | nil => simp at hbad
  | cons o rest ih =>
    simp only [syncOrders]
    split_ifs with hlen h1 h2
    · exact Or.inl rfl
    · apply ih
      obtain ⟨b, hb, hbw⟩ := hbad
      rcases List.mem_cons.mp hb with rfl | hb'
      · simp [SnapshotOrder.wellFormed, OrderIDSize, BuyOrderNum] at hlen h1 hbw
        omega
      · exact ⟨b, hb', hbw⟩
    · apply ih
      obtain ⟨b, hb, hbw⟩ := hbad
      rcases List.mem_cons.mp hb with rfl | hb'
      · simp [SnapshotOrder.wellFormed, OrderIDSize, SellOrderNum] at hlen h2 hbw
        omega
      · exact ⟨b, hb', hbw⟩
    · exact Or.inr rfl

/-- C8: on an unsynced book with an empty pending queue, `Sync` of a snapshot
whose orders all have a 32-byte id and side 1 or 2 returns no error, sets
`Seq` to the snapshot's seq and `MarketID` to the snapshot's market id, marks
the book synced, and `Orders` holds exactly the snapshot's order ids, each
mapped to the side, quantity, rate and time of a snapshot entry with that id
(of the entry itself when the snapshot's ids are pairwise distinct). -/
theorem C8_sync_installs_snapshot (ob : OrderBook) (S : Snapshot)
    (hs : ob.Synced = false) (hq : ob.NoteQueue = [])
    (hwf : ∀ o ∈ S.Orders, o.OrderID.length = 32 ∧ (o.Side = 1 ∨ o.Side = 2)) :
    (ob.Sync S).2 = .nil ∧ (ob.Sync S).1.Seq = S.Seq ∧
    (ob.Sync S).1.MarketID = S.MarketID ∧ (ob.Sync S).1.Synced = true ∧
    (∀ k, ((ob.Sync S).1.Orders k).isSome = true ↔
      k ∈ S.Orders.map (fun o => o.OrderID)) ∧
    (∀ k o, (ob.Sync S).1.Orders k = some o →
      ∃ so ∈ S.Orders, so.OrderID = k ∧
        o = { OrderID := so.OrderID, Side := so.Side, Quantity := so.Quantity,
              Rate := so.Rate, Time := so.Time }) ∧
    ((S.Orders.map (fun o => o.OrderID)).Nodup →
      ∀ so ∈ S.Orders, (ob.Sync S).1.Orders so.OrderID =
        some { OrderID := so.OrderID, Side := so.Side, Quantity := so.Quantity,
               Rate := so.Rate, Time := so.Time }) := by
  have hwf' : ∀ o ∈ S.Orders, o.wellFormed = true := by
    intro o ho
    obtain ⟨h1, h2⟩ := hwf o ho
    simp [SnapshotOrder.wellFormed, h1, h2]
  obtain ⟨h1, hk⟩ := syncOrders_wellFormed S.Orders (ob.syncInit S) hwf'
  obtain ⟨hseq, hmk, -, -⟩ := syncOrders_frame S.Orders (ob.syncInit S)
  have hob : ob = { ob with NoteQueue := [] } := by
    obtain ⟨s, m, q, o, bu, se, sy⟩ := ob
    simp only at hq
    subst hq
    rfl
  have hS := Sync_empty_queue ob S hs h1
  rw [← hob] at hS
  have hO : ∀ k, (ob.Sync S).1.Orders k =
      (syncOrders (ob.syncInit S) S.Orders).1.Orders k := fun k => by rw [hS]
  refine ⟨by rw [hS], by rw [hS]; exact hseq, by rw [hS]; exact hmk, by rw [hS], ?_, ?_, ?_⟩
  · intro k
    rw [hO k]
    rcases hk k with ⟨heq, hnot⟩ | ⟨so, hso, hid, hval⟩
    · rw [heq]
      constructor
      · intro h
        simp [OrderBook.syncInit, OrderMap.empty] at h
      · intro h
        exact absurd h hnot
    · rw [hval]
      constructor
      · intro _
        exact List.mem_map.mpr ⟨so, hso, hid⟩
      · intro _
        rfl
  · intro k o hko
    rw [hO k] at hko
    rcases hk k with ⟨heq, -⟩ | ⟨so, hso, hid, hval⟩
    · rw [heq] at hko
      simp [OrderBook.syncInit, OrderMap.empty] at hko
    · rw [hval] at hko
      exact ⟨so, hso, hid, (Option.some.inj hko).symm⟩
  · intro hnd so hso
    rw [hO so.OrderID]
    rcases hk so.OrderID with ⟨-, hnot⟩ | ⟨so', hso', hid, hval⟩
    · exact absurd (List.mem_map.mpr ⟨so, hso, rfl⟩) hnot
    · have : so' = so := List.inj_on_of_nodup_map hnd hso' hso hid
      subst this
      exact hval

/-- Witness of C8: the book from `NewOrderBook` synced with the snapshot at
seq 8 that holds the sell order B. -/
theorem C8_sync_installs_snapshot_witness :
    (NewOrderBook.Sync snapshot8).2 = .nil ∧ (NewOrderBook.Sync snapshot8).1.Seq = snapshot8.Seq ∧
    (NewOrderBook.Sync snapshot8).1.MarketID = snapshot8.MarketID ∧
    (NewOrderBook.Sync snapshot8).1.Synced = true ∧
    (∀ k, ((NewOrderBook.Sync snapshot8).1.Orders k).isSome = true ↔
      k ∈ snapshot8.Orders.map (fun o => o.OrderID)) ∧
    (∀ k o, (NewOrderBook.Sync snapshot8).1.Orders k = some o →
      ∃ so ∈ snapshot8.Orders, so.OrderID = k ∧
        o = { OrderID := so.OrderID, Side := so.Side, Quantity := so.Quantity,
              Rate := so.Rate, Time := so.Time }) ∧
    ((snapshot8.Orders.map (fun o => o.OrderID)).Nodup →
      ∀ so ∈ snapshot8.Orders, (NewOrderBook.Sync snapshot8).1.Orders so.OrderID =
        some { OrderID := so.OrderID, Side := so.Side, Quantity := so.Quantity,
               Rate := so.Rate, Time := so.Time }) :=
  C8_sync_installs_snapshot NewOrderBook snapshot8 (by decide) (by decide) (by decide)

/-- C9: when the snapshot holds an order whose id is not 32 bytes long or whose
side is neither buy (1) nor sell (2), `Sync` on an unsynced book returns an
error (order-id-length or unknown-side), the book remains unsynced, the
pending queue is untouched, and `BestNOrders` and `BestFill` still fail with
the unsynced error for every argument. -/
theorem C9_malformed_snapshot_leaves_unsynced (ob : OrderBook) (S : Snapshot)
    (hs : ob.Synced = false)
    (hbad : ∃ o ∈ S.Orders, o.OrderID.length ≠ 32 ∨ (o.Side ≠ 1 ∧ o.Side ≠ 2)) :
    ((ob.Sync S).2 = .error .orderIDLength ∨ (ob.Sync S).2 = .error .unknownSide) ∧
    (ob.Sync S).1.Synced = false ∧
    (ob.Sync S).1.NoteQueue = ob.NoteQueue ∧
    (∀ n side, (ob.Sync S).1.BestNOrders n side = .error .unsynced) ∧
    (∀ qty side, (ob.Sync S).1.BestFill qty side = .error .unsynced) := by
  have hbad' : ∃ o ∈ S.Orders, o.wellFormed = false := by
    obtain ⟨o, ho, hb⟩ := hbad
    refine ⟨o, ho, ?_⟩
    rcases hb with hb | ⟨hb1, hb2⟩
    · simp [SnapshotOrder.wellFormed, hb]
    · simp [SnapshotOrder.wellFormed, hb1, hb2]
  have herr := syncOrders_malformed S.Orders (ob.syncInit S) hbad'
  obtain ⟨-, -, hqu, hsy⟩ := syncOrders_frame S.Orders (ob.syncInit S)
  have hne : (syncOrders (ob.syncInit S) S.Orders).2 ≠ .nil := by
    rcases herr with h | h <;> rw [h] <;> simp
  have hS : ob.Sync S = syncOrders (ob.syncInit S) S.Orders := by
    rw [Sync_unsynced ob S hs, if_pos hne]
  have hsy' : (ob.Sync S).1.Synced = false := by
    rw [hS, hsy]
    exact hs
  refine ⟨by rw [hS]; exact herr, hsy', by rw [hS]; exact hqu, ?_, ?_⟩
  · intro n side
    simp [OrderBook.BestNOrders, OrderBook.isSynced, hsy']
  · intro qty side
    simp [OrderBook.BestFill, OrderBook.isSynced, hsy']

/-- Witness of C9: the book from `NewOrderBook` and a snapshot whose second
order carries side 3. -/
theorem C9_malformed_snapshot_leaves_unsynced_witness :
    ((NewOrderBook.Sync snapshotBadSide).2 = .error .orderIDLength ∨
      (NewOrderBook.Sync snapshotBadSide).2 = .error .unknownSide) ∧
    (NewOrderBook.Sync snapshotBadSide).1.Synced = false ∧
    (NewOrderBook.Sync snapshotBadSide).1.NoteQueue = NewOrderBook.NoteQueue ∧
    (∀ n side, (NewOrderBook.Sync snapshotBadSide).1.BestNOrders n side =
      .error .unsynced) ∧
    (∀ qty side, (NewOrderBook.Sync snapshotBadSide).1.BestFill qty side =
      .error .unsynced) :=
  C9_malformed_snapshot_leaves_unsynced NewOrderBook snapshotBadSide (by decide)
    ⟨{ OrderID := idOf 3, Side := 3, Quantity := 1, Rate := 101, Time := 2 },
      by decide, Or.inr (by decide)⟩

/-! ### Seq values of applied notes -/

/-- One call on a synced book: the book stays synced, and the seq either stays
or the call passed the stale check, in which case a call that returns no error
carried exactly the next seq, which is the new seq. -/
theorem call_seq (ob : OrderBook) (c : Call) (hs : ob.Synced = true) :
    (ob.call c).1.Synced = true ∧
    ((ob.call c).1.Seq = ob.Seq ∨
      ((ob.call c).2 = .nil → c.Seq = ob.Seq + 1 ∧ (ob.call c).1.Seq = ob.Seq + 1)) := by
  obtain ⟨s, m, q, o, bu, se, sy⟩ := ob
  simp only at hs
  subst hs
  cases c with
  | book n =>
    simp only [OrderBook.call, OrderBook.Book, OrderBook.book, OrderBook.isSynced,
      Call.Seq, Bool.not_true, Bool.not_false, Bool.and_false, Bool.false_eq_true,
      if_false]
    split_ifs with h1 h2 h3 h4 h5 h6 <;> simp_all <;> omega
  | unbook n =>
    simp only [OrderBook.call, OrderBook.Unbook, OrderBook.unbook, OrderBook.isSynced,
      Call.Seq, Bool.not_true, Bool.not_false, Bool.and_false, Bool.false_eq_true,
      if_false]
    cases hO : o n.OrderID <;> simp only [hO] <;> split_ifs <;> simp_all <;> omega

/-- On a synced book, a call that returns no error and leaves the seq as it
was has discarded its note: `Orders` is unchanged. -/
theorem call_discard_keeps_orders (ob : OrderBook) (c : Call) (hs : ob.Synced = true)
    (hnil : (ob.call c).2 = .nil) (heq : (ob.call c).1.Seq = ob.Seq) :
    (ob.call c).1.Orders = ob.Orders := by
  obtain ⟨s, m, q, o, bu, se, sy⟩ := ob
  simp only at hs
  subst hs
  have hne : (s + 1) % 2 ^ 64 ≠ s := by omega
  simp only [Nat.reducePow] at hne
  cases c with
  | book n =>
    simp only [OrderBook.call, OrderBook.Book, OrderBook.book, OrderBook.isSynced,
      Bool.not_true, Bool.not_false, Bool.and_false, Bool.false_eq_true,
      if_false] at hnil heq ⊢
    split_ifs at hnil heq ⊢
    · rfl
    · exact absurd heq hne
    · exact absurd heq hne
  | unbook n =>
    simp only [OrderBook.call, OrderBook.Unbook, OrderBook.unbook, OrderBook.isSynced,
      Bool.not_true, Bool.not_false, Bool.and_false, Bool.false_eq_true,
      if_false] at hnil heq ⊢
    by_cases h1 : m ≠ n.MarketID
    · rw [if_pos h1] at hnil
      exact absurd hnil (by simp)
    · by_cases h2 : s > n.Seq
      · rw [if_neg h1, if_pos h2]
      · exfalso
        rw [if_neg h1, if_neg h2] at heq
        cases hO : o n.OrderID <;> simp only [hO] at heq <;> split_ifs at heq <;>
          exact absurd heq hne

/-- On a synced book, a call that returns no error and changes `Orders` is
applied in the sense of `applies`: it also advances the seq. -/
theorem applies_of_orders_changed (ob : OrderBook) (c : Call) (hs : ob.Synced = true)
    (hnil : (ob.call c).2 = .nil) (hch : (ob.call c).1.Orders ≠ ob.Orders) :
    ob.applies c = true := by
  have hseq : (ob.call c).1.Seq ≠ ob.Seq :=
    fun heq => hch (call_discard_keeps_orders ob c hs hnil heq)
  simp [OrderBook.applies, hnil, hseq]

/-- C6 as stated fails: the book synced at seq 42 stays in use after a failed
call.  A book note with seq 43 and a 31-byte order id fails but has advanced
the seq to 43; the following well-formed book note with seq 44 returns no
error and changes `Orders`.  The only applied note carries seq 44, not
`s + 1 = 43`: the applied seq values have a gap. -/
theorem C6_failed_call_leaves_gap :
    bookAt42.Synced = true ∧ bookAt42.Seq = 42 ∧
    (bookAt42.call (.book bookNote43Short)).2 = .error .orderIDLength ∧
    (bookAt42.call (.book bookNote43Short)).1.Seq = 43 ∧
    ((bookAt42.call (.book bookNote43Short)).1.call (.book bookNote44)).2 = .nil ∧
    (bookAt42.call (.book bookNote43Short)).1.Orders bookNote44.OrderID = none ∧
    ((bookAt42.call (.book bookNote43Short)).1.call (.book bookNote44)).1.Orders
      bookNote44.OrderID ≠ none ∧
    bookAt42.appliedSeqs [.book bookNote43Short, .book bookNote44] = [44] ∧
    bookAt42.appliedSeqs [.book bookNote43Short, .book bookNote44] ≠
      List.range' (bookAt42.Seq + 1) 1 := by
  decide

/-- C6, amended: on a synced book at seq `s`, for every sequence of `Book` /
`Unbook` calls in which no failing call advances the seq, the notes that are
applied (their call returns no error and advances the seq) carry the seq
values `s + 1, s + 2, ...` consecutively, with no gap and no repeat. -/
theorem C6_applied_seqs_consecutive (ob : OrderBook) (cs : List Call)
    (hs : ob.Synced = true) (hf : ob.noFailedAdvance cs = true) :
    ob.appliedSeqs cs = List.range' (ob.Seq + 1) (ob.appliedSeqs cs).length := by
  induction cs generalizing ob with
  | nil => rfl
  | cons c cs ih =>
    obtain ⟨hsy, hstep⟩ := call_seq ob c hs
    simp only [OrderBook.noFailedAdvance, Bool.and_eq_true, Bool.or_eq_true,
      decide_eq_true_eq] at hf
    obtain ⟨hfc, hfr⟩ := hf
    have ihc := ih (ob.call c).1 hsy hfr
    simp only [OrderBook.appliedSeqs]
    by_cases happ : ob.applies c = true
    · simp only [OrderBook.applies, Bool.and_eq_true, decide_eq_true_eq] at happ
      obtain ⟨hnil, hne⟩ := happ
      have hadv : c.Seq = ob.Seq + 1 ∧ (ob.call c).1.Seq = ob.Seq + 1 := by
        rcases hstep with h | h
        · exact absurd h hne
        · exact h hnil
      have happ' : ob.applies c = true := by
        simp [OrderBook.applies, hnil, hne]
      rw [if_pos happ', List.length_cons, List.range'_succ, hadv.1]
      rw [hadv.2] at ihc
      exact congrArg _ ihc
    · have hsame : (ob.call c).1.Seq = ob.Seq := by
        rcases hfc with hnil | hsame
        · by_contra hne
          exact happ (by simp [OrderBook.applies, hnil, hne])
        · exact hsame
      rw [if_neg happ]
      rw [hsame] at ihc
      exact ihc

/-- Witness of C6 (amended): the book synced at seq 42 sees a replayed note
with seq 40, the notes with seq 43 and 44, and a note of another market. -/
theorem C6_applied_seqs_consecutive_witness :
    bookAt42.appliedSeqs
        [.unbook { Seq := 40, MarketID := "dcr_btc", OrderID := idOf 1 },
         .book bookNote43,
         .book { bookNote44 with MarketID := "dcr_eth" },
         .unbook unbookNote44] =
      List.range' (bookAt42.Seq + 1)
        (bookAt42.appliedSeqs
          [.unbook { Seq := 40, MarketID := "dcr_btc", OrderID := idOf 1 },
           .book bookNote43,
           .book { bookNote44 with MarketID := "dcr_eth" },
           .unbook unbookNote44]).length :=
  C6_applied_seqs_consecutive bookAt42 _ (by decide) (by decide)

/-! ### Book sides: what `Add` and `Remove` do to the resting orders -/

/-- Level insertion adds exactly the new order to the resting orders. -/
theorem addToBins_perm (pref : orderPreference) (o : Order)
    (bins : List (Nat × List Order)) :
    ((addToBins pref o bins).flatMap (fun lvl => lvl.2)).Perm
      (o :: bins.flatMap (fun lvl => lvl.2)) := by
  induction bins with
  | nil => simp [addToBins]
  | cons lvl rest ih =>
    obtain ⟨r, q⟩ := lvl
    simp only [addToBins]
    split_ifs with h1 h2
    · simp only [List.flatMap_cons, List.append_assoc, List.singleton_append]
      exact List.perm_middle
    · simp [List.flatMap_cons]
    · simp only [List.flatMap_cons]
      exact ((List.Perm.append_left q ih).trans List.perm_middle)

/-- The resting orders after `Add`: the old ones and the new order. -/
theorem Add_orders_perm (d : bookSide) (o : Order) :
    (d.Add o).orders.Perm (o :: d.orders) :=
  addToBins_perm d.orderPref o d.bins

/-- A successful deletion from a FIFO removes one order carrying the id. -/
theorem removeFromBin_some (id : OrderID) (q q' : List Order)
    (h : removeFromBin id q = some q') :
    ∃ x, x.OrderID = id ∧ q.Perm (x :: q') := by
  induction q generalizing q' with
  | nil => simp [removeFromBin] at h
  | cons y ys ih =>
    simp only [removeFromBin] at h
    split_ifs at h with hy
    · cases h
      exact ⟨y, hy, List.Perm.refl _⟩
    · cases hr : removeFromBin id ys with
      | none => simp [hr] at h
      | some ys' =>
        simp only [hr, Option.map_some', Option.some.injEq] at h
        subst h
        obtain ⟨x, hx, hp⟩ := ih ys' hr
        exact ⟨x, hx, (List.Perm.cons y hp).trans (List.Perm.swap x y ys')⟩

/-- A successful deletion from the levels removes one order carrying the id
of the given order. -/
theorem removeFromBins_some (o : Order) (bins bins' : List (Nat × List Order))
    (h : removeFromBins o bins = some bins') :
    ∃ x, x.OrderID = o.OrderID ∧
      (bins.flatMap (fun lvl => lvl.2)).Perm
        (x :: bins'.flatMap (fun lvl => lvl.2)) := by
  induction bins generalizing bins' with
  | nil => simp [removeFromBins] at h
  | cons lvl rest ih =>
    obtain ⟨r, q⟩ := lvl
    simp only [removeFromBins] at h
    split_ifs at h with hr
    · cases hq : removeFromBin o.OrderID q with
      | none => simp [hq] at h
      | some q' =>
        obtain ⟨x, hx, hp⟩ := removeFromBin_some o.OrderID q q' hq
        refine ⟨x, hx, ?_⟩
        cases q' with
        | nil =>
          simp only [hq, Option.some.injEq] at h
          subst h
          simp only [List.flatMap_cons]
          exact (List.Perm.append_right _ hp)
        | cons z zs =>
          simp only [hq, Option.some.injEq] at h
          subst h
          simp only [List.flatMap_cons]
          exact (List.Perm.append_right _ hp)
    · cases hrest : removeFromBins o rest with
      | none => simp [hrest] at h
      | some rest' =>
        simp only [hrest, Option.map_some', Option.some.injEq] at h
        subst h
        obtain ⟨x, hx, hp⟩ := ih rest' hrest
        refine ⟨x, hx, ?_⟩
        simp only [List.flatMap_cons]
        exact (List.Perm.append_left q hp).trans List.perm_middle

/-- What `Remove` does: on failure the side is as it was, on success one order
carrying the given order's id has left the resting orders. -/
theorem Remove_spec (d : bookSide) (o : Order) :
    ((d.Remove o).2 ≠ .nil ∧ (d.Remove o).1 = d) ∨
    ((d.Remove o).2 = .nil ∧
      ∃ x, x.OrderID = o.OrderID ∧ d.orders.Perm (x :: (d.Remove o).1.orders)) := by
  unfold bookSide.Remove
  cases h : removeFromBins o d.bins with
  | none => exact Or.inl ⟨by simp, rfl⟩
  | some bins' =>
    exact Or.inr ⟨rfl, removeFromBins_some o d.bins bins' h⟩

/-! ### The agreement between `Orders` and the sides -/

/-- Inserting an order with a fresh id on the buy side keeps the agreement. -/
theorem Consistent_insert_buy (orders : OrderMap) (buys sells : bookSide) (o : Order)
    (hc : Consistent orders buys sells) (hfresh : orders o.OrderID = none)
    (hside : o.Side = BuyOrderNum) :
    Consistent (orders.set o.OrderID o) (buys.Add o) sells := by
  obtain ⟨hB, hS, hO, hnB, hnS⟩ := hc
  have hmem : ∀ x, x ∈ (buys.Add o).orders ↔ x = o ∨ x ∈ buys.orders :=
    fun x => (Add_orders_perm buys o).mem_iff.trans List.mem_cons
  have hfB : ∀ x ∈ buys.orders, x.OrderID ≠ o.OrderID := by
    intro x hx he
    have := (hB x hx).1
    rw [he, hfresh] at this
    cases this
  have hfS : ∀ x ∈ sells.orders, x.OrderID ≠ o.OrderID := by
    intro x hx he
    have := (hS x hx).1
    rw [he, hfresh] at this
    cases this
  refine ⟨?_, ?_, ?_, ?_, hnS⟩
  · intro x hx
    rcases (hmem x).mp hx with rfl | hx'
    · exact ⟨by simp [OrderMap.set], hside⟩
    · exact ⟨by simp [OrderMap.set, hfB x hx', (hB x hx').1], (hB x hx').2⟩
  · intro x hx
    exact ⟨by simp [OrderMap.set, hfS x hx, (hS x hx).1], (hS x hx).2⟩
  · intro k x hk
    simp only [OrderMap.set] at hk
    split_ifs at hk with h
    · cases hk
      exact ⟨h.symm, Or.inl ⟨hside, (hmem _).mpr (Or.inl rfl)⟩⟩
    · obtain ⟨h1, h2⟩ := hO k x hk
      refine ⟨h1, ?_⟩
      rcases h2 with ⟨a, b⟩ | ⟨a, b⟩
      · exact Or.inl ⟨a, (hmem x).mpr (Or.inr b)⟩
      · exact Or.inr ⟨a, b⟩
  · have hp : (buys.Add o).ids.Perm (o.OrderID :: buys.ids) :=
      List.Perm.map (fun o : Order => o.OrderID) (Add_orders_perm buys o)
    refine hp.nodup_iff.mpr (List.nodup_cons.mpr ⟨?_, hnB⟩)
    intro h
    obtain ⟨x, hx, he⟩ := List.mem_map.mp h
    exact hfB x hx he

/-- Inserting an order with a fresh id on the sell side keeps the agreement. -/
theorem Consistent_insert_sell (orders : OrderMap) (buys sells : bookSide) (o : Order)
    (hc : Consistent orders buys sells) (hfresh : orders o.OrderID = none)
    (hside : o.Side = SellOrderNum) :
    Consistent (orders.set o.OrderID o) buys (sells.Add o) := by
  obtain ⟨hB, hS, hO, hnB, hnS⟩ := hc
  have hmem : ∀ x, x ∈ (sells.Add o).orders ↔ x = o ∨ x ∈ sells.orders :=
    fun x => (Add_orders_perm sells o).mem_iff.trans List.mem_cons
  have hfB : ∀ x ∈ buys.orders, x.OrderID ≠ o.OrderID := by
    intro x hx he
    have := (hB x hx).1
    rw [he, hfresh] at this
    cases this
  have hfS : ∀ x ∈ sells.orders, x.OrderID ≠ o.OrderID := by
    intro x hx he
    have := (hS x hx).1
    rw [he, hfresh] at this
    cases this
  refine ⟨?_, ?_, ?_, hnB, ?_⟩
  · intro x hx
    exact ⟨by simp [OrderMap.set, hfB x hx, (hB x hx).1], (hB x hx).2⟩
  · intro x hx
    rcases (hmem x).mp hx with rfl | hx'
    · exact ⟨by simp [OrderMap.set], hside⟩
    · exact ⟨by simp [OrderMap.set, hfS x hx', (hS x hx').1], (hS x hx').2⟩
  · intro k x hk
    simp only [OrderMap.set] at hk
    split_ifs at hk with h
    · cases hk
      exact ⟨h.symm, Or.inr ⟨hside, (hmem _).mpr (Or.inl rfl)⟩⟩
    · obtain ⟨h1, h2⟩ := hO k x hk
      refine ⟨h1, ?_⟩
      rcases h2 with ⟨a, b⟩ | ⟨a, b⟩
      · exact Or.inl ⟨a, b⟩
      · exact Or.inr ⟨a, (hmem x).mpr (Or.inr b)⟩
  · have hp : (sells.Add o).ids.Perm (o.OrderID :: sells.ids) :=
      List.Perm.map (fun o : Order => o.OrderID) (Add_orders_perm sells o)
    refine hp.nodup_iff.mpr (List.nodup_cons.mpr ⟨?_, hnS⟩)
    intro h
    obtain ⟨x, hx, he⟩ := List.mem_map.mp h
    exact hfS x hx he

/-- Removing the stored order of an id from the buy side and deleting the id
from the map keeps the agreement. -/
theorem Consistent_remove_buy (orders : OrderMap) (buys sells : bookSide)
    (k : OrderID) (o : Order) (hc : Consistent orders buys sells)
    (hk : orders k = some o) (hside : o.Side = BuyOrderNum)
    (hr : (buys.Remove o).2 = .nil) :
    Consistent (orders.delete k) (buys.Remove o).1 sells := by
  obtain ⟨hB, hS, hO, hnB, hnS⟩ := hc
  have hid : o.OrderID = k := (hO k o hk).1
  rcases Remove_spec buys o with ⟨hne, -⟩ | ⟨-, x, hx, hp⟩
  · exact absurd hr hne
  · rw [hid] at hx
    have hpi : buys.ids.Perm (k :: (buys.Remove o).1.ids) := by
      have := List.Perm.map (fun o : Order => o.OrderID) hp
      simpa [bookSide.ids, hx] using this
    have hnd := hpi.nodup_iff.mp hnB
    obtain ⟨hknot, hnB'⟩ := List.nodup_cons.mp hnd
    have hsub : ∀ y ∈ (buys.Remove o).1.orders, y ∈ buys.orders ∧ y.OrderID ≠ k := by
      intro y hy
      refine ⟨hp.mem_iff.mpr (List.mem_cons_of_mem _ hy), ?_⟩
      intro he
      exact hknot (List.mem_map.mpr ⟨y, hy, he⟩)
    refine ⟨?_, ?_, ?_, hnB', hnS⟩
    · intro y hy
      obtain ⟨hy1, hy2⟩ := hsub y hy
      exact ⟨by simp [OrderMap.delete, hy2, (hB y hy1).1], (hB y hy1).2⟩
    · intro y hy
      have hy2 : y.OrderID ≠ k := by
        intro he
        have h1 := (hS y hy).1
        rw [he, hk] at h1
        have h2 := (hS y hy).2
        cases h1
        rw [hside] at h2
        simp [BuyOrderNum, SellOrderNum] at h2
      exact ⟨by simp [OrderMap.delete, hy2, (hS y hy).1], (hS y hy).2⟩
    · intro k' y hk'
      simp only [OrderMap.delete] at hk'
      split_ifs at hk' with h
      obtain ⟨h1, h2⟩ := hO k' y hk'
      refine ⟨h1, ?_⟩
      rcases h2 with ⟨a, b⟩ | ⟨a, b⟩
      · refine Or.inl ⟨a, ?_⟩
        rcases List.mem_cons.mp (hp.mem_iff.mp b) with hyx | hy'
        · exfalso
          apply h
          rw [← h1, hyx, hx]
        · exact hy'
      · exact Or.inr ⟨a, b⟩

/-- Removing the stored order of an id from the sell side and deleting the id
from the map keeps the agreement. -/
theorem Consistent_remove_sell (orders : OrderMap) (buys sells : bookSide)
    (k : OrderID) (o : Order) (hc : Consistent orders buys sells)
    (hk : orders k = some o) (hside : o.Side = SellOrderNum)
    (hr : (sells.Remove o).2 = .nil) :
    Consistent (orders.delete k) buys (sells.Remove o).1 := by
  obtain ⟨hB, hS, hO, hnB, hnS⟩ := hc
  have hid : o.OrderID = k := (hO k o hk).1
  rcases Remove_spec sells o with ⟨hne, -⟩ | ⟨-, x, hx, hp⟩
  · exact absurd hr hne
  · rw [hid] at hx
    have hpi : sells.ids.Perm (k :: (sells.Remove o).1.ids) := by
      have := List.Perm.map (fun o : Order => o.OrderID) hp
      simpa [bookSide.ids, hx] using this
    have hnd := hpi.nodup_iff.mp hnS
    obtain ⟨hknot, hnS'⟩ := List.nodup_cons.mp hnd
    have hsub : ∀ y ∈ (sells.Remove o).1.orders, y ∈ sells.orders ∧ y.OrderID ≠ k := by
      intro y hy
      refine ⟨hp.mem_iff.mpr (List.mem_cons_of_mem _ hy), ?_⟩
      intro he
      exact hknot (List.mem_map.mpr ⟨y, hy, he⟩)
    refine ⟨?_, ?_, ?_, hnB, hnS'⟩
    · intro y hy
      have hy2 : y.OrderID ≠ k := by
        intro he
        have h1 := (hB y hy).1
        rw [he, hk] at h1
        have h2 := (hB y hy).2
        cases h1
        rw [hside] at h2
        simp [BuyOrderNum, SellOrderNum] at h2
      exact ⟨by simp [OrderMap.delete, hy2, (hB y hy).1], (hB y hy).2⟩
    · intro y hy
      obtain ⟨hy1, hy2⟩ := hsub y hy
      exact ⟨by simp [OrderMap.delete, hy2, (hS y hy1).1], (hS y hy1).2⟩
    · intro k' y hk'
      simp only [OrderMap.delete] at hk'
      split_ifs at hk' with h
      obtain ⟨h1, h2⟩ := hO k' y hk'
      refine ⟨h1, ?_⟩
      rcases h2 with ⟨a, b⟩ | ⟨a, b⟩
      · exact Or.inl ⟨a, b⟩
      · refine Or.inr ⟨a, ?_⟩
        rcases List.mem_cons.mp (hp.mem_iff.mp b) with hyx | hy'
        · exfalso
          apply h
          rw [← h1, hyx, hx]
        · exact hy'

/-- Under the agreement, the ids of `Orders` are the ids held by the two
sides. -/
theorem Consistent_ids (orders : OrderMap) (buys sells : bookSide)
    (hc : Consistent orders buys sells) (k : OrderID) :
    (orders k).isSome = true ↔ k ∈ buys.ids ∨ k ∈ sells.ids := by
  obtain ⟨hB, hS, hO, -, -⟩ := hc
  constructor
  · intro h
    obtain ⟨o, ho⟩ := Option.isSome_iff_exists.mp h
    obtain ⟨h1, h2⟩ := hO k o ho
    rcases h2 with ⟨-, b⟩ | ⟨-, b⟩
    · exact Or.inl (List.mem_map.mpr ⟨o, b, h1⟩)
    · exact Or.inr (List.mem_map.mpr ⟨o, b, h1⟩)
  · intro h
    rcases h with h | h
    · obtain ⟨o, ho, he⟩ := List.mem_map.mp h
      rw [← he, (hB o ho).1]
      rfl
    · obtain ⟨o, ho, he⟩ := List.mem_map.mp h
      rw [← he, (hS o ho).1]
      rfl

/-! ### Calls keep the agreement on a synced book -/

/-- An admitted `Book` on a synced book keeps the agreement between `Orders`
and the sides. -/
theorem Book_consistent (ob : OrderBook) (n : BookOrderNote) (hs : ob.Synced = true)
    (hc : Consistent ob.Orders ob.Buys ob.Sells) (ha : ob.admits (.book n) = true) :
    Consistent (ob.Book n).1.Orders (ob.Book n).1.Buys (ob.Book n).1.Sells := by
  obtain ⟨s, m, q, o, bu, se, sy⟩ := ob
  simp only at hs hc
  subst hs
  simp only [OrderBook.Book, OrderBook.book, OrderBook.isSynced, Bool.not_true,
    Bool.not_false, Bool.and_false, Bool.false_eq_true, if_false]
  by_cases h1 : m ≠ n.MarketID
  · rw [if_pos h1]
    exact hc
  rw [if_neg h1]
  by_cases h2 : s > n.Seq
  · rw [if_pos h2]
    exact hc
  rw [if_neg h2]
  by_cases h3 : (s + 1) % 2 ^ 64 ≠ n.Seq
  · rw [if_pos h3]
    exact hc
  rw [if_neg h3]
  by_cases h4 : n.OrderID.length ≠ OrderIDSize
  · rw [if_pos h4]
    exact hc
  rw [if_neg h4]
  have hins : OrderBook.inserts
      { Seq := s, MarketID := m, NoteQueue := q, Orders := o, Buys := bu, Sells := se,
        Synced := true } n = true := by
    simp only [OrderBook.inserts, Bool.and_eq_true, decide_eq_true_eq,
      Bool.not_eq_true', decide_eq_false_iff_not]
    exact ⟨⟨⟨not_not.mp h1, h2⟩, not_not.mp h3⟩, not_not.mp h4⟩
  simp only [OrderBook.admits, hins, Bool.not_true, Bool.false_or, Bool.and_eq_true,
    Bool.or_eq_true, decide_eq_true_eq] at ha
  obtain ⟨hside, hfresh⟩ := ha
  by_cases h5 : n.Side = BuyOrderNum
  · rw [if_pos h5]
    exact Consistent_insert_buy o bu se ⟨n.OrderID, n.Side, n.Quantity, n.Rate, 0⟩ hc
      hfresh h5
  · rw [if_neg h5]
    have h6 : n.Side = SellOrderNum := hside.resolve_left h5
    rw [if_pos h6]
    exact Consistent_insert_sell o bu se ⟨n.OrderID, n.Side, n.Quantity, n.Rate, 0⟩ hc
      hfresh h6

/-- Every `Unbook` on a synced book keeps the agreement between `Orders` and
the sides. -/
theorem Unbook_consistent (ob : OrderBook) (n : UnbookOrderNote)
    (hs : ob.Synced = true) (hc : Consistent ob.Orders ob.Buys ob.Sells) :
    Consistent (ob.Unbook n).1.Orders (ob.Unbook n).1.Buys (ob.Unbook n).1.Sells := by
  obtain ⟨s, m, q, o, bu, se, sy⟩ := ob
  simp only at hs hc
  subst hs
  simp only [OrderBook.Unbook, OrderBook.unbook, OrderBook.isSynced, Bool.not_true,
    Bool.not_false, Bool.and_false, Bool.false_eq_true, if_false]
  by_cases h1 : m ≠ n.MarketID
  · rw [if_pos h1]
    exact hc
  rw [if_neg h1]
  by_cases h2 : s > n.Seq
  · rw [if_pos h2]
    exact hc
  rw [if_neg h2]
  by_cases h3 : (s + 1) % 2 ^ 64 ≠ n.Seq
  · rw [if_pos h3]
    exact hc
  rw [if_neg h3]
  by_cases h4 : n.OrderID.length ≠ OrderIDSize
  · rw [if_pos h4]
    exact hc
  rw [if_neg h4]
  cases hO : o n.OrderID with
  | none => exact hc
  | some order =>
    simp only
    by_cases h5 : order.Side = BuyOrderNum
    · rw [if_pos h5]
      by_cases h6 : (bu.Remove order).2 ≠ .nil
      · rw [if_pos h6]
        rcases Remove_spec bu order with ⟨-, heq⟩ | ⟨hnil, -⟩
        · simp only [heq]
          exact hc
        · exact absurd hnil h6
      · rw [if_neg h6]
        exact Consistent_remove_buy o bu se n.OrderID order hc hO h5 (not_not.mp h6)
    · rw [if_neg h5]
      by_cases h7 : order.Side = SellOrderNum
      · rw [if_pos h7]
        by_cases h6 : (se.Remove order).2 ≠ .nil
        · rw [if_pos h6]
          rcases Remove_spec se order with ⟨-, heq⟩ | ⟨hnil, -⟩
          · simp only [heq]
            exact hc
          · exact absurd hnil h6
        · rw [if_neg h6]
          exact Consistent_remove_sell o bu se n.OrderID order hc hO h7 (not_not.mp h6)
      · rw [if_neg h7]
        exact hc

/-- A run of admitted calls on a synced book keeps the book synced and keeps
the agreement between `Orders` and the sides. -/
theorem run_consistent (cs : List Call) (ob : OrderBook) (hs : ob.Synced = true)
    (hc : Consistent ob.Orders ob.Buys ob.Sells) (ha : ob.admitsAll cs = true) :
    (ob.run cs).Synced = true ∧
    Consistent (ob.run cs).Orders (ob.run cs).Buys (ob.run cs).Sells := by
  induction cs generalizing ob with
  | nil => exact ⟨hs, hc⟩
  | cons c cs ih =>
    simp only [OrderBook.admitsAll, Bool.and_eq_true] at ha
    obtain ⟨hac, har⟩ := ha
    have hsy := (call_seq ob c hs).1
    have hcc : Consistent (ob.call c).1.Orders (ob.call c).1.Buys (ob.call c).1.Sells := by
      cases c with
      | book n => exact Book_consistent ob n hs hc hac
      | unbook n => exact Unbook_consistent ob n hs hc
    exact ih (ob.call c).1 hsy hcc har

/-- A run over two sequences of calls is the run over the second from the
book the first leaves. -/
theorem run_append (a b : List Call) (ob : OrderBook) :
    ob.run (a ++ b) = (ob.run a).run b := by
  induction a generalizing ob with
  | nil => rfl
  | cons c cs ih => exact ih (ob.call c).1

/-- Replaying a pending queue through `Book` / `Unbook` is the run of the
calls it stands for. -/
theorem replayNotes_eq_run (q : List cachedOrderNote) (ob : OrderBook) :
    replayNotes ob q = ob.run (queueCalls q) := by
  induction q generalizing ob with
  | nil => rfl
  | cons c rest ih =>
    obtain ⟨route, payload⟩ := c
    cases payload with
    | book n => exact ih _
    | unbook n => exact ih _
    | other => exact ih _

/-! ### `Sync` establishes the agreement -/

/-- A snapshot loop that returns no error on entries with pairwise distinct
ids, none of them in `Orders`, keeps the agreement. -/
theorem syncOrders_consistent (l : List SnapshotOrder) (ob : OrderBook)
    (hc : Consistent ob.Orders ob.Buys ob.Sells)
    (hnd : (l.map (fun o => o.OrderID)).Nodup)
    (hfresh : ∀ o ∈ l, ob.Orders o.OrderID = none)
    (hok : (syncOrders ob l).2 = .nil) :
    Consistent (syncOrders ob l).1.Orders (syncOrders ob l).1.Buys
      (syncOrders ob l).1.Sells := by
  induction l generalizing ob with
  | nil => exact hc
  | cons o rest ih =>
    obtain ⟨hnot, hndr⟩ := List.nodup_cons.mp hnd
    have ho := hfresh o (List.mem_cons_self _ _)
    have hfr : ∀ x ∈ rest, (ob.Orders.set o.OrderID o.toOrder) x.OrderID = none := by
      intro x hx
      have hne : x.OrderID ≠ o.OrderID := by
        intro he
        exact hnot (List.mem_map.mpr ⟨x, hx, he⟩)
      simp only [OrderMap.set, hne, if_false]
      exact hfresh x (List.mem_cons_of_mem _ hx)
    simp only [syncOrders] at hok ⊢
    split_ifs at hok ⊢ with h1 h2 h3
    · exact ih _ (Consistent_insert_buy ob.Orders ob.Buys ob.Sells o.toOrder hc ho h2)
        hndr hfr hok
    · exact ih _ (Consistent_insert_sell ob.Orders ob.Buys ob.Sells o.toOrder hc ho h3)
        hndr hfr hok

/-- A `Sync` that returns no error leaves the book that replaying the pending
queue through `Book` / `Unbook` yields on the book synced with an empty
queue. -/
theorem Sync_eq_replay (ob : OrderBook) (S : Snapshot) (hok : (ob.Sync S).2 = .nil) :
    (ob.Sync S).1 =
      replayNotes (({ ob with NoteQueue := [] } : OrderBook).Sync S).1 ob.NoteQueue := by
  obtain ⟨hs, h1, h2, hS⟩ := Sync_ok_inv ob S hok
  have hrep :
      replayNotes
        { (syncOrders (ob.syncInit S) S.Orders).1 with NoteQueue := [], Synced := true }
        ob.NoteQueue =
      { (processCachedLoop (syncOrders (ob.syncInit S) S.Orders).1 ob.NoteQueue).1 with
        Synced := true, NoteQueue := [] } :=
    processCachedLoop_replay ob.NoteQueue (syncOrders (ob.syncInit S) S.Orders).1 [] h2
  have hfr := (processCachedLoop_ok_frame ob.NoteQueue
    (syncOrders (ob.syncInit S) S.Orders).1 h2).1
  rw [Sync_empty_queue ob S hs h1, hS, hrep]
  generalize (processCachedLoop (syncOrders (ob.syncInit S) S.Orders).1 ob.NoteQueue).1
    = r at hfr
  obtain ⟨s, m, q, o, bu, se, sy⟩ := r
  simp only at hfr
  subst hfr
  rfl

/-- C10 as stated fails in two ways on the book synced at seq 42 by a
successful `Sync`.  A book note with the next seq and the unknown side 3 is
written to `Orders` before its side is rejected, so `Orders` holds an id that
no side holds.  And three calls that all return no error, booking the same
order id twice (at rates 100 and 99) and unbooking it once, leave the id on the
buy side although `Orders` no longer holds it. -/
theorem C10_orders_and_sides_diverge :
    (NewOrderBook.Sync snapshot42).2 = .nil ∧
    (bookAt42.run [.book bookNote43BadSide]).Synced = true ∧
    ((bookAt42.run [.book bookNote43BadSide]).Orders (idOf 1)).isSome = true ∧
    idOf 1 ∉ (bookAt42.run [.book bookNote43BadSide]).Buys.ids ∧
    idOf 1 ∉ (bookAt42.run [.book bookNote43BadSide]).Sells.ids ∧
    (bookAt42.call (.book bookNote43)).2 = .nil ∧
    ((bookAt42.run [.book bookNote43]).call (.book bookNote44Again)).2 = .nil ∧
    ((bookAt42.run [.book bookNote43, .book bookNote44Again]).call
      (.unbook unbookNote45)).2 = .nil ∧
    (bookAt42.run [.book bookNote43, .book bookNote44Again,
      .unbook unbookNote45]).Synced = true ∧
    ((bookAt42.run [.book bookNote43, .book bookNote44Again,
      .unbook unbookNote45]).Orders (idOf 1)).isSome = false ∧
    idOf 1 ∈ (bookAt42.run [.book bookNote43, .book bookNote44Again,
      .unbook unbookNote45]).Buys.ids := by
  decide

/-- C10, amended: let `Sync` of a snapshot with pairwise distinct order ids
return no error, and let every book note that reaches the write to `Orders`
(own market, next seq, 32-byte id), whether drained from the pending queue by
that `Sync` or passed to `Book` afterwards, name side buy or sell and an order
id that `Orders` does not hold at that moment.  Then in every state reached
by `Book` and `Unbook` calls (whatever each call returns) the book is synced
and the order ids in `Orders` are exactly the order ids held in `Buys` and
`Sells` together. -/
theorem C10_orders_are_union_of_sides (ob : OrderBook) (S : Snapshot) (cs : List Call)
    (hok : (ob.Sync S).2 = .nil)
    (hnd : (S.Orders.map (fun o => o.OrderID)).Nodup)
    (hadm : (({ ob with NoteQueue := [] } : OrderBook).Sync S).1.admitsAll
      (queueCalls ob.NoteQueue ++ cs) = true) :
    ((ob.Sync S).1.run cs).Synced = true ∧
    ∀ k, (((ob.Sync S).1.run cs).Orders k).isSome = true ↔
      k ∈ ((ob.Sync S).1.run cs).Buys.ids ∨ k ∈ ((ob.Sync S).1.run cs).Sells.ids := by
  obtain ⟨hs, h1, -, -⟩ := Sync_ok_inv ob S hok
  have hE := Sync_empty_queue ob S hs h1
  have hinit : Consistent (ob.syncInit S).Orders (ob.syncInit S).Buys
      (ob.syncInit S).Sells := by
    simp [Consistent, OrderBook.syncInit, OrderMap.empty, NewBookSide, bookSide.orders,
      bookSide.ids]
  have hcons := syncOrders_consistent S.Orders (ob.syncInit S) hinit hnd
    (fun _ _ => rfl) h1
  have hrun : (ob.Sync S).1.run cs =
      (({ ob with NoteQueue := [] } : OrderBook).Sync S).1.run
        (queueCalls ob.NoteQueue ++ cs) := by
    rw [run_append, ← replayNotes_eq_run, ← Sync_eq_replay ob S hok]
  rw [hrun]
  rw [hE] at hadm ⊢
  obtain ⟨hsy, hc⟩ := run_consistent (queueCalls ob.NoteQueue ++ cs)
    { (syncOrders (ob.syncInit S) S.Orders).1 with NoteQueue := [], Synced := true }
    rfl hcons hadm
  exact ⟨hsy, fun k => Consistent_ids _ _ _ hc k⟩

/-- Witness of C10 (amended): scenario S1 of the spec, the book that buffered
a stale book note and an unbook note is synced with the snapshot at seq 8 and
then books order C at seq 10. -/
theorem C10_orders_are_union_of_sides_witness :
    ((pendingS1.Sync snapshot8).1.run [.book bookNote10]).Synced = true ∧
    ∀ k, (((pendingS1.Sync snapshot8).1.run [.book bookNote10]).Orders k).isSome = true ↔
      k ∈ ((pendingS1.Sync snapshot8).1.run [.book bookNote10]).Buys.ids ∨
        k ∈ ((pendingS1.Sync snapshot8).1.run [.book bookNote10]).Sells.ids :=
  C10_orders_are_union_of_sides pendingS1 snapshot8 [.book bookNote10] (by decide)
    (by decide) (by decide)

/-! ### Unbook of an unknown id, notes of another market, a second `Sync` -/

/-- C13: on a synced book with seq `s`, an unbook note of the book's market
with seq `s + 1` (a 64-bit value) whose 32-byte order id is no key of `Orders`
makes `Unbook` fail with the not-found error and leaves `Orders` and both
sides unchanged. -/
theorem C13_unbook_unknown_id_not_found (ob : OrderBook) (note : UnbookOrderNote)
    (hs : ob.Synced = true) (hm : note.MarketID = ob.MarketID)
    (hseq : note.Seq = ob.Seq + 1) (hty : note.Seq < 2 ^ 64)
    (hlen : note.OrderID.length = 32) (hno : ob.Orders note.OrderID = none) :
    (ob.Unbook note).2 = .error .orderNotFound ∧
    (ob.Unbook note).1.Orders = ob.Orders ∧
    (ob.Unbook note).1.Buys = ob.Buys ∧ (ob.Unbook note).1.Sells = ob.Sells := by
  have hmod : (ob.Seq + 1) % 2 ^ 64 = ob.Seq + 1 := by omega
  simp only [Nat.reducePow] at hmod
  simp [OrderBook.Unbook, OrderBook.unbook, OrderBook.isSynced, hs, hm, hseq, hmod,
    hlen, OrderIDSize, hno]

/-- Witness of C13: the book synced at seq 42 holds no order; it is asked to
unbook an order at seq 43. -/
theorem C13_unbook_unknown_id_not_found_witness :
    (bookAt42.Unbook unbookNote43).2 = .error .orderNotFound ∧
    (bookAt42.Unbook unbookNote43).1.Orders = bookAt42.Orders ∧
    (bookAt42.Unbook unbookNote43).1.Buys = bookAt42.Buys ∧
    (bookAt42.Unbook unbookNote43).1.Sells = bookAt42.Sells :=
  C13_unbook_unknown_id_not_found bookAt42 unbookNote43 (by decide) (by decide)
    (by decide) (by decide) (by decide) (by decide)

/-- C14: on every book, synced or not, a book or unbook note whose market id
differs from the book's `MarketID` makes `Book` / `Unbook` return the
invalid-market error and leaves the whole book, in particular seq, `Orders`,
both sides and the pending queue, unchanged. -/
theorem C14_foreign_market_rejected (ob : OrderBook) (bn : BookOrderNote)
    (un : UnbookOrderNote) (hbm : bn.MarketID ≠ ob.MarketID)
    (hum : un.MarketID ≠ ob.MarketID) :
    (ob.Book bn = (ob, .error .invalidMarket)) ∧
    (ob.Unbook un = (ob, .error .invalidMarket)) ∧
    ((ob.Book bn).1.Seq = ob.Seq ∧ (ob.Book bn).1.Orders = ob.Orders ∧
      (ob.Book bn).1.Buys = ob.Buys ∧ (ob.Book bn).1.Sells = ob.Sells ∧
      (ob.Book bn).1.NoteQueue = ob.NoteQueue) ∧
    ((ob.Unbook un).1.Seq = ob.Seq ∧ (ob.Unbook un).1.Orders = ob.Orders ∧
      (ob.Unbook un).1.Buys = ob.Buys ∧ (ob.Unbook un).1.Sells = ob.Sells ∧
      (ob.Unbook un).1.NoteQueue = ob.NoteQueue) := by
  have hb : ob.Book bn = (ob, .error .invalidMarket) := by
    simp only [OrderBook.Book, OrderBook.book]
    rw [if_pos (fun h => hbm h.symm)]
  have hu : ob.Unbook un = (ob, .error .invalidMarket) := by
    simp only [OrderBook.Unbook, OrderBook.unbook]
    rw [if_pos (fun h => hum h.symm)]
  rw [hb, hu]
  exact ⟨rfl, rfl, ⟨rfl, rfl, rfl, rfl, rfl⟩, rfl, rfl, rfl, rfl, rfl⟩

/-- Witness of C14: the book synced at seq 42 for `dcr_btc` receives notes of
market `dcr_eth`. -/
theorem C14_foreign_market_rejected_witness :
    (bookAt42.Book bookNoteForeign = (bookAt42, .error .invalidMarket)) ∧
    (bookAt42.Unbook unbookNoteForeign = (bookAt42, .error .invalidMarket)) ∧
    ((bookAt42.Book bookNoteForeign).1.Seq = bookAt42.Seq ∧
      (bookAt42.Book bookNoteForeign).1.Orders = bookAt42.Orders ∧
      (bookAt42.Book bookNoteForeign).1.Buys = bookAt42.Buys ∧
      (bookAt42.Book bookNoteForeign).1.Sells = bookAt42.Sells ∧
      (bookAt42.Book bookNoteForeign).1.NoteQueue = bookAt42.NoteQueue) ∧
    ((bookAt42.Unbook unbookNoteForeign).1.Seq = bookAt42.Seq ∧
      (bookAt42.Unbook unbookNoteForeign).1.Orders = bookAt42.Orders ∧
      (bookAt42.Unbook unbookNoteForeign).1.Buys = bookAt42.Buys ∧
      (bookAt42.Unbook unbookNoteForeign).1.Sells = bookAt42.Sells ∧
      (bookAt42.Unbook unbookNoteForeign).1.NoteQueue = bookAt42.NoteQueue) :=
  C14_foreign_market_rejected bookAt42 bookNoteForeign unbookNoteForeign (by decide)
    (by decide)

/-- C18: `Sync` on a book that is already synced returns the already-synced
error and changes nothing: the book, in particular seq, `MarketID`, `Orders`,
both sides, the synced flag and the pending queue, is as before the call. -/
theorem C18_sync_twice_rejected (ob : OrderBook) (S : Snapshot)
    (hs : ob.Synced = true) :
    ob.Sync S = (ob, .error .alreadySynced) ∧
    (ob.Sync S).1.Seq = ob.Seq ∧ (ob.Sync S).1.MarketID = ob.MarketID ∧
    (ob.Sync S).1.Orders = ob.Orders ∧ (ob.Sync S).1.Buys = ob.Buys ∧
    (ob.Sync S).1.Sells = ob.Sells ∧ (ob.Sync S).1.Synced = ob.Synced ∧
    (ob.Sync S).1.NoteQueue = ob.NoteQueue := by
  have h : ob.Sync S = (ob, .error .alreadySynced) := by
    simp [OrderBook.Sync, OrderBook.isSynced, hs]
  rw [h]
  exact ⟨rfl, rfl, rfl, rfl, rfl, rfl, rfl, rfl⟩

/-- Witness of C18: the book synced at seq 42 is handed the snapshot at
seq 8. -/
theorem C18_sync_twice_rejected_witness :
    bookAt42.Sync snapshot8 = (bookAt42, .error .alreadySynced) ∧
    (bookAt42.Sync snapshot8).1.Seq = bookAt42.Seq ∧
    (bookAt42.Sync snapshot8).1.MarketID = bookAt42.MarketID ∧
    (bookAt42.Sync snapshot8).1.Orders = bookAt42.Orders ∧
    (bookAt42.Sync snapshot8).1.Buys = bookAt42.Buys ∧
    (bookAt42.Sync snapshot8).1.Sells = bookAt42.Sells ∧
    (bookAt42.Sync snapshot8).1.Synced = bookAt42.Synced ∧
    (bookAt42.Sync snapshot8).1.NoteQueue = bookAt42.NoteQueue :=
  C18_sync_twice_rejected bookAt42 snapshot8 (by decide)

/-- C19: `BestNOrders` and `BestFill` return the unsynced error for every
side and every argument whenever the book is not synced; on a synced book they
return the unknown-side error for every side other than buy (1) and sell (2),
and otherwise exactly the result of the buy side (for 1) or of the sell side
(for 2). -/
theorem C19_queries_dispatch_on_side (ob : OrderBook) :
    (ob.Synced = false → ∀ arg side,
      ob.BestNOrders arg side = .error .unsynced ∧
      ob.BestFill arg side = .error .unsynced) ∧
    (ob.Synced = true → ∀ arg side, side ≠ 1 → side ≠ 2 →
      ob.BestNOrders arg side = .error .unknownSide ∧
      ob.BestFill arg side = .error .unknownSide) ∧
    (ob.Synced = true → ∀ arg,
      ob.BestNOrders arg 1 = ob.Buys.BestNOrders arg ∧
      ob.BestFill arg 1 = ob.Buys.BestFill arg ∧
      ob.BestNOrders arg 2 = ob.Sells.BestNOrders arg ∧
      ob.BestFill arg 2 = ob.Sells.BestFill arg) := by
  refine ⟨?_, ?_, ?_⟩
  · intro hs arg side
    simp [OrderBook.BestNOrders, OrderBook.BestFill, OrderBook.isSynced, hs]
  · intro hs arg side h1 h2
    simp [OrderBook.BestNOrders, OrderBook.BestFill, OrderBook.isSynced, hs,
      BuyOrderNum, SellOrderNum, h1, h2]
  · intro hs arg
    simp [OrderBook.BestNOrders, OrderBook.BestFill, OrderBook.isSynced, hs,
      BuyOrderNum, SellOrderNum]

/-- Witness of C19: the unsynced book from `NewOrderBook`, and the synced book
of scenario S1 queried for side 3, for buys and for sells. -/
theorem C19_queries_dispatch_on_side_witness :
    (NewOrderBook.BestNOrders 5 1 = .error .unsynced ∧
      NewOrderBook.BestFill 5 1 = .error .unsynced) ∧
    (bookS1.BestNOrders 5 3 = .error .unknownSide ∧
      bookS1.BestFill 5 3 = .error .unknownSide) ∧
    (bookS1.BestNOrders 5 1 = bookS1.Buys.BestNOrders 5 ∧
      bookS1.BestFill 5 1 = bookS1.Buys.BestFill 5 ∧
      bookS1.BestNOrders 5 2 = bookS1.Sells.BestNOrders 5 ∧
      bookS1.BestFill 5 2 = bookS1.Sells.BestFill 5) :=
  ⟨(C19_queries_dispatch_on_side NewOrderBook).1 (by decide) 5 1,
    (C19_queries_dispatch_on_side bookS1).2.1 (by decide) 5 3 (by decide) (by decide),
    (C19_queries_dispatch_on_side bookS1).2.2 (by decide) 5⟩

/-! ### Malformed book notes and the seq counter -/

/-- A book note with the next seq whose order id is not 32 bytes long fails
with the order-id-length error before anything is written: `Orders` and both
sides are as they were. -/
theorem book_short_id (ob : OrderBook) (note : BookOrderNote) (hs : ob.Synced = true)
    (hm : note.MarketID = ob.MarketID) (hseq : note.Seq = ob.Seq + 1)
    (hty : note.Seq < 2 ^ 64) (hlen : note.OrderID.length ≠ 32) :
    (ob.Book note).2 = .error .orderIDLength ∧
    (ob.Book note).1.Orders = ob.Orders ∧
    (ob.Book note).1.Buys = ob.Buys ∧ (ob.Book note).1.Sells = ob.Sells := by
  have hmod : (ob.Seq + 1) % 2 ^ 64 = ob.Seq + 1 := by omega
  simp only [Nat.reducePow] at hmod
  simp [OrderBook.Book, OrderBook.book, OrderBook.isSynced, hs, hm, hseq, hmod,
    hlen, OrderIDSize]

/-- A book note with the next seq, a 32-byte order id and a side that is
neither buy nor sell fails with the unknown-side error after its order has
been written to `Orders`; the sides are as they were. -/
theorem book_unknown_side (ob : OrderBook) (note : BookOrderNote)
    (hs : ob.Synced = true) (hm : note.MarketID = ob.MarketID)
    (hseq : note.Seq = ob.Seq + 1) (hty : note.Seq < 2 ^ 64)
    (hlen : note.OrderID.length = 32) (h1 : note.Side ≠ 1) (h2 : note.Side ≠ 2) :
    (ob.Book note).2 = .error .unknownSide ∧
    (ob.Book note).1.Orders note.OrderID =
      some { OrderID := note.OrderID, Side := note.Side, Quantity := note.Quantity,
             Rate := note.Rate, Time := 0 } ∧
    (ob.Book note).1.Buys = ob.Buys ∧ (ob.Book note).1.Sells = ob.Sells := by
  have hmod : (ob.Seq + 1) % 2 ^ 64 = ob.Seq + 1 := by omega
  simp only [Nat.reducePow] at hmod
  simp [OrderBook.Book, OrderBook.book, OrderBook.isSynced, hs, hm, hseq, hmod,
    hlen, OrderIDSize, BuyOrderNum, SellOrderNum, h1, h2, OrderMap.set]

/-- C15, evaluated on the code for an unknown side: the book synced at seq 42
holds no order and receives a book note of its market with seq 43, a 32-byte
order id and side 3.  `Book` returns the unknown-side error, as the claim
says, but the note's order has been inserted into `Orders`, where the claim
says it is inserted neither into `Orders` nor into a side. -/
theorem C15_unknown_side_is_written_to_orders :
    bookAt42.Synced = true ∧ bookNote43BadSide.MarketID = bookAt42.MarketID ∧
    bookNote43BadSide.Seq = bookAt42.Seq + 1 ∧
    bookNote43BadSide.OrderID.length = 32 ∧
    bookNote43BadSide.Side ≠ 1 ∧ bookNote43BadSide.Side ≠ 2 ∧
    bookAt42.Orders bookNote43BadSide.OrderID = none ∧
    (bookAt42.Book bookNote43BadSide).2 = .error .unknownSide ∧
    (bookAt42.Book bookNote43BadSide).1.Orders bookNote43BadSide.OrderID =
      some { OrderID := idOf 1, Side := 3, Quantity := 5, Rate := 100, Time := 0 } ∧
    (bookAt42.Book bookNote43BadSide).1.Buys = bookAt42.Buys ∧
    (bookAt42.Book bookNote43BadSide).1.Sells = bookAt42.Sells := by
  decide

/-- Below the largest 64-bit seq the counter never decreases: every `Book` or
`Unbook` call, successful or failing, on a synced or unsynced book leaves the
seq where it was or one above. -/
theorem call_seq_monotone (ob : OrderBook) (c : Call) (hlt : ob.Seq < 2 ^ 64 - 1) :
    (ob.call c).1.Seq = ob.Seq ∨ (ob.call c).1.Seq = ob.Seq + 1 := by
  have hmod : (ob.Seq + 1) % 2 ^ 64 = ob.Seq + 1 := by omega
  obtain ⟨s, m, q, o, bu, se, sy⟩ := ob
  cases c with
  | book n =>
    simp only [OrderBook.call, OrderBook.Book, OrderBook.book, OrderBook.isSynced,
      OrderBook.cacheOrderNote]
    split_ifs <;> first | exact Or.inl rfl | exact Or.inr hmod
  | unbook n =>
    simp only [OrderBook.call, OrderBook.Unbook, OrderBook.unbook, OrderBook.isSynced,
      OrderBook.cacheOrderNote]
    cases hO : o n.OrderID <;> simp only [hO] <;> split_ifs <;>
      first | exact Or.inl rfl | exact Or.inr hmod

/-- C17, evaluated on the code at the largest seq: the book synced by a
snapshot with seq `2^64 - 1` receives a book note and an unbook note of its
market carrying that same seq.  The notes are not discarded, the 64-bit
counter is incremented and wraps: after the failing call the seq is 0, below
the seq before the call. -/
theorem C17_seq_wraps_at_max :
    bookAtMaxSeq.Synced = true ∧ bookAtMaxSeq.Seq = 2 ^ 64 - 1 ∧
    (bookAtMaxSeq.Book bookNoteMaxSeq).2 = .error .outOfSync ∧
    (bookAtMaxSeq.Book bookNoteMaxSeq).1.Seq = 0 ∧
    (bookAtMaxSeq.Book bookNoteMaxSeq).1.Seq < bookAtMaxSeq.Seq ∧
    (bookAtMaxSeq.Unbook unbookNoteMaxSeq).2 = .error .outOfSync ∧
    (bookAtMaxSeq.Unbook unbookNoteMaxSeq).1.Seq = 0 ∧
    (bookAtMaxSeq.Unbook unbookNoteMaxSeq).1.Seq < bookAtMaxSeq.Seq := by
  decide

/-! ### The coin id codec -/

/-- The bytes of a coin id: the 32 bytes of the hash followed by the four
bytes of the vout, most significant first. -/
theorem toCoinID_eq (h : Hash) (v : Nat) :
    toCoinID h v =
      h.val ++ [(v / 2 ^ 24) % 256, (v / 2 ^ 16) % 256, (v / 2 ^ 8) % 256, v % 256] := by
  obtain ⟨l, hl⟩ := h
  have hl' : l.length = 32 := hl
  simp [toCoinID, copyInto, BigEndian.PutUint32, hl', List.take_replicate,
    List.drop_replicate]

/-- C20: for every 32-byte tx hash `h` and every 32-bit unsigned vout `v`,
`decodeCoinID (toCoinID h v)` succeeds and returns exactly `(h, v)`. -/
theorem C20_coin_id_round_trip (h : Hash) (v : Nat) (hv : v < 2 ^ 32) :
    decodeCoinID (toCoinID h v) = .ok (h, v) := by
  rw [toCoinID_eq]
  obtain ⟨l, hl⟩ := h
  have hl' : l.length = 32 := hl
  have hv' : v % 256 + v / 2 ^ 8 % 256 * 2 ^ 8 + v / 2 ^ 16 % 256 * 2 ^ 16 +
      v / 2 ^ 24 % 256 * 2 ^ 24 = v := by omega
  simp only [Nat.reducePow] at hv'
  simp [decodeCoinID, copyInto, BigEndian.Uint32, Hash.zero, HashSize, hl',
    List.take_append_of_le_length, List.drop_append_of_le_length, hv']

/-- Witness of C20: scenario S4 of the spec, 32 bytes of `0x11` and vout
`0x01020304`. -/
theorem C20_coin_id_round_trip_witness :
    decodeCoinID (toCoinID hashS4 0x01020304) = .ok (hashS4, 0x01020304) :=
  C20_coin_id_round_trip hashS4 0x01020304 (by decide)

/-! ### Book sides: the representation invariant -/

/-- No rate is traversed before itself. -/
theorem before_irrefl (pref : orderPreference) (a : Nat) : pref.before a a = false := by
  cases pref <;> simp [orderPreference.before]

/-- The traversal order of rates is transitive. -/
theorem before_trans (pref : orderPreference) (a b c : Nat)
    (h1 : pref.before a b = true) (h2 : pref.before b c = true) :
    pref.before a c = true := by
  cases pref <;> simp only [orderPreference.before, decide_eq_true_eq] at * <;> omega

/-- Of two different rates one is traversed before the other. -/
theorem before_total (pref : orderPreference) (a b : Nat) (hne : a ≠ b)
    (h : ¬ pref.before a b = true) : pref.before b a = true := by
  cases pref <;> simp only [orderPreference.before, decide_eq_true_eq] at * <;> omega

/-- A side without levels is well-formed. -/
theorem NewBookSide_wellFormed (pref : orderPreference) :
    (NewBookSide pref).wellFormed := by
  simp [bookSide.wellFormed, NewBookSide]

/-- The rates of the levels after an insertion: the old ones, and the rate of
the order. -/
theorem addToBins_rates (pref : orderPreference) (o : Order)
    (bins : List (Nat × List Order)) (r : Nat)
    (h : r ∈ (addToBins pref o bins).map (fun lvl => lvl.1)) :
    r = o.Rate ∨ r ∈ bins.map (fun lvl => lvl.1) := by
  induction bins with
  | nil =>
    simp only [addToBins, List.map_cons, List.map_nil, List.mem_singleton] at h
    exact Or.inl h
  | cons lvl rest ih =>
    obtain ⟨r', q⟩ := lvl
    simp only [addToBins] at h
    split_ifs at h with h1 h2
    · exact Or.inr h
    · simp only [List.map_cons, List.mem_cons] at h ⊢
      rcases h with h | h | h
      · exact Or.inl h
      · exact Or.inr (Or.inl h)
      · exact Or.inr (Or.inr h)
    · simp only [List.map_cons, List.mem_cons] at h ⊢
      rcases h with h | h
      · exact Or.inr (Or.inl h)
      · rcases ih h with h | h
        · exact Or.inl h
        · exact Or.inr (Or.inr h)

/-- Level insertion keeps the representation invariant. -/
theorem addToBins_wellFormed (pref : orderPreference) (o : Order)
    (bins : List (Nat × List Order))
    (hl : ∀ lvl ∈ bins, lvl.2 ≠ [] ∧ ∀ x ∈ lvl.2, x.Rate = lvl.1)
    (hp : (bins.map (fun lvl => lvl.1)).Pairwise (fun a b => pref.before a b = true)) :
    (∀ lvl ∈ addToBins pref o bins, lvl.2 ≠ [] ∧ ∀ x ∈ lvl.2, x.Rate = lvl.1) ∧
    ((addToBins pref o bins).map (fun lvl => lvl.1)).Pairwise
      (fun a b => pref.before a b = true) := by
  induction bins with
  | nil => simp [addToBins]
  | cons lvl rest ih =>
    obtain ⟨r, q⟩ := lvl
    have hhead := hl (r, q) (List.mem_cons_self _ _)
    have hrest := fun l hm => hl l (List.mem_cons_of_mem _ hm)
    simp only [List.map_cons, List.pairwise_cons] at hp
    obtain ⟨hfirst, hpr⟩ := hp
    simp only [addToBins]
    split_ifs with h1 h2
    · refine ⟨?_, ?_⟩
      · intro l hm
        rcases List.mem_cons.mp hm with rfl | hm'
        · refine ⟨by simp, ?_⟩
          intro x hx
          rcases List.mem_append.mp hx with hx | hx
          · exact hhead.2 x hx
          · simp only [List.mem_singleton] at hx
            rw [hx]
            exact h1.symm
        · exact hrest l hm'
      · simp only [List.map_cons, List.pairwise_cons]
        exact ⟨hfirst, hpr⟩
    · refine ⟨?_, ?_⟩
      · intro l hm
        rcases List.mem_cons.mp hm with rfl | hm'
        · simp
        · exact hl l hm'
      · simp only [List.map_cons, List.pairwise_cons, List.mem_cons]
        refine ⟨?_, hfirst, hpr⟩
        intro r' hr'
        rcases hr' with rfl | hr'
        · exact h2
        · exact before_trans pref _ _ _ h2 (hfirst r' hr')
    · obtain ⟨ih1, ih2⟩ := ih hrest hpr
      refine ⟨?_, ?_⟩
      · intro l hm
        rcases List.mem_cons.mp hm with rfl | hm'
        · exact hhead
        · exact ih1 l hm'
      · simp only [List.map_cons, List.pairwise_cons]
        refine ⟨?_, ih2⟩
        intro r' hmem
        rcases addToBins_rates pref o rest r' hmem with h | h
        · rw [h]
          exact before_total pref _ _ (fun he => h1 he.symm) h2
        · exact hfirst r' h

/-- The method `Add` keeps the representation invariant. -/
theorem Add_wellFormed (d : bookSide) (o : Order) (hwf : d.wellFormed) :
    (d.Add o).wellFormed :=
  addToBins_wellFormed d.orderPref o d.bins hwf.1 hwf.2

/-- A successful level deletion keeps the representation invariant: the
remaining levels are non-empty, keyed by the rate of their orders, and their
rates are among the old rates in the old order. -/
theorem removeFromBins_wellFormed (o : Order) (bins bins' : List (Nat × List Order))
    (hl : ∀ lvl ∈ bins, lvl.2 ≠ [] ∧ ∀ x ∈ lvl.2, x.Rate = lvl.1)
    (h : removeFromBins o bins = some bins') :
    (∀ lvl ∈ bins', lvl.2 ≠ [] ∧ ∀ x ∈ lvl.2, x.Rate = lvl.1) ∧
    (bins'.map (fun lvl => lvl.1)).Sublist (bins.map (fun lvl => lvl.1)) := by
  induction bins generalizing bins' with
  | nil => simp [removeFromBins] at h
  | cons lvl rest ih =>
    obtain ⟨r, q⟩ := lvl
    have hhead := hl (r, q) (List.mem_cons_self _ _)
    have hrest := fun l hm => hl l (List.mem_cons_of_mem _ hm)
    simp only [removeFromBins] at h
    split_ifs at h with hr
    · cases hq : removeFromBin o.OrderID q with
      | none => simp [hq] at h
      | some q' =>
        obtain ⟨x, -, hp⟩ := removeFromBin_some o.OrderID q q' hq
        cases q' with
        | nil =>
          simp only [hq, Option.some.injEq] at h
          subst h
          exact ⟨hrest, List.sublist_cons_self _ _⟩
        | cons z zs =>
          simp only [hq, Option.some.injEq] at h
          subst h
          refine ⟨?_, List.Sublist.refl _⟩
          intro l hm
          rcases List.mem_cons.mp hm with rfl | hm'
          · refine ⟨by simp, ?_⟩
            intro y hy
            exact hhead.2 y (hp.mem_iff.mpr (List.mem_cons_of_mem _ hy))
          · exact hrest l hm'
    · cases hrm : removeFromBins o rest with
      | none => simp [hrm] at h
      | some rest' =>
        simp only [hrm, Option.map_some', Option.some.injEq] at h
        subst h
        obtain ⟨ih1, ih2⟩ := ih rest' hrest hrm
        refine ⟨?_, ?_⟩
        · intro l hm
          rcases List.mem_cons.mp hm with rfl | hm'
          · exact hhead
          · exact ih1 l hm'
        · simp only [List.map_cons]
          exact ih2.cons₂ r

/-- The method `Remove` keeps the representation invariant. -/
theorem Remove_wellFormed (d : bookSide) (o : Order) (hwf : d.wellFormed) :
    (d.Remove o).1.wellFormed := by
  unfold bookSide.Remove
  cases h : removeFromBins o d.bins with
  | none => exact hwf
  | some bins' =>
    obtain ⟨h1, h2⟩ := removeFromBins_wellFormed o d.bins bins' hwf.1 h
    exact ⟨h1, hwf.2.sublist h2⟩

/-- In a FIFO that holds the id of an order once, through the order itself,
the deletion by id removes exactly that order. -/
theorem removeFromBin_erase (o : Order) (q : List Order) (hmem : o ∈ q)
    (hcount : (q.map (fun x => x.OrderID)).count o.OrderID = 1) :
    removeFromBin o.OrderID q = some (q.erase o) := by
  induction q with
  | nil => simp at hmem
  | cons y ys ih =>
    simp only [List.map_cons, List.count_cons] at hcount
    simp only [removeFromBin]
    by_cases hy : y.OrderID = o.OrderID
    · rw [if_pos hy]
      have hzero : (ys.map (fun x => x.OrderID)).count o.OrderID = 0 := by
        simp only [hy, beq_self_eq_true, if_true] at hcount
        omega
      have hnot : o ∉ ys := by
        intro h
        exact (List.count_eq_zero.mp hzero) (List.mem_map.mpr ⟨o, h, rfl⟩)
      have hyo : y = o := by
        rcases List.mem_cons.mp hmem with h | h
        · exact h.symm
        · exact absurd h hnot
      subst hyo
      simp
    · rw [if_neg hy]
      have hne : y ≠ o := fun h => hy (by rw [h])
      have hmem' : o ∈ ys := by
        rcases List.mem_cons.mp hmem with h | h
        · exact absurd h.symm hne
        · exact h
      have hcount' : (ys.map (fun x => x.OrderID)).count o.OrderID = 1 := by
        have : (y.OrderID == o.OrderID) = false := by simpa using hy
        simpa [this] using hcount
      rw [ih hmem' hcount']
      simp [List.erase_cons, hne]

/-- In well-formed levels that hold the id of an order once, through the order
itself, the deletion removes exactly that order from the resting orders. -/
theorem removeFromBins_erase (pref : orderPreference) (o : Order)
    (bins : List (Nat × List Order))
    (hl : ∀ lvl ∈ bins, lvl.2 ≠ [] ∧ ∀ x ∈ lvl.2, x.Rate = lvl.1)
    (hp : (bins.map (fun lvl => lvl.1)).Pairwise (fun a b => pref.before a b = true))
    (hmem : o ∈ bins.flatMap (fun lvl => lvl.2))
    (hcount : ((bins.flatMap (fun lvl => lvl.2)).map
      (fun x => x.OrderID)).count o.OrderID = 1) :
    ∃ bins', removeFromBins o bins = some bins' ∧
      bins'.flatMap (fun lvl => lvl.2) = (bins.flatMap (fun lvl => lvl.2)).erase o := by
  induction bins with
  | nil => simp at hmem
  | cons lvl rest ih =>
    obtain ⟨r, q⟩ := lvl
    have hhead := hl (r, q) (List.mem_cons_self _ _)
    have hrest := fun l hm => hl l (List.mem_cons_of_mem _ hm)
    simp only [List.map_cons, List.pairwise_cons] at hp
    obtain ⟨hfirst, hpr⟩ := hp
    simp only [List.flatMap_cons, List.map_append, List.count_append] at hcount
    simp only [List.flatMap_cons, List.mem_append] at hmem
    simp only [removeFromBins, List.flatMap_cons]
    by_cases hr : r = o.Rate
    · rw [if_pos hr]
      have hnotrest : o ∉ rest.flatMap (fun lvl => lvl.2) := by
        intro h
        obtain ⟨l, hlm, hol⟩ := List.mem_flatMap.mp h
        have hrate : o.Rate = l.1 := (hrest l hlm).2 o hol
        have hb := hfirst l.1 (List.mem_map.mpr ⟨l, hlm, rfl⟩)
        rw [← hrate, ← hr, before_irrefl] at hb
        cases hb
      have hq : o ∈ q := hmem.resolve_right hnotrest
      have hpos : 0 < (q.map (fun x => x.OrderID)).count o.OrderID :=
        List.count_pos_iff.mpr (List.mem_map.mpr ⟨o, hq, rfl⟩)
      have hcq : (q.map (fun x => x.OrderID)).count o.OrderID = 1 := by omega
      rw [removeFromBin_erase o q hq hcq]
      cases he : q.erase o with
      | nil =>
        refine ⟨rest, rfl, ?_⟩
        rw [List.erase_append_left _ hq, he]
        rfl
      | cons z zs =>
        refine ⟨(r, z :: zs) :: rest, rfl, ?_⟩
        rw [List.erase_append_left _ hq, he]
        rfl
    · rw [if_neg hr]
      have hnq : o ∉ q := fun h => hr (hhead.2 o h).symm
      have hmr : o ∈ rest.flatMap (fun lvl => lvl.2) := hmem.resolve_left hnq
      have hzero : (q.map (fun x => x.OrderID)).count o.OrderID = 0 := by
        have hpos : 0 < ((rest.flatMap (fun lvl => lvl.2)).map
            (fun x => x.OrderID)).count o.OrderID :=
          List.count_pos_iff.mpr (List.mem_map.mpr ⟨o, hmr, rfl⟩)
        omega
      obtain ⟨rest', hrm, hfl⟩ := ih hrest hpr hmr (by omega)
      refine ⟨(r, q) :: rest', by rw [hrm]; rfl, ?_⟩
      rw [List.flatMap_cons, hfl, List.erase_append_right _ hnq]

/-- On a well-formed side that holds the id of an order once, through the
order itself, `Remove` succeeds, removes exactly that order from the resting
orders, and the id is gone from the side. -/
theorem Remove_erase (d : bookSide) (o : Order) (hwf : d.wellFormed)
    (hmem : o ∈ d.orders) (hcount : d.ids.count o.OrderID = 1) :
    (d.Remove o).2 = .nil ∧ (d.Remove o).1.orders = d.orders.erase o ∧
    o.OrderID ∉ (d.Remove o).1.ids := by
  obtain ⟨bins', hrm, hfl⟩ :=
    removeFromBins_erase d.orderPref o d.bins hwf.1 hwf.2 hmem hcount
  have hR : d.Remove o = ({ d with bins := bins' }, .nil) := by
    simp only [bookSide.Remove, hrm]
  rw [hR]
  refine ⟨rfl, hfl, ?_⟩
  intro hin
  have hp : d.orders.Perm (o :: d.orders.erase o) := List.perm_cons_erase hmem
  have hpi : d.ids.Perm (o.OrderID :: (d.orders.erase o).map (fun x => x.OrderID)) :=
    List.Perm.map (fun x : Order => x.OrderID) hp
  have hc : d.ids.count o.OrderID =
      (o.OrderID :: (d.orders.erase o).map (fun x => x.OrderID)).count o.OrderID :=
    hpi.countP_eq _
  rw [List.count_cons_self] at hc
  have hz : ((d.orders.erase o).map (fun x => x.OrderID)).count o.OrderID = 0 := by omega
  apply List.count_eq_zero.mp hz
  simp only [bookSide.ids, bookSide.orders] at hin ⊢
  rw [← hfl]
  exact hin

/-- Appending an order to a FIFO that does not hold its id and deleting by
that id gives the FIFO back. -/
theorem removeFromBin_append (o : Order) (q : List Order)
    (hfresh : o.OrderID ∉ q.map (fun x => x.OrderID)) :
    removeFromBin o.OrderID (q ++ [o]) = some q := by
  induction q with
  | nil => simp [removeFromBin]
  | cons y ys ih =>
    simp only [List.map_cons, List.mem_cons, not_or] at hfresh
    simp only [List.cons_append, removeFromBin]
    rw [if_neg (fun h => hfresh.1 h.symm)]
    have := ih hfresh.2
    simp only [List.append_eq] at this ⊢
    rw [this]
    rfl

/-- On levels without an empty level that do not hold the id of an order,
inserting the order and deleting it again gives the levels back. -/
theorem removeFromBins_addToBins (pref : orderPreference) (o : Order)
    (bins : List (Nat × List Order)) (hl : ∀ lvl ∈ bins, lvl.2 ≠ [])
    (hfresh : o.OrderID ∉ (bins.flatMap (fun lvl => lvl.2)).map (fun x => x.OrderID)) :
    removeFromBins o (addToBins pref o bins) = some bins := by
  induction bins with
  | nil => simp [addToBins, removeFromBins, removeFromBin]
  | cons lvl rest ih =>
    obtain ⟨r, q⟩ := lvl
    have hq : q ≠ [] := hl (r, q) (List.mem_cons_self _ _)
    have hrest := fun l hm => hl l (List.mem_cons_of_mem _ hm)
    simp only [List.flatMap_cons, List.map_append, List.mem_append, not_or] at hfresh
    simp only [addToBins]
    split_ifs with h1 h2
    · simp only [removeFromBins, h1, if_true, removeFromBin_append o q hfresh.1]
      cases q with
      | nil => exact absurd rfl hq
      | cons z zs => rfl
    · simp [removeFromBins, removeFromBin]
    · simp only [removeFromBins, h1, if_false, ih hrest hfresh.2]
      rfl

/-- On a well-formed side that does not hold the id of an order, `Add`
followed by `Remove` of that order succeeds and gives the side back. -/
theorem Add_Remove (d : bookSide) (o : Order) (hwf : d.wellFormed)
    (hfresh : o.OrderID ∉ d.ids) : (d.Add o).Remove o = (d, .nil) := by
  have h := removeFromBins_addToBins d.orderPref o d.bins (fun l hm => (hwf.1 l hm).1)
    hfresh
  simp only [bookSide.Remove, bookSide.Add, h]

/-! ### Unbook of a resting order, and book followed by unbook -/

/-- The outcome of `Unbook` on a synced book for a note of the book's market
with the next seq and a 32-byte id stored in `Orders` under a buy order, once
the buy side's `Remove` succeeds. -/
theorem Unbook_buy_ok (ob : OrderBook) (note : UnbookOrderNote) (o : Order)
    (hs : ob.Synced = true) (hm : note.MarketID = ob.MarketID)
    (hseq : note.Seq = ob.Seq + 1) (hty : note.Seq < 2 ^ 64)
    (hlen : note.OrderID.length = 32) (hO : ob.Orders note.OrderID = some o)
    (hside : o.Side = 1) (hr : (ob.Buys.Remove o).2 = .nil) :
    ob.Unbook note =
      ({ ob with Seq := ob.Seq + 1, Buys := (ob.Buys.Remove o).1,
                 Orders := ob.Orders.delete note.OrderID }, .nil) := by
  have hmod : (ob.Seq + 1) % 2 ^ 64 = ob.Seq + 1 := by omega
  simp only [Nat.reducePow] at hmod
  simp [OrderBook.Unbook, OrderBook.unbook, OrderBook.isSynced, hs, hm, hseq, hmod,
    hlen, OrderIDSize, hO, hside, BuyOrderNum, hr]

/-- The outcome of `Unbook` on a synced book for a note of the book's market
with the next seq and a 32-byte id stored in `Orders` under a sell order, once
the sell side's `Remove` succeeds. -/
theorem Unbook_sell_ok (ob : OrderBook) (note : UnbookOrderNote) (o : Order)
    (hs : ob.Synced = true) (hm : note.MarketID = ob.MarketID)
    (hseq : note.Seq = ob.Seq + 1) (hty : note.Seq < 2 ^ 64)
    (hlen : note.OrderID.length = 32) (hO : ob.Orders note.OrderID = some o)
    (hside : o.Side = 2) (hr : (ob.Sells.Remove o).2 = .nil) :
    ob.Unbook note =
      ({ ob with Seq := ob.Seq + 1, Sells := (ob.Sells.Remove o).1,
                 Orders := ob.Orders.delete note.OrderID }, .nil) := by
  have hmod : (ob.Seq + 1) % 2 ^ 64 = ob.Seq + 1 := by omega
  simp only [Nat.reducePow] at hmod
  simp [OrderBook.Unbook, OrderBook.unbook, OrderBook.isSynced, hs, hm, hseq, hmod,
    hlen, OrderIDSize, hO, hside, BuyOrderNum, SellOrderNum, hr]

/-- C12 as stated fails: the book synced at seq 42 booked the same order id
twice, at rates 100 and 99, both calls returning no error; it is synced at
seq 44, `Orders` holds the second order, which rests on the buy side its `Side`
names.  `Unbook` of the id at seq 45 returns no error, moves the seq to 45
and deletes the id from `Orders`, but the id is not absent from both sides: the
first order still rests on the buy side. -/
theorem C12_unbook_leaves_second_entry :
    bookTwice.Synced = true ∧ bookTwice.Seq = 44 ∧
    unbookNote45.MarketID = bookTwice.MarketID ∧ unbookNote45.Seq = bookTwice.Seq + 1 ∧
    unbookNote45.OrderID.length = 32 ∧
    bookTwice.Orders unbookNote45.OrderID =
      some { OrderID := idOf 1, Side := 1, Quantity := 5, Rate := 99, Time := 0 } ∧
    ({ OrderID := idOf 1, Side := 1, Quantity := 5, Rate := 99, Time := 0 } : Order) ∈
      bookTwice.Buys.orders ∧
    (bookTwice.Unbook unbookNote45).2 = .nil ∧
    (bookTwice.Unbook unbookNote45).1.Seq = 45 ∧
    (bookTwice.Unbook unbookNote45).1.Orders unbookNote45.OrderID = none ∧
    unbookNote45.OrderID ∈ (bookTwice.Unbook unbookNote45).1.Buys.ids := by
  decide

/-- C12, amended: on a synced book with seq `s` whose sides are well-formed,
let an unbook note of the book's market carry seq `s + 1` (a 64-bit value) and
a 32-byte order id that `Orders` maps to an order carrying that id, resting on
the side its `Side` field names, the id being held exactly once on the two
sides together.  Then `Unbook` returns no error, the seq becomes `s + 1`, the
id is absent from `Orders` and from both sides, the removal is routed by the
stored order's side (that side loses exactly the stored order, the other side
is untouched), and every other entry of `Orders` is unchanged. -/
theorem C12_unbook_removes_order (ob : OrderBook) (note : UnbookOrderNote) (o : Order)
    (hs : ob.Synced = true) (hm : note.MarketID = ob.MarketID)
    (hseq : note.Seq = ob.Seq + 1) (hty : note.Seq < 2 ^ 64)
    (hlen : note.OrderID.length = 32) (hO : ob.Orders note.OrderID = some o)
    (hkey : o.OrderID = note.OrderID)
    (hrest : (o.Side = 1 ∧ o ∈ ob.Buys.orders) ∨ (o.Side = 2 ∧ o ∈ ob.Sells.orders))
    (honce : (ob.Buys.ids ++ ob.Sells.ids).count note.OrderID = 1)
    (hwb : ob.Buys.wellFormed) (hws : ob.Sells.wellFormed) :
    (ob.Unbook note).2 = .nil ∧ (ob.Unbook note).1.Seq = ob.Seq + 1 ∧
    (ob.Unbook note).1.Orders note.OrderID = none ∧
    note.OrderID ∉ (ob.Unbook note).1.Buys.ids ∧
    note.OrderID ∉ (ob.Unbook note).1.Sells.ids ∧
    (∀ k, k ≠ note.OrderID → (ob.Unbook note).1.Orders k = ob.Orders k) ∧
    (o.Side = 1 →
      (ob.Unbook note).1.Buys.orders = ob.Buys.orders.erase o ∧
      (ob.Unbook note).1.Sells = ob.Sells) ∧
    (o.Side = 2 →
      (ob.Unbook note).1.Sells.orders = ob.Sells.orders.erase o ∧
      (ob.Unbook note).1.Buys = ob.Buys) := by
  rw [List.count_append] at honce
  have hdel : ∀ k, k ≠ note.OrderID → ob.Orders.delete note.OrderID k = ob.Orders k := by
    intro k hk
    simp [OrderMap.delete, hk]
  rcases hrest with ⟨hside, hmem⟩ | ⟨hside, hmem⟩
  · have hpos : 0 < ob.Buys.ids.count note.OrderID :=
      List.count_pos_iff.mpr (List.mem_map.mpr ⟨o, hmem, hkey⟩)
    have hcb : ob.Buys.ids.count o.OrderID = 1 := by rw [hkey]; omega
    have hcs : ob.Sells.ids.count note.OrderID = 0 := by omega
    obtain ⟨hr, her, hgone⟩ := Remove_erase ob.Buys o hwb hmem hcb
    rw [Unbook_buy_ok ob note o hs hm hseq hty hlen hO hside hr]
    refine ⟨rfl, rfl, by simp [OrderMap.delete], ?_, List.count_eq_zero.mp hcs, hdel,
      fun _ => ⟨her, rfl⟩, ?_⟩
    · rw [← hkey]
      exact hgone
    · intro h2
      rw [hside] at h2
      cases h2
  · have hpos : 0 < ob.Sells.ids.count note.OrderID :=
      List.count_pos_iff.mpr (List.mem_map.mpr ⟨o, hmem, hkey⟩)
    have hcs : ob.Sells.ids.count o.OrderID = 1 := by rw [hkey]; omega
    have hcb : ob.Buys.ids.count note.OrderID = 0 := by omega
    obtain ⟨hr, her, hgone⟩ := Remove_erase ob.Sells o hws hmem hcs
    rw [Unbook_sell_ok ob note o hs hm hseq hty hlen hO hside hr]
    refine ⟨rfl, rfl, by simp [OrderMap.delete], List.count_eq_zero.mp hcb, ?_, hdel,
      ?_, fun _ => ⟨her, rfl⟩⟩
    · rw [← hkey]
      exact hgone
    · intro h1
      rw [hside] at h1
      cases h1

/-- Witness of C12 (amended): the book synced at seq 42 booked one buy order
at seq 43 and unbooks it at seq 44. -/
theorem C12_unbook_removes_order_witness :
    (bookOne.Unbook unbookNote44).2 = .nil ∧
    (bookOne.Unbook unbookNote44).1.Seq = bookOne.Seq + 1 ∧
    (bookOne.Unbook unbookNote44).1.Orders unbookNote44.OrderID = none ∧
    unbookNote44.OrderID ∉ (bookOne.Unbook unbookNote44).1.Buys.ids ∧
    unbookNote44.OrderID ∉ (bookOne.Unbook unbookNote44).1.Sells.ids ∧
    (∀ k, k ≠ unbookNote44.OrderID →
      (bookOne.Unbook unbookNote44).1.Orders k = bookOne.Orders k) ∧
    ((⟨idOf 1, 1, 5, 100, 0⟩ : Order).Side = 1 →
      (bookOne.Unbook unbookNote44).1.Buys.orders =
        bookOne.Buys.orders.erase ⟨idOf 1, 1, 5, 100, 0⟩ ∧
      (bookOne.Unbook unbookNote44).1.Sells = bookOne.Sells) ∧
    ((⟨idOf 1, 1, 5, 100, 0⟩ : Order).Side = 2 →
      (bookOne.Unbook unbookNote44).1.Sells.orders =
        bookOne.Sells.orders.erase ⟨idOf 1, 1, 5, 100, 0⟩ ∧
      (bookOne.Unbook unbookNote44).1.Buys = bookOne.Buys) :=
  C12_unbook_removes_order bookOne unbookNote44 ⟨idOf 1, 1, 5, 100, 0⟩ (by decide)
    (by decide) (by decide) (by decide) (by decide) (by decide) (by decide)
    (Or.inl ⟨by decide, by decide⟩) (by decide)
    (by unfold bookSide.wellFormed; decide) (by unfold bookSide.wellFormed; decide)

/-- The outcome of `Book` on a synced book for a well-formed note of the
book's market with the next seq and side buy. -/
theorem Book_buy_ok (ob : OrderBook) (note : BookOrderNote) (hs : ob.Synced = true)
    (hm : note.MarketID = ob.MarketID) (hseq : note.Seq = ob.Seq + 1)
    (hty : note.Seq < 2 ^ 64) (hlen : note.OrderID.length = 32)
    (hside : note.Side = 1) :
    ob.Book note =
      ({ ob with
          Seq := ob.Seq + 1,
          Orders := ob.Orders.set note.OrderID
            ⟨note.OrderID, note.Side, note.Quantity, note.Rate, 0⟩,
          Buys := ob.Buys.Add ⟨note.OrderID, note.Side, note.Quantity, note.Rate, 0⟩ },
        .nil) := by
  have hmod : (ob.Seq + 1) % 2 ^ 64 = ob.Seq + 1 := by omega
  simp only [Nat.reducePow] at hmod
  simp [OrderBook.Book, OrderBook.book, OrderBook.isSynced, hs, hm, hseq, hmod,
    hlen, OrderIDSize, hside, BuyOrderNum]

/-- The outcome of `Book` on a synced book for a well-formed note of the
book's market with the next seq and side sell. -/
theorem Book_sell_ok (ob : OrderBook) (note : BookOrderNote) (hs : ob.Synced = true)
    (hm : note.MarketID = ob.MarketID) (hseq : note.Seq = ob.Seq + 1)
    (hty : note.Seq < 2 ^ 64) (hlen : note.OrderID.length = 32)
    (hside : note.Side = 2) :
    ob.Book note =
      ({ ob with
          Seq := ob.Seq + 1,
          Orders := ob.Orders.set note.OrderID
            ⟨note.OrderID, note.Side, note.Quantity, note.Rate, 0⟩,
          Sells := ob.Sells.Add ⟨note.OrderID, note.Side, note.Quantity, note.Rate, 0⟩ },
        .nil) := by
  have hmod : (ob.Seq + 1) % 2 ^ 64 = ob.Seq + 1 := by omega
  simp only [Nat.reducePow] at hmod
  simp [OrderBook.Book, OrderBook.book, OrderBook.isSynced, hs, hm, hseq, hmod,
    hlen, OrderIDSize, hside, BuyOrderNum, SellOrderNum]

/-- Deleting a key right after it was set in a map that did not hold it
gives the map back. -/
theorem OrderMap.delete_set (m : OrderMap) (k : OrderID) (v : Order) (h : m k = none) :
    (m.set k v).delete k = m := by
  funext k'
  by_cases hk : k' = k
  · simp [OrderMap.delete, hk, h]
  · simp [OrderMap.delete, OrderMap.set, hk]

/-- A `Book` followed by an `Unbook` where the id already rests in the level:
the book `bookLeftover` is synced at seq 45 and `Orders` does not hold the
order id, which still rests on the buy side with quantity 5 (left there by two
`Book` calls and one `Unbook`, all returning no error).  `Book` of the id at
seq 46 with quantity 7 followed by `Unbook` of the id at seq 47 both return no
error and leave the seq at 47 and `Orders` as it was.  What the buy side holds
afterwards is decided by which of the two entries of the level `Remove`
deletes, which the spec leaves open: with the deletion of the first entry
carrying the id, as `removeFromBin` has it, the older entry goes and the side
holds the order with quantity 7; with the deletion of the latest one the side
would be as before. -/
theorem book_unbook_on_leftover :
    bookLeftover.Synced = true ∧ bookLeftover.Seq = 45 ∧
    bookLeftover.Orders bookNote46.OrderID = none ∧
    bookNote46.MarketID = bookLeftover.MarketID ∧ bookNote46.Seq = bookLeftover.Seq + 1 ∧
    bookNote46.OrderID.length = 32 ∧ bookNote46.Side = 1 ∧
    unbookNote47.MarketID = bookLeftover.MarketID ∧
    unbookNote47.Seq = bookLeftover.Seq + 2 ∧
    unbookNote47.OrderID = bookNote46.OrderID ∧
    (bookLeftover.Book bookNote46).2 = .nil ∧
    ((bookLeftover.Book bookNote46).1.Unbook unbookNote47).2 = .nil ∧
    ((bookLeftover.Book bookNote46).1.Unbook unbookNote47).1.Seq = 47 ∧
    ((bookLeftover.Book bookNote46).1.Unbook unbookNote47).1.Orders bookNote46.OrderID =
      none ∧
    bookLeftover.Buys.orders = [⟨idOf 1, 1, 5, 100, 0⟩] ∧
    ((bookLeftover.Book bookNote46).1.Unbook unbookNote47).1.Buys.orders =
      [⟨idOf 1, 1, 7, 100, 0⟩] ∧
    ((bookLeftover.Book bookNote46).1.Unbook unbookNote47).1.Buys ≠ bookLeftover.Buys := by
  decide

/-- On a synced book with seq `s` and well-formed sides, let neither `Orders`
nor a side hold the order id X.  Then `Book` of X at seq `s + 1` (32-byte id,
side buy or sell) followed by `Unbook` of X at seq `s + 2` (a 64-bit value)
both return no error, leave `Orders` and both sides equal to what they were
before the two calls, and leave the seq at `s + 2`. -/
theorem book_then_unbook_restores (ob : OrderBook) (bn : BookOrderNote)
    (un : UnbookOrderNote) (hs : ob.Synced = true)
    (hbm : bn.MarketID = ob.MarketID) (hum : un.MarketID = ob.MarketID)
    (hbseq : bn.Seq = ob.Seq + 1) (huseq : un.Seq = ob.Seq + 2) (hty : un.Seq < 2 ^ 64)
    (hid : un.OrderID = bn.OrderID) (hlen : bn.OrderID.length = 32)
    (hside : bn.Side = 1 ∨ bn.Side = 2) (hno : ob.Orders bn.OrderID = none)
    (hnb : bn.OrderID ∉ ob.Buys.ids) (hns : bn.OrderID ∉ ob.Sells.ids)
    (hwb : ob.Buys.wellFormed) (hws : ob.Sells.wellFormed) :
    (ob.Book bn).2 = .nil ∧ ((ob.Book bn).1.Unbook un).2 = .nil ∧
    ((ob.Book bn).1.Unbook un).1.Orders = ob.Orders ∧
    ((ob.Book bn).1.Unbook un).1.Buys = ob.Buys ∧
    ((ob.Book bn).1.Unbook un).1.Sells = ob.Sells ∧
    ((ob.Book bn).1.Unbook un).1.Seq = ob.Seq + 2 := by
  have htb : bn.Seq < 2 ^ 64 := by omega
  rcases hside with h1 | h2
  · have hrm := Add_Remove ob.Buys ⟨bn.OrderID, bn.Side, bn.Quantity, bn.Rate, 0⟩ hwb hnb
    have hU := Unbook_buy_ok
      { ob with
        Seq := ob.Seq + 1,
        Orders := ob.Orders.set bn.OrderID
          ⟨bn.OrderID, bn.Side, bn.Quantity, bn.Rate, 0⟩,
        Buys := ob.Buys.Add ⟨bn.OrderID, bn.Side, bn.Quantity, bn.Rate, 0⟩ }
      un ⟨bn.OrderID, bn.Side, bn.Quantity, bn.Rate, 0⟩ hs hum
      (by simp only [huseq]) hty (by rw [hid]; exact hlen)
      (by simp [OrderMap.set, hid]) h1 (by simp only [hrm])
    rw [Book_buy_ok ob bn hs hbm hbseq htb hlen h1]
    simp only
    rw [hU]
    simp only [hrm, hid, OrderMap.delete_set _ _ _ hno]
    exact ⟨trivial, trivial, trivial, trivial, trivial, trivial⟩
  · have hrm := Add_Remove ob.Sells ⟨bn.OrderID, bn.Side, bn.Quantity, bn.Rate, 0⟩ hws hns
    have hU := Unbook_sell_ok
      { ob with
        Seq := ob.Seq + 1,
        Orders := ob.Orders.set bn.OrderID
          ⟨bn.OrderID, bn.Side, bn.Quantity, bn.Rate, 0⟩,
        Sells := ob.Sells.Add ⟨bn.OrderID, bn.Side, bn.Quantity, bn.Rate, 0⟩ }
      un ⟨bn.OrderID, bn.Side, bn.Quantity, bn.Rate, 0⟩ hs hum
      (by simp only [huseq]) hty (by rw [hid]; exact hlen)
      (by simp [OrderMap.set, hid]) h2 (by simp only [hrm])
    rw [Book_sell_ok ob bn hs hbm hbseq htb hlen h2]
    simp only
    rw [hU]
    simp only [hrm, hid, OrderMap.delete_set _ _ _ hno]
    exact ⟨trivial, trivial, trivial, trivial, trivial, trivial⟩

/-- The book synced at seq 42, which holds no order, books a buy order at seq
43 and unbooks it at seq 44, and is as before but for the seq. -/
theorem book_then_unbook_restores_at42 :
    (bookAt42.Book bookNote43).2 = .nil ∧
    ((bookAt42.Book bookNote43).1.Unbook unbookNote44).2 = .nil ∧
    ((bookAt42.Book bookNote43).1.Unbook unbookNote44).1.Orders = bookAt42.Orders ∧
    ((bookAt42.Book bookNote43).1.Unbook unbookNote44).1.Buys = bookAt42.Buys ∧
    ((bookAt42.Book bookNote43).1.Unbook unbookNote44).1.Sells = bookAt42.Sells ∧
    ((bookAt42.Book bookNote43).1.Unbook unbookNote44).1.Seq = bookAt42.Seq + 2 :=
  book_then_unbook_restores bookAt42 bookNote43 unbookNote44 (by decide) (by decide)
    (by decide) (by decide) (by decide) (by decide) (by decide) (by decide)
    (Or.inl (by decide)) (by decide) (by decide) (by decide)
    (by unfold bookSide.wellFormed; decide) (by unfold bookSide.wellFormed; decide)

/-! ### Uniqueness of order ids across the sides -/

/-- Writing an entry keyed by its own id into `Orders` keeps the
uniqueness. -/
theorem Unique_set (orders : OrderMap) (buys sells : bookSide) (o : Order)
    (hU : Unique orders buys sells) : Unique (orders.set o.OrderID o) buys sells := by
  obtain ⟨hn, hk, ho⟩ := hU
  refine ⟨hn, ?_, ?_⟩
  · intro k hmem
    by_cases h : k = o.OrderID
    · simp [OrderMap.set, h]
    · simp only [OrderMap.set, h, if_false]
      exact hk k hmem
  · intro k x hx
    simp only [OrderMap.set] at hx
    split_ifs at hx with h
    · cases hx
      exact h.symm
    · exact ho k x hx

/-- Inserting an order with an id `Orders` does not hold on the buy side keeps
the uniqueness. -/
theorem Unique_add_buy (orders : OrderMap) (buys sells : bookSide) (o : Order)
    (hU : Unique orders buys sells) (hfresh : orders o.OrderID = none) :
    Unique (orders.set o.OrderID o) (buys.Add o) sells := by
  have hU' := Unique_set orders buys sells o hU
  obtain ⟨hn, hk, ho⟩ := hU
  have hnot : o.OrderID ∉ buys.ids ++ sells.ids := fun h => hk _ h hfresh
  have hp : (buys.Add o).ids.Perm (o.OrderID :: buys.ids) :=
    List.Perm.map (fun o : Order => o.OrderID) (Add_orders_perm buys o)
  have hp' : ((buys.Add o).ids ++ sells.ids).Perm (o.OrderID :: (buys.ids ++ sells.ids)) :=
    hp.append_right sells.ids
  refine ⟨hp'.nodup_iff.mpr (List.nodup_cons.mpr ⟨hnot, hn⟩), ?_, hU'.2.2⟩
  intro k hmem
  rcases List.mem_cons.mp (hp'.mem_iff.mp hmem) with h | h
  · simp [OrderMap.set, h]
  · exact hU'.2.1 k h

/-- Inserting an order with an id `Orders` does not hold on the sell side
keeps the uniqueness. -/
theorem Unique_add_sell (orders : OrderMap) (buys sells : bookSide) (o : Order)
    (hU : Unique orders buys sells) (hfresh : orders o.OrderID = none) :
    Unique (orders.set o.OrderID o) buys (sells.Add o) := by
  have hU' := Unique_set orders buys sells o hU
  obtain ⟨hn, hk, ho⟩ := hU
  have hnot : o.OrderID ∉ buys.ids ++ sells.ids := fun h => hk _ h hfresh
  have hp : (sells.Add o).ids.Perm (o.OrderID :: sells.ids) :=
    List.Perm.map (fun o : Order => o.OrderID) (Add_orders_perm sells o)
  have hp' : (buys.ids ++ (sells.Add o).ids).Perm (o.OrderID :: (buys.ids ++ sells.ids)) :=
    (hp.append_left buys.ids).trans List.perm_middle
  refine ⟨hp'.nodup_iff.mpr (List.nodup_cons.mpr ⟨hnot, hn⟩), ?_, hU'.2.2⟩
  intro k hmem
  rcases List.mem_cons.mp (hp'.mem_iff.mp hmem) with h | h
  · simp [OrderMap.set, h]
  · exact hU'.2.1 k h

/-- A successful `Remove` of the stored order of an id from the buy side,
followed by the deletion of the id from `Orders`, keeps the uniqueness. -/
theorem Unique_remove_buy (orders : OrderMap) (buys sells : bookSide) (k : OrderID)
    (o : Order) (hU : Unique orders buys sells) (hO : orders k = some o)
    (hr : (buys.Remove o).2 = .nil) :
    Unique (orders.delete k) (buys.Remove o).1 sells := by
  obtain ⟨hn, hk, ho⟩ := hU
  have hid : o.OrderID = k := ho k o hO
  rcases Remove_spec buys o with ⟨hne, -⟩ | ⟨-, x, hx, hp⟩
  · exact absurd hr hne
  · rw [hid] at hx
    have hpi : buys.ids.Perm (k :: (buys.Remove o).1.ids) := by
      have := List.Perm.map (fun o : Order => o.OrderID) hp
      simpa [bookSide.ids, hx] using this
    have hp' : (buys.ids ++ sells.ids).Perm (k :: ((buys.Remove o).1.ids ++ sells.ids)) :=
      hpi.append_right sells.ids
    obtain ⟨hknot, hn'⟩ := List.nodup_cons.mp (hp'.nodup_iff.mp hn)
    refine ⟨hn', ?_, ?_⟩
    · intro k' hmem
      have hne : k' ≠ k := fun h => hknot (h ▸ hmem)
      simp only [OrderMap.delete, hne, if_false]
      exact hk k' (hp'.mem_iff.mpr (List.mem_cons_of_mem _ hmem))
    · intro k' y hy
      simp only [OrderMap.delete] at hy
      split_ifs at hy with h
      exact ho k' y hy

/-- A successful `Remove` of the stored order of an id from the sell side,
followed by the deletion of the id from `Orders`, keeps the uniqueness. -/
theorem Unique_remove_sell (orders : OrderMap) (buys sells : bookSide) (k : OrderID)
    (o : Order) (hU : Unique orders buys sells) (hO : orders k = some o)
    (hr : (sells.Remove o).2 = .nil) :
    Unique (orders.delete k) buys (sells.Remove o).1 := by
  obtain ⟨hn, hk, ho⟩ := hU
  have hid : o.OrderID = k := ho k o hO
  rcases Remove_spec sells o with ⟨hne, -⟩ | ⟨-, x, hx, hp⟩
  · exact absurd hr hne
  · rw [hid] at hx
    have hpi : sells.ids.Perm (k :: (sells.Remove o).1.ids) := by
      have := List.Perm.map (fun o : Order => o.OrderID) hp
      simpa [bookSide.ids, hx] using this
    have hp' : (buys.ids ++ sells.ids).Perm (k :: (buys.ids ++ (sells.Remove o).1.ids)) :=
      (hpi.append_left buys.ids).trans List.perm_middle
    obtain ⟨hknot, hn'⟩ := List.nodup_cons.mp (hp'.nodup_iff.mp hn)
    refine ⟨hn', ?_, ?_⟩
    · intro k' hmem
      have hne : k' ≠ k := fun h => hknot (h ▸ hmem)
      simp only [OrderMap.delete, hne, if_false]
      exact hk k' (hp'.mem_iff.mpr (List.mem_cons_of_mem _ hmem))
    · intro k' y hy
      simp only [OrderMap.delete] at hy
      split_ifs at hy with h
      exact ho k' y hy

/-- A call of `book` that overwrites no entry of `Orders` keeps the
uniqueness, on the cached path and on the exported one, on a synced book and
on an unsynced one. -/
theorem book_unique (ob : OrderBook) (n : BookOrderNote) (cached : Bool)
    (hU : Unique ob.Orders ob.Buys ob.Sells)
    (hf : cached = true ∨ ob.Synced = true → ob.writesFresh n = true) :
    Unique (ob.book n cached).1.Orders (ob.book n cached).1.Buys
      (ob.book n cached).1.Sells := by
  obtain ⟨s, m, q, o, bu, se, sy⟩ := ob
  simp only at hU hf
  simp only [OrderBook.book, OrderBook.isSynced, OrderBook.cacheOrderNote]
  by_cases h1 : m ≠ n.MarketID
  · rw [if_pos h1]
    exact hU
  rw [if_neg h1]
  by_cases hg : (!cached && !sy) = true
  · rw [if_pos hg]
    split_ifs <;> exact hU
  rw [if_neg hg]
  have hgate : cached = true ∨ sy = true := by
    cases cached <;> cases sy <;> simp at hg ⊢
  by_cases h2 : s > n.Seq
  · rw [if_pos h2]
    exact hU
  rw [if_neg h2]
  by_cases h3 : (s + 1) % 2 ^ 64 ≠ n.Seq
  · rw [if_pos h3]
    exact hU
  rw [if_neg h3]
  by_cases h4 : n.OrderID.length ≠ OrderIDSize
  · rw [if_pos h4]
    exact hU
  rw [if_neg h4]
  have hins : OrderBook.inserts
      { Seq := s, MarketID := m, NoteQueue := q, Orders := o, Buys := bu, Sells := se,
        Synced := sy } n = true := by
    simp only [OrderBook.inserts, Bool.and_eq_true, decide_eq_true_eq,
      Bool.not_eq_true', decide_eq_false_iff_not]
    exact ⟨⟨⟨not_not.mp h1, h2⟩, not_not.mp h3⟩, not_not.mp h4⟩
  have hfresh : o n.OrderID = none := by
    have := hf hgate
    simpa [OrderBook.writesFresh, hins] using this
  by_cases h5 : n.Side = BuyOrderNum
  · rw [if_pos h5]
    exact Unique_add_buy o bu se ⟨n.OrderID, n.Side, n.Quantity, n.Rate, 0⟩ hU hfresh
  · rw [if_neg h5]
    by_cases h6 : n.Side = SellOrderNum
    · rw [if_pos h6]
      exact Unique_add_sell o bu se ⟨n.OrderID, n.Side, n.Quantity, n.Rate, 0⟩ hU hfresh
    · rw [if_neg h6]
      exact Unique_set o bu se ⟨n.OrderID, n.Side, n.Quantity, n.Rate, 0⟩ hU

/-- Every call of `unbook` keeps the uniqueness. -/
theorem unbook_unique (ob : OrderBook) (n : UnbookOrderNote) (cached : Bool)
    (hU : Unique ob.Orders ob.Buys ob.Sells) :
    Unique (ob.unbook n cached).1.Orders (ob.unbook n cached).1.Buys
      (ob.unbook n cached).1.Sells := by
  obtain ⟨s, m, q, o, bu, se, sy⟩ := ob
  simp only at hU
  simp only [OrderBook.unbook, OrderBook.isSynced, OrderBook.cacheOrderNote]
  by_cases h1 : m ≠ n.MarketID
  · rw [if_pos h1]
    exact hU
  rw [if_neg h1]
  by_cases hg : (!cached && !sy) = true
  · rw [if_pos hg]
    split_ifs <;> exact hU
  rw [if_neg hg]
  by_cases h2 : s > n.Seq
  · rw [if_pos h2]
    exact hU
  rw [if_neg h2]
  by_cases h3 : (s + 1) % 2 ^ 64 ≠ n.Seq
  · rw [if_pos h3]
    exact hU
  rw [if_neg h3]
  by_cases h4 : n.OrderID.length ≠ OrderIDSize
  · rw [if_pos h4]
    exact hU
  rw [if_neg h4]
  cases hO : o n.OrderID with
  | none => exact hU
  | some order =>
    simp only
    by_cases h5 : order.Side = BuyOrderNum
    · rw [if_pos h5]
      by_cases h6 : (bu.Remove order).2 ≠ .nil
      · rw [if_pos h6]
        rcases Remove_spec bu order with ⟨-, heq⟩ | ⟨hnil, -⟩
        · simp only [heq]
          exact hU
        · exact absurd hnil h6
      · rw [if_neg h6]
        exact Unique_remove_buy o bu se n.OrderID order hU hO (not_not.mp h6)
    · rw [if_neg h5]
      by_cases h7 : order.Side = SellOrderNum
      · rw [if_pos h7]
        by_cases h6 : (se.Remove order).2 ≠ .nil
        · rw [if_pos h6]
          rcases Remove_spec se order with ⟨-, heq⟩ | ⟨hnil, -⟩
          · simp only [heq]
            exact hU
          · exact absurd hnil h6
        · rw [if_neg h6]
          exact Unique_remove_sell o bu se n.OrderID order hU hO (not_not.mp h6)
      · rw [if_neg h7]
        exact hU

/-- The snapshot loop keeps the uniqueness on entries with pairwise distinct
ids, none of them in `Orders`, whether it returns an error or not. -/
theorem syncOrders_unique (l : List SnapshotOrder) (ob : OrderBook)
    (hU : Unique ob.Orders ob.Buys ob.Sells)
    (hnd : (l.map (fun o => o.OrderID)).Nodup)
    (hfresh : ∀ o ∈ l, ob.Orders o.OrderID = none) :
    Unique (syncOrders ob l).1.Orders (syncOrders ob l).1.Buys
      (syncOrders ob l).1.Sells := by
  induction l generalizing ob with
  | nil => exact hU
  | cons o rest ih =>
    obtain ⟨hnot, hndr⟩ := List.nodup_cons.mp hnd
    have ho := hfresh o (List.mem_cons_self _ _)
    have hfr : ∀ x ∈ rest, (ob.Orders.set o.OrderID o.toOrder) x.OrderID = none := by
      intro x hx
      have hne : x.OrderID ≠ o.OrderID := by
        intro he
        exact hnot (List.mem_map.mpr ⟨x, hx, he⟩)
      simp only [OrderMap.set, hne, if_false]
      exact hfresh x (List.mem_cons_of_mem _ hx)
    simp only [syncOrders]
    split_ifs with h1 h2 h3
    · exact hU
    · exact ih _ (Unique_add_buy ob.Orders ob.Buys ob.Sells o.toOrder hU ho) hndr hfr
    · exact ih _ (Unique_add_sell ob.Orders ob.Buys ob.Sells o.toOrder hU ho) hndr hfr
    · exact Unique_set ob.Orders ob.Buys ob.Sells o.toOrder hU

/-- A drain that overwrites no entry of `Orders` keeps the uniqueness,
whether it returns an error or not. -/
theorem processCachedLoop_unique (q : List cachedOrderNote) (ob : OrderBook)
    (hU : Unique ob.Orders ob.Buys ob.Sells) (hd : drainFresh ob q = true) :
    Unique (processCachedLoop ob q).1.Orders (processCachedLoop ob q).1.Buys
      (processCachedLoop ob q).1.Sells := by
  induction q generalizing ob with
  | nil => exact hU
  | cons c rest ih =>
    obtain ⟨route, payload⟩ := c
    have hU1 : Unique ({ ob with NoteQueue := rest } : OrderBook).Orders
        ({ ob with NoteQueue := rest } : OrderBook).Buys
        ({ ob with NoteQueue := rest } : OrderBook).Sells := hU
    simp only [processCachedLoop]
    simp only [drainFresh] at hd
    by_cases hb : route = BookOrderRoute
    · rw [if_pos hb] at hd ⊢
      cases payload with
      | book n =>
        simp only [Bool.and_eq_true, Bool.or_eq_true, decide_eq_true_eq] at hd
        obtain ⟨hw, hcont⟩ := hd
        have hstep := book_unique { ob with NoteQueue := rest } n true hU1 (fun _ => hw)
        simp only
        by_cases hr : (({ ob with NoteQueue := rest } : OrderBook).book n true).2 ≠ .nil
        · rw [if_pos hr]
          exact hstep
        · rw [if_neg hr]
          exact ih _ hstep (hcont.resolve_left hr)
      | unbook n => exact hU
      | other => exact hU
    · rw [if_neg hb] at hd ⊢
      by_cases hu : route = UnbookOrderRoute
      · rw [if_pos hu] at hd ⊢
        cases payload with
        | book n => exact hU
        | unbook n =>
          simp only [Bool.or_eq_true, decide_eq_true_eq] at hd
          have hstep := unbook_unique { ob with NoteQueue := rest } n true hU1
          simp only
          by_cases hr : (({ ob with NoteQueue := rest } : OrderBook).unbook n true).2 ≠ .nil
          · rw [if_pos hr]
            exact hstep
          · rw [if_neg hr]
            exact ih _ hstep (hd.resolve_left hr)
        | other => exact hU
      · rw [if_neg hu]
        exact hU

/-- A `Sync` that introduces no order id twice keeps the uniqueness, whether
it returns an error or not. -/
theorem Sync_unique (ob : OrderBook) (S : Snapshot)
    (hU : Unique ob.Orders ob.Buys ob.Sells) (hk : ob.keepsUnique (.sync S) = true) :
    Unique (ob.Sync S).1.Orders (ob.Sync S).1.Buys (ob.Sync S).1.Sells := by
  cases hs : ob.Synced with
  | true =>
    have h : ob.Sync S = (ob, .error .alreadySynced) := by
      simp [OrderBook.Sync, OrderBook.isSynced, hs]
    rw [h]
    exact hU
  | false =>
    simp only [OrderBook.keepsUnique, hs, Bool.false_or, Bool.and_eq_true,
      Bool.or_eq_true, decide_eq_true_eq] at hk
    obtain ⟨hnd, hdrain⟩ := hk
    have hinit : Unique (ob.syncInit S).Orders (ob.syncInit S).Buys
        (ob.syncInit S).Sells := by
      simp [Unique, OrderBook.syncInit, OrderMap.empty, NewBookSide, bookSide.orders,
        bookSide.ids]
    have hloop := syncOrders_unique S.Orders (ob.syncInit S) hinit hnd (fun _ _ => rfl)
    rw [Sync_unsynced ob S hs]
    by_cases h1 : (syncOrders (ob.syncInit S) S.Orders).2 ≠ .nil
    · rw [if_pos h1]
      exact hloop
    · rw [if_neg h1]
      have hd := processCachedLoop_unique ob.NoteQueue
        (syncOrders (ob.syncInit S) S.Orders).1 hloop (hdrain.resolve_left h1)
      split_ifs
      · exact hd
      · exact hd

/-- A run of operations that introduce no order id twice keeps the
uniqueness. -/
theorem exec_unique (ops : List Op) (ob : OrderBook)
    (hU : Unique ob.Orders ob.Buys ob.Sells) (hk : ob.keepsUniqueAll ops = true) :
    Unique (ob.exec ops).Orders (ob.exec ops).Buys (ob.exec ops).Sells := by
  induction ops generalizing ob with
  | nil => exact hU
  | cons op ops ih =>
    simp only [OrderBook.keepsUniqueAll, Bool.and_eq_true] at hk
    obtain ⟨hop, hrest⟩ := hk
    have hstep : Unique (ob.step op).1.Orders (ob.step op).1.Buys
        (ob.step op).1.Sells := by
      cases op with
      | sync S => exact Sync_unique ob S hU hop
      | book n =>
        refine book_unique ob n false hU ?_
        intro hg
        rcases hg with hg | hg
        · cases hg
        · simpa [OrderBook.keepsUnique, hg] using hop
      | unbook n => exact unbook_unique ob n false hU
    exact ih (ob.step op).1 hstep hrest

/-- C11 as stated fails on states reached from `NewOrderBook`: after the
snapshot at seq 42 and two `Book` calls for one order id (seq 43 at rate 100,
seq 44 at rate 99), all returning no error, the buy side holds the id twice;
and `Sync` of a snapshot that lists one id twice returns no error and leaves
the id twice on the sell side. -/
theorem C11_id_held_twice :
    (NewOrderBook.step (.sync snapshot42)).2 = .nil ∧
    ((NewOrderBook.exec [.sync snapshot42]).step (.book bookNote43)).2 = .nil ∧
    ((NewOrderBook.exec [.sync snapshot42, .book bookNote43]).step
      (.book bookNote44Again)).2 = .nil ∧
    (NewOrderBook.exec opsBookTwice).Buys.ids = [idOf 1, idOf 1] ∧
    ¬ ((NewOrderBook.exec opsBookTwice).Buys.ids ++
        (NewOrderBook.exec opsBookTwice).Sells.ids).Nodup ∧
    (NewOrderBook.step (.sync snapshotTwice)).2 = .nil ∧
    ¬ ((NewOrderBook.exec [.sync snapshotTwice]).Buys.ids ++
        (NewOrderBook.exec [.sync snapshotTwice]).Sells.ids).Nodup := by
  decide

/-- C11, amended: in every state reached from `NewOrderBook` by `Sync`, `Book`
and `Unbook` calls that introduce no order id twice (every snapshot handed to
`Sync` on an unsynced book has pairwise distinct order ids, and every book note
that reaches the write to `Orders`, in `Book` on a synced book or in the drain
of the pending queue by `Sync`, carries an order id that `Orders` does not
hold at that moment), no order id is held more than once in `Buys` and `Sells`
taken together, and every id on a side is a key of `Orders`. -/
theorem C11_ids_unique_across_sides (ops : List Op)
    (hk : NewOrderBook.keepsUniqueAll ops = true) :
    ((NewOrderBook.exec ops).Buys.ids ++ (NewOrderBook.exec ops).Sells.ids).Nodup ∧
    ∀ k ∈ (NewOrderBook.exec ops).Buys.ids ++ (NewOrderBook.exec ops).Sells.ids,
      (NewOrderBook.exec ops).Orders k ≠ none := by
  have hinit : Unique NewOrderBook.Orders NewOrderBook.Buys NewOrderBook.Sells := by
    simp [Unique, NewOrderBook, OrderMap.empty, NewBookSide, bookSide.orders,
      bookSide.ids]
  obtain ⟨h1, h2, -⟩ := exec_unique ops NewOrderBook hinit hk
  exact ⟨h1, h2⟩

/-- Witness of C11 (amended): the run along scenario S1 of the spec. -/
theorem C11_ids_unique_across_sides_witness :
    ((NewOrderBook.exec opsS1).Buys.ids ++ (NewOrderBook.exec opsS1).Sells.ids).Nodup ∧
    ∀ k ∈ (NewOrderBook.exec opsS1).Buys.ids ++ (NewOrderBook.exec opsS1).Sells.ids,
      (NewOrderBook.exec opsS1).Orders k ≠ none :=
  C11_ids_unique_across_sides opsS1 (by decide)

/-- C21: for every 32-byte tx hash `h` and every 32-bit vout `v`, `toCoinID h v`
is exactly 36 bytes long, its first 32 bytes are `h` in order, and its last
four bytes are `v` in big-endian order: each is a byte, the most significant
comes first, and read as a big-endian number they give `v`. -/
theorem C21_coin_id_layout (h : Hash) (v : Nat) (hv : v < 2 ^ 32) :
    (toCoinID h v).length = 36 ∧ (toCoinID h v).take 32 = h.val ∧
    (toCoinID h v).drop 32 =
      [v / 2 ^ 24, (v / 2 ^ 16) % 256, (v / 2 ^ 8) % 256, v % 256] ∧
    (∀ b ∈ (toCoinID h v).drop 32, b < 256) ∧
    v / 2 ^ 24 * 2 ^ 24 + (v / 2 ^ 16) % 256 * 2 ^ 16 + (v / 2 ^ 8) % 256 * 2 ^ 8 +
      v % 256 = v := by
  have hl : h.val.length = 32 := h.property
  have h24 : v / 2 ^ 24 % 256 = v / 2 ^ 24 := by omega
  rw [toCoinID_eq, h24]
  have hd : (h.val ++ [v / 2 ^ 24, (v / 2 ^ 16) % 256, (v / 2 ^ 8) % 256, v % 256]).drop 32 =
      [v / 2 ^ 24, (v / 2 ^ 16) % 256, (v / 2 ^ 8) % 256, v % 256] := by
    rw [← hl, List.drop_left]
  refine ⟨by simp [hl], by rw [← hl, List.take_left], hd, ?_, by omega⟩
  intro b hb
  rw [hd] at hb
  simp only [List.mem_cons, List.mem_singleton, List.not_mem_nil, or_false] at hb
  rcases hb with rfl | rfl | rfl | rfl <;> omega

/-- Witness of C21: scenario S4 of the spec, 32 bytes of `0x11` and vout
`0x01020304` give 32 bytes of `0x11` followed by `01 02 03 04`. -/
theorem C21_coin_id_layout_witness :
    toCoinID hashS4 0x01020304 = List.replicate 32 0x11 ++ [1, 2, 3, 4] ∧
    ((toCoinID hashS4 0x01020304).length = 36 ∧
      (toCoinID hashS4 0x01020304).take 32 = hashS4.val ∧
      (toCoinID hashS4 0x01020304).drop 32 =
        [0x01020304 / 2 ^ 24, (0x01020304 / 2 ^ 16) % 256, (0x01020304 / 2 ^ 8) % 256,
          0x01020304 % 256] ∧
      (∀ b ∈ (toCoinID hashS4 0x01020304).drop 32, b < 256) ∧
      0x01020304 / 2 ^ 24 * 2 ^ 24 + (0x01020304 / 2 ^ 16) % 256 * 2 ^ 16 +
        (0x01020304 / 2 ^ 8) % 256 * 2 ^ 8 + 0x01020304 % 256 = 0x01020304) :=
  ⟨by decide, C21_coin_id_layout hashS4 0x01020304 (by decide)⟩

/-! ### Failure is not atomic with respect to the seq -/

/-- On a synced book, a call of `Book` or `Unbook` for the book's own market
whose note is not below the book's seq advances the seq by one modulo `2^64`,
whatever it returns. -/
theorem call_advances_seq (ob : OrderBook) (c : Call) (hs : ob.Synced = true)
    (hm : c.MarketID = ob.MarketID)
    (hge : ob.Seq ≤ c.Seq) : (ob.call c).1.Seq = (ob.Seq + 1) % 2 ^ 64 := by
  obtain ⟨s, m, q, o, bu, se, sy⟩ := ob
  simp only at hs hm hge
  subst hs
  have hng : ¬ s > c.Seq := by omega
  cases c with
  | book n =>
    simp only [Call.Seq] at hng
    simp only [Call.MarketID] at hm
    simp only [OrderBook.call, OrderBook.Book, OrderBook.book, OrderBook.isSynced,
      Bool.not_true, Bool.not_false, Bool.and_false, Bool.false_eq_true, if_false]
    rw [if_neg (fun h => h hm.symm), if_neg hng]
    split_ifs <;> rfl
  | unbook n =>
    simp only [Call.Seq] at hng
    simp only [Call.MarketID] at hm
    simp only [OrderBook.call, OrderBook.Unbook, OrderBook.unbook, OrderBook.isSynced,
      Bool.not_true, Bool.not_false, Bool.and_false, Bool.false_eq_true, if_false]
    rw [if_neg (fun h => h hm.symm), if_neg hng]
    cases hO : o n.OrderID <;> simp only [hO] <;> split_ifs <;> rfl

/-- C30: whenever `Book` or `Unbook` is called on a synced book for the book's
own market with `note.seq >=` the book's seq and returns an error, the book's
`Seq` has nevertheless been advanced by exactly one modulo `2^64`. -/
theorem C30_failed_call_advances_seq (ob : OrderBook) (c : Call) (hs : ob.Synced = true)
    (hm : c.MarketID = ob.MarketID) (hge : ob.Seq ≤ c.Seq) (_herr : (ob.call c).2 ≠ .nil) :
    (ob.call c).1.Seq = (ob.Seq + 1) % 2 ^ 64 :=
  call_advances_seq ob c hs hm hge

/-- Witness of C30: the book synced at seq 42 fails an unbook note with seq 43
for an id it does not hold (not found) and is left at seq 43. -/
theorem C30_failed_call_advances_seq_witness :
    (bookAt42.call (.unbook unbookNote43)).2 = .error .orderNotFound ∧
    (bookAt42.call (.unbook unbookNote43)).1.Seq = (bookAt42.Seq + 1) % 2 ^ 64 :=
  ⟨by decide, C30_failed_call_advances_seq bookAt42 (.unbook unbookNote43) (by decide)
    (by decide) (by decide) (by decide)⟩

/-! ### A failure while the pending queue is drained -/

/-- With `cached = true`, `book` neither reads nor writes the pending queue. -/
theorem book_queue_frame (ob : OrderBook) (n : BookOrderNote) (q : List cachedOrderNote) :
    ({ ob with NoteQueue := q } : OrderBook).book n true =
      ({ (ob.book n true).1 with NoteQueue := q }, (ob.book n true).2) := by
  obtain ⟨s, m, q0, o, bu, se, sy⟩ := ob
  simp only [OrderBook.book, OrderBook.isSynced, Bool.not_true, Bool.not_false,
    Bool.and_false, Bool.false_and, Bool.false_eq_true, if_false]
  split_ifs <;> rfl

/-- With `cached = true`, `unbook` neither reads nor writes the pending
queue. -/
theorem unbook_queue_frame (ob : OrderBook) (n : UnbookOrderNote)
    (q : List cachedOrderNote) :
    ({ ob with NoteQueue := q } : OrderBook).unbook n true =
      ({ (ob.unbook n true).1 with NoteQueue := q }, (ob.unbook n true).2) := by
  obtain ⟨s, m, q0, o, bu, se, sy⟩ := ob
  simp only [OrderBook.unbook, OrderBook.isSynced, Bool.not_true, Bool.not_false,
    Bool.and_false, Bool.false_and, Bool.false_eq_true, if_false]
  cases hO : o n.OrderID <;> simp only [hO] <;> split_ifs <;> rfl

/-- The cached apply of an entry neither reads nor writes the pending queue. -/
theorem applyCached_queue_frame (ob : OrderBook) (e : cachedOrderNote)
    (q : List cachedOrderNote) :
    ({ ob with NoteQueue := q } : OrderBook).applyCached e =
      ({ (ob.applyCached e).1 with NoteQueue := q }, (ob.applyCached e).2) := by
  obtain ⟨route, payload⟩ := e
  simp only [OrderBook.applyCached]
  split_ifs
  · cases payload with
    | book n => exact book_queue_frame ob n q
    | unbook n => rfl
    | other => rfl
  · cases payload with
    | book n => rfl
    | unbook n => exact unbook_queue_frame ob n q
    | other => rfl
  · rfl

/-- The cached apply of an entry leaves the synced flag as it is. -/
theorem applyCached_synced (ob : OrderBook) (e : cachedOrderNote) :
    (ob.applyCached e).1.Synced = ob.Synced := by
  obtain ⟨route, payload⟩ := e
  simp only [OrderBook.applyCached]
  split_ifs
  · cases payload with
    | book n => exact (book_cached_frame ob n).2.1
    | unbook n => rfl
    | other => rfl
  · cases payload with
    | book n => rfl
    | unbook n => exact (unbook_cached_frame ob n).2.1
    | other => rfl
  · rfl

/-- The cached applies of a list of entries leave the synced flag as it is. -/
theorem applyAllCached_synced (l : List cachedOrderNote) (ob : OrderBook) :
    (ob.applyAllCached l).Synced = ob.Synced := by
  induction l generalizing ob with
  | nil => rfl
  | cons e es ih =>
    simp only [OrderBook.applyAllCached]
    rw [ih, applyCached_synced]

/-- One turn of the drain loop: the entry is taken off the queue, its cached
apply runs, and a failure ends the drain. -/
theorem processCachedLoop_cons (ob : OrderBook) (e : cachedOrderNote)
    (rest : List cachedOrderNote) :
    processCachedLoop ob (e :: rest) =
      if (({ ob with NoteQueue := rest } : OrderBook).applyCached e).2 ≠ .nil then
        ({ ob with NoteQueue := rest } : OrderBook).applyCached e
      else processCachedLoop (({ ob with NoteQueue := rest } : OrderBook).applyCached e).1 rest := by
  obtain ⟨route, payload⟩ := e
  simp only [processCachedLoop, OrderBook.applyCached]
  split_ifs <;> first | rfl | (cases payload <;> simp_all)

/-- The drain does not depend on what the queue field holds when it starts: it
overwrites the field with the entries that remain. -/
theorem processCachedLoop_queue (ob : OrderBook) (q l : List cachedOrderNote) :
    processCachedLoop { ob with NoteQueue := q } l = processCachedLoop ob l := by
  cases l with
  | nil => rfl
  | cons e rest => rw [processCachedLoop_cons, processCachedLoop_cons]

/-- A drain whose first failing entry is `e`, after the entries `pre` that all
apply: it ends with the book the applies up to and including the failing one
leave, the queue holding the entries after `e`, and returns the failure. -/
theorem processCachedLoop_first_failure (pre : List cachedOrderNote) (e : cachedOrderNote)
    (post : List cachedOrderNote) (ob : OrderBook)
    (hpre : ob.appliesAllCached pre = true)
    (hfail : ((ob.applyAllCached pre).applyCached e).2 ≠ .nil) :
    processCachedLoop ob (pre ++ e :: post) =
      ({ ((ob.applyAllCached pre).applyCached e).1 with NoteQueue := post },
        ((ob.applyAllCached pre).applyCached e).2) := by
  induction pre generalizing ob with
  | nil =>
    simp only [OrderBook.applyAllCached] at hfail ⊢
    rw [List.nil_append, processCachedLoop_cons, applyCached_queue_frame, if_pos hfail]
  | cons x xs ih =>
    simp only [OrderBook.appliesAllCached, Bool.and_eq_true, decide_eq_true_eq] at hpre
    simp only [OrderBook.applyAllCached] at hfail ⊢
    rw [List.cons_append, processCachedLoop_cons, applyCached_queue_frame,
      if_neg (fun h => h hpre.1), processCachedLoop_queue]
    exact ih (ob.applyCached x).1 hpre.2 hfail

/-- C29: if, while `Sync` drains the pending notes `pre ++ e :: post` after
loading the snapshot, `e` is the first note whose cached apply fails, then
`Sync` returns that note's error, the book stays unsynced, the notes of `pre`
have been applied (the book is the one their applies and the failing apply
leave), and the pending queue afterwards holds exactly `post`: every processed
note, the failing one included, has been removed from the queue. -/
theorem C29_drain_failure (ob : OrderBook) (S : Snapshot) (pre : List cachedOrderNote)
    (e : cachedOrderNote) (post : List cachedOrderNote) (hs : ob.Synced = false)
    (hq : ob.NoteQueue = pre ++ e :: post)
    (hsnap : (syncOrders (ob.syncInit S) S.Orders).2 = .nil)
    (hpre : (syncOrders (ob.syncInit S) S.Orders).1.appliesAllCached pre = true)
    (hfail : (((syncOrders (ob.syncInit S) S.Orders).1.applyAllCached pre).applyCached e).2
      ≠ .nil) :
    (ob.Sync S).2 =
      (((syncOrders (ob.syncInit S) S.Orders).1.applyAllCached pre).applyCached e).2 ∧
    (ob.Sync S).1.Synced = false ∧
    (ob.Sync S).1.NoteQueue = post ∧
    (ob.Sync S).1 =
      { (((syncOrders (ob.syncInit S) S.Orders).1.applyAllCached pre).applyCached e).1 with
        NoteQueue := post } := by
  have hd := processCachedLoop_first_failure pre e post _ hpre hfail
  have hsy : (((syncOrders (ob.syncInit S) S.Orders).1.applyAllCached pre).applyCached
      e).1.Synced = false := by
    rw [applyCached_synced, applyAllCached_synced, (syncOrders_frame S.Orders _).2.2.2]
    exact hs
  have hne : ¬ (syncOrders (ob.syncInit S) S.Orders).2 ≠ .nil := fun h => h hsnap
  rw [Sync_unsynced ob S hs, if_neg hne, hq, hd, if_pos hfail]
  exact ⟨rfl, hsy, rfl, rfl⟩

/-- Witness of C29: the queue holds an unbook note with seq 9, a book note with
seq 11 and a book note with seq 10 when the snapshot at seq 8 arrives; the
first applies, the second fails out of sync, and `Sync` leaves the book
unsynced at seq 10 with only the third note pending. -/
theorem C29_drain_failure_witness :
    ((pendingGap.Sync snapshot8).2 = .error .outOfSync ∧
      (pendingGap.Sync snapshot8).1.Seq = 10 ∧
      (pendingGap.Sync snapshot8).1.NoteQueue =
        [{ Route := BookOrderRoute, OrderNote := .book bookNote10 }]) ∧
    ((pendingGap.Sync snapshot8).2 =
      (((syncOrders (pendingGap.syncInit snapshot8) snapshot8.Orders).1.applyAllCached
        [{ Route := UnbookOrderRoute, OrderNote := .unbook unbookNote9 }]).applyCached
        { Route := BookOrderRoute, OrderNote := .book bookNote11 }).2 ∧
    (pendingGap.Sync snapshot8).1.Synced = false ∧
    (pendingGap.Sync snapshot8).1.NoteQueue =
      [{ Route := BookOrderRoute, OrderNote := .book bookNote10 }] ∧
    (pendingGap.Sync snapshot8).1 =
      { (((syncOrders (pendingGap.syncInit snapshot8) snapshot8.Orders).1.applyAllCached
          [{ Route := UnbookOrderRoute, OrderNote := .unbook unbookNote9 }]).applyCached
          { Route := BookOrderRoute, OrderNote := .book bookNote11 }).1 with
        NoteQueue := [{ Route := BookOrderRoute, OrderNote := .book bookNote10 }] }) :=
  ⟨by decide, C29_drain_failure pendingGap snapshot8
    [{ Route := UnbookOrderRoute, OrderNote := .unbook unbookNote9 }]
    { Route := BookOrderRoute, OrderNote := .book bookNote11 }
    [{ Route := BookOrderRoute, OrderNote := .book bookNote10 }]
    (by decide) (by decide) (by decide) (by decide) (by decide)⟩

/-! ### The client core: a failed note and the registry of books -/

/-- The registry after a book is replaced: the market holds the new book, every
other market what it held. -/
theorem setBook_books (dc : dexConnection) (marketID : String) (ob : OrderBook) :
    (dc.setBook marketID ob).books marketID = some ob ∧
    ∀ m, m ≠ marketID → (dc.setBook marketID ob).books m = dc.books m := by
  refine ⟨by simp [dexConnection.setBook], ?_⟩
  intro m hm
  simp [dexConnection.setBook, hm]

/-- C27, the claim refuted: the connection `connAt42` receives a book note
with seq 44 for market `dcr_btc`, whose book is at seq 42. `Book` fails out of
sync and the handler returns that error, but the registry still has an entry
for `dcr_btc`: the same book, left at seq 43. -/
theorem C27_desynced_book_stays_registered :
    (handleBookOrderMsg connAt42 (some bookNote44)).2 = .bookError (.error .outOfSync) ∧
    ((handleBookOrderMsg connAt42 (some bookNote44)).1.books "dcr_btc").isSome = true ∧
    ((handleBookOrderMsg connAt42 (some bookNote44)).1.books "dcr_btc").map
      (fun ob => ob.Seq) = some 43 := by
  decide

/-- C27, amended: whenever the `Book` or `Unbook` call made by
`handleBookOrderMsg` / `handleUnbookOrderMsg` fails, the handler returns that
error and the connection keeps the book: afterwards the registry holds, under
the note's market id, the book as the failed call left it, and the entries of
other markets are unchanged. -/
theorem C27_failed_note_keeps_book (dc : dexConnection) (ob : OrderBook) :
    (∀ note : BookOrderNote, dc.books note.MarketID = some ob → (ob.Book note).2 ≠ .nil →
      (handleBookOrderMsg dc (some note)).2 = .bookError (ob.Book note).2 ∧
      (handleBookOrderMsg dc (some note)).1.books note.MarketID = some (ob.Book note).1 ∧
      ∀ m, m ≠ note.MarketID →
        (handleBookOrderMsg dc (some note)).1.books m = dc.books m) ∧
    (∀ note : UnbookOrderNote, dc.books note.MarketID = some ob → (ob.Unbook note).2 ≠ .nil →
      (handleUnbookOrderMsg dc (some note)).2 = .bookError (ob.Unbook note).2 ∧
      (handleUnbookOrderMsg dc (some note)).1.books note.MarketID = some (ob.Unbook note).1 ∧
      ∀ m, m ≠ note.MarketID →
        (handleUnbookOrderMsg dc (some note)).1.books m = dc.books m) := by
  constructor
  · intro note hb he
    simp only [handleBookOrderMsg, hb, if_pos he]
    exact ⟨trivial, (setBook_books dc _ _).1, (setBook_books dc _ _).2⟩
  · intro note hb he
    simp only [handleUnbookOrderMsg, hb, if_pos he]
    exact ⟨trivial, (setBook_books dc _ _).1, (setBook_books dc _ _).2⟩

/-- Witness of C27 amended: on `connAt42` the unbook note with seq 43 for an
id the book does not hold fails with not-found, and the book stays registered
under `dcr_btc`. -/
theorem C27_failed_note_keeps_book_witness :
    (handleUnbookOrderMsg connAt42 (some unbookNote43)).2 =
      .bookError (bookAt42.Unbook unbookNote43).2 ∧
    (handleUnbookOrderMsg connAt42 (some unbookNote43)).1.books unbookNote43.MarketID =
      some (bookAt42.Unbook unbookNote43).1 ∧
    ∀ m, m ≠ unbookNote43.MarketID →
      (handleUnbookOrderMsg connAt42 (some unbookNote43)).1.books m = connAt42.books m :=
  (C27_failed_note_keeps_book connAt42 bookAt42).2 unbookNote43
    (by simp [connAt42, unbookNote43]) (by decide)

/-! ### The client core: the configuration of a DEX and its markets -/

/-- The `config` callback of `addDex` never adds a connection: the decode into
the nil pointer `dexCfg` fails whatever the response holds, and the callback
returns with the core as it was. -/
theorem addDexConfig_core (c : Core) (uri : String) (response : Option (Option ConfigResult)) :
    (c.addDexConfig uri response).1 = c := by
  cases response <;> rfl

/-- C28: the `config` callback of `addDex` receives the well-formed
configuration `cfgTwoMarkets`, with the assets `dcr` and `btc`, their market
`(42, 0)` and a market `(42, 2)` whose quote asset is missing. The decode
fails, the failure is logged, no connection is added to the core, and
`ListMarkets` returns the empty list: the market `(42, 0)` of the two known
assets is not listed either. -/
theorem C28_config_is_never_registered :
    (New.addDexConfig "dex.example" (some (some cfgTwoMarkets))).2 = [ConfigLog.failedConfig] ∧
    (New.addDexConfig "dex.example" (some (some cfgTwoMarkets))).1.conns.length = 0 ∧
    ListMarkets (New.addDexConfig "dex.example" (some (some cfgTwoMarkets))).1.conns =
      some [] := by
  decide

/-- The statements after the decode keep the configuration as it is: no market
is removed from it, whatever the validation logs. -/
theorem addDexConnection_cfg (uri : String) (dexCfg : ConfigResult) :
    (addDexConnection uri dexCfg).1.cfg = dexCfg := rfl

/-- The entries of the asset table built after the decode all give the last
asset of the configuration: on a connection built from the assets `dcr` and
`btc`, `ListMarkets` lists the market `(42, 0)` with id 0 and symbol `btc` for
the base as well. -/
theorem ListMarkets_base_is_last_asset :
    ListMarkets [("dex.example", (addDexConnection "dex.example" cfgDcrBtc).1)] =
      some [{ DEX := "dex.example",
              Markets := [{ BaseID := 0, BaseSymbol := "btc", QuoteID := 0,
                            QuoteSymbol := "btc" }] }] := by
  decide

/-- The statements after the decode log a market whose asset is missing but
keep it, and `ListMarkets` has no check of its own: on a connection built from
`cfgMissingQuote`, whose market `(42, 0)` names a quote asset that is not in
the asset table, it reads the quote asset through the nil entry and panics. -/
theorem ListMarkets_missing_asset :
    (addDexConnection "dex.example" cfgMissingQuote).2 =
      [ConfigLog.missingQuote "dex.example" 0] ∧
    (addDexConnection "dex.example" cfgMissingQuote).1.cfg.Markets = [(42, 0)] ∧
    (addDexConnection "dex.example" cfgMissingQuote).1.assets 0 = none ∧
    ListMarkets [("dex.example", (addDexConnection "dex.example" cfgMissingQuote).1)] =
      none := by
  decide

/-! ### The DCR backend: a coin id of the wrong length -/

/-- C22: `decodeCoinID` returns an error if and only if the input is not
exactly 36 bytes long, and `Coin` fails with the decoding error for every coin
id of any other length without consulting the node: the backend is left as it
was, no call on the node recorded. -/
theorem C22_coin_id_length (coinID : List Nat) :
    ((∃ e, decodeCoinID coinID = .error e) ↔ coinID.length ≠ 36) ∧
    (coinID.length ≠ 36 → ∀ (dcr : DCRBackend) (x : Externals) (redeemScript : List Nat),
      (dcr.Coin x coinID redeemScript).2 = .error (.decodeCoinID .coinIDLength) ∧
      (dcr.Coin x coinID redeemScript).1.calls = dcr.calls ∧
      (dcr.Coin x coinID redeemScript).1 = dcr) := by
  by_cases h : coinID.length ≠ 36
  · refine ⟨⟨fun _ => h, fun _ => ⟨DcrErr.coinIDLength, by simp [decodeCoinID, h]⟩⟩, ?_⟩
    intro _ dcr x redeemScript
    simp [DCRBackend.Coin, decodeCoinID, h]
  · refine ⟨⟨?_, fun h2 => absurd h2 h⟩, fun h2 => absurd h2 h⟩
    rintro ⟨e, he⟩
    simp [decodeCoinID, h] at he

/-- Witness of C22: a coin id of three bytes on the stub backend. -/
theorem C22_coin_id_length_witness :
    (backendStub.Coin externalsStub [1, 2, 3] []).2 = .error (.decodeCoinID .coinIDLength) ∧
    (backendStub.Coin externalsStub [1, 2, 3] []).1.calls = backendStub.calls ∧
    (backendStub.Coin externalsStub [1, 2, 3] []).1 = backendStub :=
  (C22_coin_id_length [1, 2, 3]).2 (by decide) backendStub externalsStub []

/-! ### The DCR backend: the script hash check of a P2SH output -/

/-- The only error of `getDcrBlock` is that of a block the node does not
give. -/
theorem getDcrBlock_error (dcr : DCRBackend) (blockHash : Hash) (e : BackendErr)
    (h : (dcr.getDcrBlock blockHash).2 = .error e) : e = .retrieveBlock := by
  simp only [DCRBackend.getDcrBlock] at h
  split at h
  · cases h
  · split at h
    · cases h; rfl
    · cases h

/-- The errors of `getBlockInfo`. -/
theorem getBlockInfo_error (dcr : DCRBackend) (x : Externals) (blockid : String)
    (e : BackendErr) (h : (dcr.getBlockInfo x blockid).2 = .error e) :
    e = .decodeBlockHash ∨ e = .retrieveBlock := by
  simp only [DCRBackend.getBlockInfo] at h
  split at h
  · cases h; exact Or.inl rfl
  · exact Or.inr (getDcrBlock_error _ _ _ h)

/-- The errors of the block lookup of `utxo`. -/
theorem utxoBlock_error (dcr : DCRBackend) (x : Externals) (out : GetTxOutResult)
    (verboseTx : TxRawResult) (e : BackendErr)
    (h : (dcr.utxoBlock x out verboseTx).2 = .error e) :
    e = .noRawTransaction ∨ e = .decodeBlockHash ∨ e = .retrieveBlock := by
  simp only [DCRBackend.utxoBlock] at h
  split_ifs at h
  · cases h; exact Or.inl rfl
  · split at h
    · rename_i e2 heq
      cases h
      exact Or.inr (getBlockInfo_error _ _ _ _ heq)
    · cases h

/-- The errors of the end of `utxo` are those of `transaction`, wrapped. -/
theorem utxoBuild_error (dcr : DCRBackend) (x : Externals) (txHash : Hash) (vout : Nat)
    (redeemScript : List Nat) (out : GetTxOutResult) (verboseTx : TxRawResult)
    (pkScript : List Nat) (inputNfo : SpendInfo) (blockHeight : Nat) (blockHash : Hash)
    (lastLookup : Option Hash) (maturity : Int) (e : BackendErr)
    (h : (dcr.utxoBuild x txHash vout redeemScript out verboseTx pkScript inputNfo blockHeight
      blockHash lastLookup maturity).2 = .error e) : ∃ e2, e = .fetchTransaction e2 := by
  simp only [DCRBackend.utxoBuild] at h
  split at h
  · cases h; exact ⟨_, rfl⟩
  · cases h

/-- The errors of `utxo` after the script hash check: of the block lookup, of
the maturity check, and of `transaction`. -/
theorem utxoChecked_error (dcr : DCRBackend) (x : Externals) (txHash : Hash) (vout : Nat)
    (redeemScript : List Nat) (out : GetTxOutResult) (verboseTx : TxRawResult)
    (pkScript : List Nat) (inputNfo : SpendInfo) (e : BackendErr)
    (h : (dcr.utxoChecked x txHash vout redeemScript out verboseTx pkScript inputNfo).2 =
      .error e) :
    e = .noRawTransaction ∨ e = .decodeBlockHash ∨ e = .retrieveBlock ∨
      e = .immatureTransaction ∨ ∃ e2, e = .fetchTransaction e2 := by
  simp only [DCRBackend.utxoChecked] at h
  split at h
  · rename_i e2 heq
    cases h
    rcases utxoBlock_error _ _ _ _ _ heq with h1 | h1 | h1
    · exact Or.inl h1
    · exact Or.inr (Or.inl h1)
    · exact Or.inr (Or.inr (Or.inl h1))
  · split_ifs at h
    · cases h; exact Or.inr (Or.inr (Or.inr (Or.inl rfl)))
    · exact Or.inr (Or.inr (Or.inr (Or.inr (utxoBuild_error _ _ _ _ _ _ _ _ _ _ _ _ _ _ h))))

/-- The method `utxo` once the output and its transaction are fetched and the
pubkey script is classified: the script hash check decides, and an output that
passes it goes on to the rest of the validation. -/
theorem utxo_of_info (dcr d1 : DCRBackend) (x : Externals) (txHash : Hash) (vout : Nat)
    (redeemScript : List Nat) (out : GetTxOutResult) (verboseTx : TxRawResult)
    (pkScript : List Nat) (inputNfo : SpendInfo)
    (hinfo : dcr.getTxOutInfo x txHash vout = (d1, .ok (out, verboseTx, pkScript)))
    (hnfo : x.InputInfo pkScript redeemScript = some inputNfo) :
    dcr.utxo x txHash vout redeemScript =
      match utxoScriptHashCheck x inputNfo.ScriptType pkScript redeemScript with
      | .error e => (d1, .error e)
      | .ok _ => d1.utxoChecked x txHash vout redeemScript out verboseTx pkScript inputNfo := by
  simp only [DCRBackend.utxo, hinfo, hnfo]

/-- C23: for every unspent output whose pubkey script classifies as P2SH with
extracted script hash `H` (the lookups on the node and the script parsing
succeeding), `utxo` fails at the script hash check if and only if
`Hash160 redeemScript` differs from `H`; when they are equal the check passes
and `utxo` goes on with the rest of the validation. -/
theorem C23_p2sh_script_binding (dcr d1 : DCRBackend) (x : Externals) (txHash : Hash)
    (vout : Nat) (redeemScript : List Nat) (out : GetTxOutResult) (verboseTx : TxRawResult)
    (pkScript : List Nat) (inputNfo : SpendInfo) (H : List Nat)
    (hinfo : dcr.getTxOutInfo x txHash vout = (d1, .ok (out, verboseTx, pkScript)))
    (hnfo : x.InputInfo pkScript redeemScript = some inputNfo)
    (hp2sh : inputNfo.ScriptType.IsP2SH = true)
    (hH : x.ExtractScriptHashByType inputNfo.ScriptType pkScript = some H) :
    ((dcr.utxo x txHash vout redeemScript).2 = .error .scriptHashCheck ↔
      x.Hash160 redeemScript ≠ H) ∧
    (x.Hash160 redeemScript ≠ H →
      dcr.utxo x txHash vout redeemScript = (d1, .error .scriptHashCheck)) ∧
    (x.Hash160 redeemScript = H →
      dcr.utxo x txHash vout redeemScript =
        d1.utxoChecked x txHash vout redeemScript out verboseTx pkScript inputNfo) := by
  have hu := utxo_of_info dcr d1 x txHash vout redeemScript out verboseTx pkScript inputNfo
    hinfo hnfo
  by_cases hne : x.Hash160 redeemScript ≠ H
  · have hc : utxoScriptHashCheck x inputNfo.ScriptType pkScript redeemScript =
        .error .scriptHashCheck := by
      simp only [utxoScriptHashCheck, hp2sh, hH, if_true, if_pos hne]
    rw [hc] at hu
    exact ⟨⟨fun _ => hne, fun _ => by rw [hu]⟩, fun _ => hu, fun h => absurd h hne⟩
  · have heq : x.Hash160 redeemScript = H := not_not.mp hne
    have hc : utxoScriptHashCheck x inputNfo.ScriptType pkScript redeemScript = .ok () := by
      simp only [utxoScriptHashCheck, hp2sh, hH, if_true, if_neg hne]
    rw [hc] at hu
    refine ⟨⟨fun h => ?_, fun h => absurd h hne⟩, fun h => absurd h hne, fun _ => hu⟩
    rw [hu] at h
    rcases utxoChecked_error _ _ _ _ _ _ _ _ _ _ h with h1 | h1 | h1 | h1 | ⟨e2, h1⟩ <;>
      cases h1

/-- Witness of C23: output 3 of the stub node is a P2SH output whose script
hash is `[97]`; with the redeem script `[98]` the lookup fails at the script
hash check, after the two calls that fetch the output and its transaction. -/
theorem C23_p2sh_script_binding_witness :
    ((backendStub.utxo externalsStub Hash.zero 3 [98]).2 = .error .scriptHashCheck ↔
      externalsStub.Hash160 [98] ≠ [97]) ∧
    (externalsStub.Hash160 [98] ≠ [97] →
      backendStub.utxo externalsStub Hash.zero 3 [98] =
        ((backendStub.called (.getTxOut Hash.zero 3 true)).called
          (.getRawTransactionVerbose Hash.zero), .error .scriptHashCheck)) ∧
    (externalsStub.Hash160 [98] = [97] →
      backendStub.utxo externalsStub Hash.zero 3 [98] =
        ((backendStub.called (.getTxOut Hash.zero 3 true)).called
          (.getRawTransactionVerbose Hash.zero)).utxoChecked externalsStub Hash.zero 3 [98]
          { Confirmations := 0, Value := 3, ScriptPubKeyHex := "a", Coinbase := false }
          verboseTxStub [97] { ScriptType := { IsP2SH := true, IsStake := false },
                               NRequired := 1, SigScriptSize := 108 }) :=
  C23_p2sh_script_binding backendStub
    ((backendStub.called (.getTxOut Hash.zero 3 true)).called
      (.getRawTransactionVerbose Hash.zero))
    externalsStub Hash.zero 3 [98]
    { Confirmations := 0, Value := 3, ScriptPubKeyHex := "a", Coinbase := false }
    verboseTxStub [97]
    { ScriptType := { IsP2SH := true, IsStake := false }, NRequired := 1, SigScriptSize := 108 }
    [97] rfl rfl rfl rfl

/-! ### The DCR backend: the maturity gate -/

/-- The method `utxo` once the output has reached the maturity check: the
check decides, and an output that passes it goes on to the end of `utxo`. -/
theorem utxo_of_block (dcr d1 d2 : DCRBackend) (x : Externals) (txHash : Hash) (vout : Nat)
    (redeemScript : List Nat) (out : GetTxOutResult) (verboseTx : TxRawResult)
    (pkScript : List Nat) (inputNfo : SpendInfo) (blockHeight : Nat) (blockHash : Hash)
    (lastLookup : Option Hash)
    (hinfo : dcr.getTxOutInfo x txHash vout = (d1, .ok (out, verboseTx, pkScript)))
    (hnfo : x.InputInfo pkScript redeemScript = some inputNfo)
    (hcheck : utxoScriptHashCheck x inputNfo.ScriptType pkScript redeemScript = .ok ())
    (hblk : d1.utxoBlock x out verboseTx = (d2, .ok (blockHeight, blockHash, lastLookup))) :
    dcr.utxo x txHash vout redeemScript =
      if out.Confirmations < utxoMaturity x inputNfo.ScriptType out then
        (d2, .error .immatureTransaction)
      else
        d2.utxoBuild x txHash vout redeemScript out verboseTx pkScript inputNfo blockHeight
          blockHash lastLookup (utxoMaturity x inputNfo.ScriptType out) := by
  rw [utxo_of_info dcr d1 x txHash vout redeemScript out verboseTx pkScript inputNfo hinfo hnfo,
    hcheck]
  simp only [DCRBackend.utxoChecked, hblk]

/-- C24, the claim refuted: output 2 of the stub node is a regular-tree output
that is not coinbase, reported with -1 confirmations. It reaches the maturity
check of `utxo`, where the required maturity is 0, and fails with the
immature-output error. -/
theorem C24_negative_confirmations_are_immature :
    nodeStub.GetTxOut Hash.zero 2 true =
      some (some { Confirmations := -1, Value := 3, ScriptPubKeyHex := "", Coinbase := false }) ∧
    externalsStub.InputInfo [] [] =
      some { ScriptType := { IsP2SH := false, IsStake := false }, NRequired := 1,
             SigScriptSize := 108 } ∧
    utxoMaturity externalsStub { IsP2SH := false, IsStake := false }
      { Confirmations := -1, Value := 3, ScriptPubKeyHex := "", Coinbase := false } = 0 ∧
    (backendStub.utxo externalsStub Hash.zero 2 []).2 = .error .immatureTransaction :=
  ⟨rfl, rfl, rfl, rfl⟩

/-- C24, amended: for every output that reaches the maturity check in `utxo`,
an output that is coinbase or of a stake-tree script type with confirmations
below `CoinbaseMaturity` fails with the immature-output error, and every other
output with a confirmation count that is not negative (regular-tree and
non-coinbase with any count from 0 on; or coinbase/stake with confirmations at
least `CoinbaseMaturity`) passes the gate: `utxo` goes on to fetch the
transaction and build the UTXO, and does not return the immature-output
error. -/
theorem C24_maturity_gate (dcr d1 d2 : DCRBackend) (x : Externals) (txHash : Hash)
    (vout : Nat) (redeemScript : List Nat) (out : GetTxOutResult) (verboseTx : TxRawResult)
    (pkScript : List Nat) (inputNfo : SpendInfo) (blockHeight : Nat) (blockHash : Hash)
    (lastLookup : Option Hash)
    (hinfo : dcr.getTxOutInfo x txHash vout = (d1, .ok (out, verboseTx, pkScript)))
    (hnfo : x.InputInfo pkScript redeemScript = some inputNfo)
    (hcheck : utxoScriptHashCheck x inputNfo.ScriptType pkScript redeemScript = .ok ())
    (hblk : d1.utxoBlock x out verboseTx = (d2, .ok (blockHeight, blockHash, lastLookup))) :
    ((inputNfo.ScriptType.IsStake = true ∨ out.Coinbase = true) ∧
        out.Confirmations < (x.CoinbaseMaturity : Int) →
      dcr.utxo x txHash vout redeemScript = (d2, .error .immatureTransaction)) ∧
    ((inputNfo.ScriptType.IsStake = false ∧ out.Coinbase = false ∧ 0 ≤ out.Confirmations) ∨
        ((inputNfo.ScriptType.IsStake = true ∨ out.Coinbase = true) ∧
          (x.CoinbaseMaturity : Int) ≤ out.Confirmations) →
      dcr.utxo x txHash vout redeemScript =
        d2.utxoBuild x txHash vout redeemScript out verboseTx pkScript inputNfo blockHeight
          blockHash lastLookup (utxoMaturity x inputNfo.ScriptType out) ∧
      (dcr.utxo x txHash vout redeemScript).2 ≠ .error .immatureTransaction) := by
  have hu := utxo_of_block dcr d1 d2 x txHash vout redeemScript out verboseTx pkScript
    inputNfo blockHeight blockHash lastLookup hinfo hnfo hcheck hblk
  constructor
  · rintro ⟨hk, hlt⟩
    have hm : utxoMaturity x inputNfo.ScriptType out = (x.CoinbaseMaturity : Int) := by
      rcases hk with hk | hk <;> simp [utxoMaturity, hk]
    rw [hu, hm, if_pos hlt]
  · intro h
    have hge : ¬ out.Confirmations < utxoMaturity x inputNfo.ScriptType out := by
      rcases h with ⟨h1, h2, h3⟩ | ⟨hk, h3⟩
      · simp only [utxoMaturity, h1, h2, Bool.or_self, Bool.false_eq_true, if_false]
        omega
      · have hm : utxoMaturity x inputNfo.ScriptType out = (x.CoinbaseMaturity : Int) := by
          rcases hk with hk | hk <;> simp [utxoMaturity, hk]
        rw [hm]
        omega
    rw [hu, if_neg hge]
    refine ⟨rfl, fun hbad => ?_⟩
    obtain ⟨e2, he2⟩ := utxoBuild_error _ _ _ _ _ _ _ _ _ _ _ _ _ _ hbad
    cases he2

/-- Witness of C24 amended: output 0 of the transaction `hashS4` of the stub
node is a coinbase output with 3 confirmations, below the maturity of 16; it
reaches the maturity check, its block fetched into the cache, and fails with
the immature-output error. -/
theorem C24_maturity_gate_witness :
    backendStub.utxo externalsStub hashS4 0 [] =
      ({ node := nodeStub,
         blockCache :=
           (newBlockCache.add { Hash := Hash.zero, Confirmations := 3, Height := 7 }).1,
         calls := [.getTxOut hashS4 0 true, .getRawTransactionVerbose hashS4,
                   .getBlockVerbose Hash.zero false] },
        .error .immatureTransaction) :=
  (C24_maturity_gate backendStub
    ((backendStub.called (.getTxOut hashS4 0 true)).called (.getRawTransactionVerbose hashS4))
    { node := nodeStub,
      blockCache := (newBlockCache.add { Hash := Hash.zero, Confirmations := 3, Height := 7 }).1,
      calls := [.getTxOut hashS4 0 true, .getRawTransactionVerbose hashS4,
                .getBlockVerbose Hash.zero false] }
    externalsStub hashS4 0 []
    { Confirmations := 3, Value := 3, ScriptPubKeyHex := "", Coinbase := true }
    verboseTxMined []
    { ScriptType := { IsP2SH := false, IsStake := false }, NRequired := 1, SigScriptSize := 108 }
    7 Hash.zero none rfl rfl rfl rfl).1 ⟨Or.inr rfl, by decide⟩

/-! ### The DCR backend: the fee rate of a transaction -/

/-- The loop over the inputs, when it ends without an error, has added the
input values modulo `2^64` and left in `isCoinbase` the flag of the last
input. -/
theorem transactionInputs_ok (x : Externals) (vin : List Vin) (sumIn : Nat)
    (isCoinbase : Bool) (inputs : List txIn) (r : Nat × Bool × List txIn)
    (hs : sumIn < 2 ^ 64) (h : transactionInputs x vin sumIn isCoinbase inputs = .ok r) :
    r.1 = (sumIn + sumAmountIn vin) % 2 ^ 64 ∧
    r.2.1 = (match vin.getLast? with
      | some i => decide (i.Coinbase ≠ "")
      | none => isCoinbase) := by
  induction vin generalizing sumIn isCoinbase inputs with
  | nil =>
    simp only [transactionInputs, Except.ok.injEq] at h
    subst h
    simp only [sumAmountIn, List.map_nil, List.sum_nil, Nat.add_zero, List.getLast?_nil]
    exact ⟨(Nat.mod_eq_of_lt hs).symm, trivial⟩
  | cons i rest ih =>
    simp only [transactionInputs] at h
    split at h
    · cases h
    · have hlt : (sumIn + toAtoms i.AmountIn) % 2 ^ 64 < 2 ^ 64 :=
        Nat.mod_lt _ (by decide)
      obtain ⟨h1, h2⟩ := ih _ _ _ hlt h
      refine ⟨?_, ?_⟩
      · rw [h1]
        simp only [sumAmountIn, List.map_cons, List.sum_cons]
        omega
      · rw [h2]
        cases rest with
        | nil => rfl
        | cons j rest2 =>
          rw [List.getLast?_cons_cons,
            List.getLast?_eq_getLast (j :: rest2) (List.cons_ne_nil j rest2)]

/-- The loop over the outputs, when it ends without an error, has added the
output values modulo `2^64`. -/
theorem transactionOutputs_ok (x : Externals) (vout : List Vout) (sumOut : Nat)
    (outputs : List txOut) (r : Nat × List txOut)
    (hs : sumOut < 2 ^ 64) (h : transactionOutputs x vout sumOut outputs = .ok r) :
    r.1 = (sumOut + sumValue vout) % 2 ^ 64 := by
  induction vout generalizing sumOut outputs with
  | nil =>
    simp only [transactionOutputs, Except.ok.injEq] at h
    subst h
    simp only [sumValue, List.map_nil, List.sum_nil, Nat.add_zero]
    exact (Nat.mod_eq_of_lt hs).symm
  | cons o rest ih =>
    simp only [transactionOutputs] at h
    split at h
    · cases h
    · have hlt : (sumOut + toAtoms o.Value) % 2 ^ 64 < 2 ^ 64 := Nat.mod_lt _ (by decide)
      rw [ih _ _ hlt h]
      simp only [sumValue, List.map_cons, List.sum_cons]
      omega

/-- The fee rate of a transaction that `transaction` returns. -/
theorem transaction_feeRate (dcr : DCRBackend) (x : Externals) (txHash : Hash)
    (verboseTx : TxRawResult) (tx : Tx)
    (h : (dcr.transaction x txHash verboseTx).2 = .ok tx) :
    tx.feeRate =
      if lastInputIsCoinbase verboseTx.Vin then 0
      else
        ((sumAmountIn verboseTx.Vin % 2 ^ 64 + 2 ^ 64 - sumValue verboseTx.Vout % 2 ^ 64)
          % 2 ^ 64) / (verboseTx.Hex.utf8ByteSize / 2) := by
  simp only [DCRBackend.transaction] at h
  split at h
  · cases h
  · split at h
    · cases h
    · split at h
      · cases h
      · rename_i sumIn isCoinbase inputs hin
        split at h
        · cases h
        · rename_i sumOut outputs hout
          by_cases hz : verboseTx.Hex.utf8ByteSize / 2 = 0
          · rw [if_pos hz] at h
            cases h
          · rw [if_neg hz] at h
            simp only [Except.ok.injEq] at h
            subst h
            obtain ⟨h1, h2⟩ := transactionInputs_ok x _ _ _ _ _ (by decide) hin
            have h3 := transactionOutputs_ok x _ _ _ _ (by decide) hout
            simp only [Nat.zero_add] at h1 h3
            simp only at h1 h2 h3
            subst h1 h3
            rw [lastInputIsCoinbase, ← h2]

/-- The loop over the inputs ends without an error when every previous
transaction hash decodes, whatever the input values. -/
theorem transactionInputs_returns (x : Externals) (vin : List Vin) (sumIn : Nat)
    (isCoinbase : Bool) (inputs : List txIn)
    (h : ∀ i ∈ vin, (x.NewHashFromStr i.Txid).isSome = true) :
    ∃ r, transactionInputs x vin sumIn isCoinbase inputs = .ok r := by
  induction vin generalizing sumIn isCoinbase inputs with
  | nil => exact ⟨_, rfl⟩
  | cons i rest ih =>
    have hi := h i (List.mem_cons_self i rest)
    obtain ⟨hash, hh⟩ := Option.isSome_iff_exists.mp hi
    simp only [transactionInputs, hh]
    exact ih _ _ _ (fun j hj => h j (List.mem_cons_of_mem i hj))

/-- The loop over the outputs ends without an error when every pubkey script
decodes, whatever the output values. -/
theorem transactionOutputs_returns (x : Externals) (vout : List Vout) (sumOut : Nat)
    (outputs : List txOut)
    (h : ∀ o ∈ vout, (x.hexDecodeString o.ScriptPubKeyHex).isSome = true) :
    ∃ r, transactionOutputs x vout sumOut outputs = .ok r := by
  induction vout generalizing sumOut outputs with
  | nil => exact ⟨_, rfl⟩
  | cons o rest ih =>
    have ho := h o (List.mem_cons_self o rest)
    obtain ⟨pkScript, hp⟩ := Option.isSome_iff_exists.mp ho
    simp only [transactionOutputs, hp]
    exact ih _ _ (fun j hj => h j (List.mem_cons_of_mem o hj))

/-- The method `transaction` returns a `Tx` when the hex deserializes, the
block of the transaction is found, every previous transaction hash and every
pubkey script decodes, and the byte count is not 0: the input and output
values play no part in it. -/
theorem transaction_returns (dcr : DCRBackend) (x : Externals) (txHash : Hash)
    (verboseTx : TxRawResult) (isStake : Bool) (bl : Option Hash × Option Hash)
    (hstake : x.isStakeTx verboseTx.Hex = some isStake)
    (hblk : (dcr.transactionBlock x verboseTx).2 = .ok bl)
    (hin : ∀ i ∈ verboseTx.Vin, (x.NewHashFromStr i.Txid).isSome = true)
    (hout : ∀ o ∈ verboseTx.Vout, (x.hexDecodeString o.ScriptPubKeyHex).isSome = true)
    (hsize : verboseTx.Hex.utf8ByteSize / 2 ≠ 0) :
    ∃ tx, (dcr.transaction x txHash verboseTx).2 = .ok tx := by
  obtain ⟨ri, hri⟩ := transactionInputs_returns x verboseTx.Vin 0 false [] hin
  obtain ⟨ro, hro⟩ := transactionOutputs_returns x verboseTx.Vout 0 [] hout
  simp only [DCRBackend.transaction, hstake, hblk, hri, hro, if_neg hsize]
  exact ⟨_, rfl⟩

section

set_option maxRecDepth 100000

/-- C25, the claim refuted: `verboseTxUnderflow` is the verbose transaction of
a serialized transaction of 109 bytes that is not coinbase, and its output
value, 2 atoms, exceeds its input value, 1 atom. `transaction` returns no
error but a `Tx`, whose fee rate is `(1 - 2) mod 2^64` divided by 109. -/
theorem C25_underflow_is_returned_wrapped :
    externalsWire.isStakeTx verboseTxUnderflow.Hex = some false ∧
    verboseTxUnderflow.Hex.utf8ByteSize / 2 = 109 ∧
    lastInputIsCoinbase verboseTxUnderflow.Vin = false ∧
    sumAmountIn verboseTxUnderflow.Vin = 1 ∧ sumValue verboseTxUnderflow.Vout = 2 ∧
    (backendStub.transaction externalsWire hashB verboseTxUnderflow).2 =
      .ok { hash := hashB, blockHash := none, lastLookup := none, height := 0,
            isStake := false, ins := [{ prevTx := hashS4, vout := 0 }],
            outs := [{ value := 2, pkScript := pkScriptP2PKH }],
            feeRate := 169236184162472950 } :=
  ⟨by decide, by decide, by decide, by decide, by decide, rfl⟩

/-- C25, amended: `transaction` does not check the sums. Whenever the hex
deserializes, the block of the transaction is found, every previous
transaction hash and every pubkey script decodes and the byte count is not 0,
`transaction` returns a `Tx`, also when the summed output value exceeds the
summed input value. For every transaction it returns, the fee rate is 0 when
the last input is a coinbase input, and otherwise (sum of inputs - sum of
outputs) modulo `2^64`, divided by the serialized byte count; when the
transaction is not coinbase and the summed output value does not exceed the
summed input value, itself below `2^64`, that is (sum of inputs - sum of
outputs) divided by the serialized byte count, computed without
wrap-around. -/
theorem C25_fee_rate (dcr : DCRBackend) (x : Externals) (txHash : Hash)
    (verboseTx : TxRawResult) (isStake : Bool) (bl : Option Hash × Option Hash)
    (hstake : x.isStakeTx verboseTx.Hex = some isStake)
    (hblk : (dcr.transactionBlock x verboseTx).2 = .ok bl)
    (hin : ∀ i ∈ verboseTx.Vin, (x.NewHashFromStr i.Txid).isSome = true)
    (hout : ∀ o ∈ verboseTx.Vout, (x.hexDecodeString o.ScriptPubKeyHex).isSome = true)
    (hsize : verboseTx.Hex.utf8ByteSize / 2 ≠ 0) :
    (∃ tx, (dcr.transaction x txHash verboseTx).2 = .ok tx) ∧
    ∀ tx, (dcr.transaction x txHash verboseTx).2 = .ok tx →
      (tx.feeRate =
        if lastInputIsCoinbase verboseTx.Vin then 0
        else
          ((sumAmountIn verboseTx.Vin % 2 ^ 64 + 2 ^ 64 - sumValue verboseTx.Vout % 2 ^ 64)
            % 2 ^ 64) / (verboseTx.Hex.utf8ByteSize / 2)) ∧
      (lastInputIsCoinbase verboseTx.Vin = false →
        sumValue verboseTx.Vout ≤ sumAmountIn verboseTx.Vin →
        sumAmountIn verboseTx.Vin < 2 ^ 64 →
        tx.feeRate =
          (sumAmountIn verboseTx.Vin - sumValue verboseTx.Vout) /
            (verboseTx.Hex.utf8ByteSize / 2)) := by
  refine ⟨transaction_returns dcr x txHash verboseTx isStake bl hstake hblk hin hout hsize, ?_⟩
  intro tx h
  have hf := transaction_feeRate dcr x txHash verboseTx tx h
  refine ⟨hf, fun hc hle hlt => ?_⟩
  rw [hf, hc]
  have hmod : (sumAmountIn verboseTx.Vin % 2 ^ 64 + 2 ^ 64 - sumValue verboseTx.Vout % 2 ^ 64)
      % 2 ^ 64 = sumAmountIn verboseTx.Vin - sumValue verboseTx.Vout := by
    omega
  simp only [Bool.false_eq_true, if_false, hmod]

/-- Witness of C25 amended: the verbose transaction `verboseTxFee`, 1000 atoms
in and 782 atoms out on 109 bytes, is returned by `transaction`, with fee
rate 2. -/
theorem C25_fee_rate_witness :
    (backendStub.transaction externalsWire hashB verboseTxFee).2 =
      .ok { hash := hashB, blockHash := none, lastLookup := none, height := 0,
            isStake := false, ins := [{ prevTx := hashS4, vout := 0 }],
            outs := [{ value := 782, pkScript := pkScriptP2PKH }], feeRate := 2 } ∧
    ((∃ tx, (backendStub.transaction externalsWire hashB verboseTxFee).2 = .ok tx) ∧
      ∀ tx, (backendStub.transaction externalsWire hashB verboseTxFee).2 = .ok tx →
        (tx.feeRate =
          if lastInputIsCoinbase verboseTxFee.Vin then 0
          else
            ((sumAmountIn verboseTxFee.Vin % 2 ^ 64 + 2 ^ 64 -
              sumValue verboseTxFee.Vout % 2 ^ 64) % 2 ^ 64) /
              (verboseTxFee.Hex.utf8ByteSize / 2)) ∧
        (lastInputIsCoinbase verboseTxFee.Vin = false →
          sumValue verboseTxFee.Vout ≤ sumAmountIn verboseTxFee.Vin →
          sumAmountIn verboseTxFee.Vin < 2 ^ 64 →
          tx.feeRate =
            (sumAmountIn verboseTxFee.Vin - sumValue verboseTxFee.Vout) /
              (verboseTxFee.Hex.utf8ByteSize / 2))) :=
  ⟨rfl, C25_fee_rate backendStub externalsWire hashB verboseTxFee false (none, none)
    (by decide) rfl (by decide) (by decide) (by decide)⟩

end

/-! ### The DCR backend: a new block and the block cache -/

/-- A lookup in a filtered list, when what is looked for passes the filter. -/
theorem find?_filter_of_imp {α : Type} (p q : α → Bool) (l : List α)
    (h : ∀ a, p a = true → q a = true) : (l.filter q).find? p = l.find? p := by
  induction l with
  | nil => rfl
  | cons a rest ih =>
    by_cases hq : q a = true
    · rw [List.filter_cons_of_pos hq]
      by_cases hp : p a = true
      · rw [List.find?_cons_of_pos _ hp, List.find?_cons_of_pos _ hp]
      · rw [List.find?_cons_of_neg _ hp, List.find?_cons_of_neg _ hp, ih]
    · rw [List.filter_cons_of_neg hq]
      have hp : ¬ p a = true := fun hp => hq (h a hp)
      rw [List.find?_cons_of_neg _ hp, ih]

/-- The mainchain index after `add`: the records it held, and the new record
unless it is orphaned. -/
theorem add_mainchain (cache : blockCache) (block : GetBlockVerboseResult) :
    (cache.add block).1.mainchain =
      if block.Confirmations < 0 then cache.mainchain
      else
        { hash := block.Hash, height := block.Height.toNat, orphaned := false } ::
          cache.mainchain.filter (fun b => !decide (b.height = block.Height.toNat)) := by
  by_cases h : block.Confirmations < 0
  · simp [blockCache.add, h]
  · simp [blockCache.add, h]

/-- After `add`, every height but that of the added block is looked up as
before. -/
theorem add_atHeight_other (cache : blockCache) (block : GetBlockVerboseResult) (height : Nat)
    (hne : height ≠ block.Height.toNat) :
    (cache.add block).1.atHeight height = cache.atHeight height := by
  simp only [blockCache.atHeight, add_mainchain]
  split_ifs
  · rfl
  · rw [List.find?_cons_of_neg _ (by simpa using fun h => hne h.symm)]
    apply find?_filter_of_imp
    intro a ha
    simp only [decide_eq_true_eq] at ha
    simp only [Bool.not_eq_true', decide_eq_false_iff_not]
    omega

/-- After `add` of a block that is not orphaned, its height is looked up as
the new record. -/
theorem add_atHeight_self (cache : blockCache) (block : GetBlockVerboseResult)
    (hc : 0 ≤ block.Confirmations) :
    (cache.add block).1.atHeight block.Height.toNat =
      some { hash := block.Hash, height := block.Height.toNat, orphaned := false } := by
  have h : ¬ block.Confirmations < 0 := by omega
  simp only [blockCache.atHeight, add_mainchain, if_neg h]
  rw [List.find?_cons_of_pos _ (by simp)]

/-- After `add`, a height above every height the height index held and above
the height of the added block is unknown. -/
theorem add_atHeight_above (cache : blockCache) (block : GetBlockVerboseResult) (height : Nat)
    (hb : block.Height.toNat < height) (hm : ∀ b ∈ cache.mainchain, b.height < height) :
    (cache.add block).1.atHeight height = none := by
  rw [add_atHeight_other cache block height (by omega)]
  simp only [blockCache.atHeight, List.find?_eq_none, decide_eq_true_eq]
  intro b hbm heq
  have := hm b hbm
  omega

/-- After `reorg`, the height index holds no record above the height of the
new block. -/
theorem reorg_mainchain_le (cache : blockCache) (newBlock : GetBlockVerboseResult) :
    ∀ b ∈ (cache.reorg newBlock).mainchain, b.height ≤ newBlock.Height.toNat := by
  intro b hb
  simp only [blockCache.reorg, add_mainchain] at hb
  split_ifs at hb
  · simp only [List.mem_filter, decide_eq_true_eq] at hb
    omega
  · simp only [List.mem_cons, List.mem_filter, decide_eq_true_eq] at hb
    rcases hb with rfl | ⟨⟨_, h1⟩, _⟩
    · exact Nat.le_refl _
    · omega

/-- A fold of `max` is at least its start and at least every element. -/
theorem le_foldl_max (l : List Nat) (init : Nat) :
    init ≤ l.foldl max init ∧ ∀ n ∈ l, n ≤ l.foldl max init := by
  induction l generalizing init with
  | nil => exact ⟨Nat.le_refl _, fun n hn => absurd hn (List.not_mem_nil n)⟩
  | cons a rest ih =>
    simp only [List.foldl_cons, List.mem_cons]
    obtain ⟨h1, h2⟩ := ih (max init a)
    refine ⟨by omega, ?_⟩
    rintro n (rfl | hn)
    · omega
    · exact h2 n hn

/-- No mainchain record of the cache is above the tip height. -/
theorem height_le_tipHeight (cache : blockCache) (b : dcrBlock) (hb : b ∈ cache.mainchain) :
    b.height ≤ cache.tipHeight :=
  (le_foldl_max _ 0).2 b.height (List.mem_map_of_mem (fun b => b.height) hb)

/-- The block cache after the step of `superQueue` for a new block the node
gives: a reorg when the block is not above the tip, then the add. -/
theorem superQueueBlock_cache (dcr : DCRBackend) (blockHash : Hash)
    (block : GetBlockVerboseResult)
    (hget : dcr.node.GetBlockVerbose blockHash false = some block) :
    (dcr.superQueueBlock blockHash).1.blockCache =
      ((if block.Height ≤ (dcr.blockCache.tipHeight : Int) then dcr.blockCache.reorg block
        else dcr.blockCache).add block).1 := by
  simp only [DCRBackend.superQueueBlock, hget, DCRBackend.called]

/-- C26, the claim refuted: the cache holds mainchain blocks at heights 7 and
8 when the node reports a new block at height 7 that is not on the main chain
(-1 confirmations). The consumer applies reorg and then add, and afterwards
`at_height(7)` is none, not the new block. -/
theorem C26_orphaned_block_is_not_installed :
    backendOrphan.blockCache.tipHeight = 8 ∧
    backendOrphan.node.GetBlockVerbose hashS4 false =
      some { Hash := Hash.zero, Confirmations := -1, Height := 7 } ∧
    (backendOrphan.superQueueBlock hashS4).1.blockCache =
      ((backendOrphan.blockCache.reorg
        { Hash := Hash.zero, Confirmations := -1, Height := 7 }).add
        { Hash := Hash.zero, Confirmations := -1, Height := 7 }).1 ∧
    (backendOrphan.superQueueBlock hashS4).1.blockCache.atHeight 7 = none := by
  decide

/-- C26, amended: when the queue consumer processes a new block that the node
does not report as orphaned (confirmations not negative) and whose height `h`
is at most the cached tip height, it applies reorg and then add, so that
afterwards `at_height(h)` is the new block and `at_height(h')` is none for
every `h' > h`; when `h` is greater than the tip height, whatever the
confirmations, reorg is not applied and the previously cached mainchain
heights are kept. -/
theorem C26_new_block_and_cache (dcr : DCRBackend) (blockHash : Hash)
    (block : GetBlockVerboseResult) (h : Nat)
    (hget : dcr.node.GetBlockVerbose blockHash false = some block)
    (hh : block.Height = (h : Int)) :
    (h ≤ dcr.blockCache.tipHeight → 0 ≤ block.Confirmations →
      (dcr.superQueueBlock blockHash).1.blockCache =
        ((dcr.blockCache.reorg block).add block).1 ∧
      (dcr.superQueueBlock blockHash).1.blockCache.atHeight h =
        some { hash := block.Hash, height := h, orphaned := false } ∧
      ∀ h2, h < h2 → (dcr.superQueueBlock blockHash).1.blockCache.atHeight h2 = none) ∧
    (dcr.blockCache.tipHeight < h →
      (dcr.superQueueBlock blockHash).1.blockCache = (dcr.blockCache.add block).1 ∧
      ∀ h2 b, dcr.blockCache.atHeight h2 = some b →
        (dcr.superQueueBlock blockHash).1.blockCache.atHeight h2 = some b) := by
  have hn : block.Height.toNat = h := by rw [hh]; exact Int.toNat_ofNat h
  have hc := superQueueBlock_cache dcr blockHash block hget
  constructor
  · intro hle hconf
    have hcond : block.Height ≤ (dcr.blockCache.tipHeight : Int) := by rw [hh]; omega
    rw [if_pos hcond] at hc
    rw [hc]
    refine ⟨rfl, ?_, ?_⟩
    · have := add_atHeight_self (dcr.blockCache.reorg block) block hconf
      rw [hn] at this
      exact this
    · intro h2 hlt
      apply add_atHeight_above
      · omega
      · intro b hb
        have := reorg_mainchain_le dcr.blockCache block b hb
        omega
  · intro hgt
    have hcond : ¬ block.Height ≤ (dcr.blockCache.tipHeight : Int) := by rw [hh]; omega
    rw [if_neg hcond] at hc
    rw [hc]
    refine ⟨rfl, ?_⟩
    intro h2 b hb
    have hmem : b ∈ dcr.blockCache.mainchain := List.mem_of_find?_eq_some hb
    have hbh : b.height = h2 := by
      have := List.find?_some hb
      simpa using this
    have hle := height_le_tipHeight dcr.blockCache b hmem
    rw [add_atHeight_other dcr.blockCache block h2 (by omega)]
    exact hb

/-- Witness of C26 amended: the cache holds mainchain blocks at heights 7 and
8 when the node reports a new block at height 7 with 3 confirmations;
afterwards `at_height(7)` is the new block and heights above 7 are unknown. -/
theorem C26_new_block_and_cache_witness :
    (backendTo8.superQueueBlock hashS4).1.blockCache =
      ((backendTo8.blockCache.reorg { Hash := Hash.zero, Confirmations := 3, Height := 7 }).add
        { Hash := Hash.zero, Confirmations := 3, Height := 7 }).1 ∧
    (backendTo8.superQueueBlock hashS4).1.blockCache.atHeight 7 =
      some { hash := Hash.zero, height := 7, orphaned := false } ∧
    ∀ h2, 7 < h2 → (backendTo8.superQueueBlock hashS4).1.blockCache.atHeight h2 = none :=
  (C26_new_block_and_cache backendTo8 hashS4
    { Hash := Hash.zero, Confirmations := 3, Height := 7 } 7 rfl rfl).1 (by decide) (by decide)

/-! ### The coin id codec: decoding and encoding again -/

/-- A coin id of 36 bytes decodes to its first 32 bytes as the hash and the
big-endian reading of its last four bytes as the vout. -/
theorem decodeCoinID_of_length (b : List Nat) (hlen : b.length = 36) :
    ∃ h : Hash, h.val = b.take 32 ∧
      decodeCoinID b = .ok (h, BigEndian.Uint32 (b.drop 32)) := by
  have hne : ¬ b.length ≠ 36 := fun h => h hlen
  simp only [decodeCoinID, if_neg hne]
  refine ⟨_, ?_, rfl⟩
  simp [copyInto, Hash.zero, HashSize, hlen]

/-- Encoding what a coin id of 36 bytes decodes to gives the coin id back. -/
theorem decodeCoinID_reencode (b : List Nat) (hlen : b.length = 36)
    (hbytes : ∀ x ∈ b, x < 256) :
    ∃ h v, decodeCoinID b = .ok (h, v) ∧ toCoinID h v = b := by
  obtain ⟨h, hh, hd⟩ := decodeCoinID_of_length b hlen
  refine ⟨h, BigEndian.Uint32 (b.drop 32), hd, ?_⟩
  have hl : (b.drop 32).length = 4 := by simp [hlen]
  have hmem : ∀ x ∈ b.drop 32, x < 256 := fun x hx => hbytes x (List.mem_of_mem_drop hx)
  rw [toCoinID_eq, hh]
  rcases hdd : b.drop 32 with _ | ⟨b0, _ | ⟨b1, _ | ⟨b2, _ | ⟨b3, _ | ⟨b4, t⟩⟩⟩⟩⟩ <;>
    rw [hdd] at hl hmem <;> simp only [List.length_cons, List.length_nil] at hl <;>
    try omega
  have h0 : b0 < 256 := hmem b0 (by simp)
  have h1 : b1 < 256 := hmem b1 (by simp)
  have h2 : b2 < 256 := hmem b2 (by simp)
  have h3 : b3 < 256 := hmem b3 (by simp)
  have e0 : (b3 + b2 * 2 ^ 8 + b1 * 2 ^ 16 + b0 * 2 ^ 24) / 2 ^ 24 % 256 = b0 := by omega
  have e1 : (b3 + b2 * 2 ^ 8 + b1 * 2 ^ 16 + b0 * 2 ^ 24) / 2 ^ 16 % 256 = b1 := by omega
  have e2 : (b3 + b2 * 2 ^ 8 + b1 * 2 ^ 16 + b0 * 2 ^ 24) / 2 ^ 8 % 256 = b2 := by omega
  have e3 : (b3 + b2 * 2 ^ 8 + b1 * 2 ^ 16 + b0 * 2 ^ 24) % 256 = b3 := by omega
  simp only [BigEndian.Uint32]
  rw [e0, e1, e2, e3, ← hdd, List.take_append_drop]

/-- C31: re-encoding a decoded coin id is the identity: for every byte string
`b` of length 36, `decodeCoinID b` succeeds with some `(h, v)` and
`toCoinID h v` equals `b`; hence `decodeCoinID` is injective on 36-byte
inputs: a byte string of length 36 that decodes to the same result as `b` is
`b`. -/
theorem C31_reencode_is_identity (b : List Nat) (hlen : b.length = 36)
    (hbytes : ∀ x ∈ b, x < 256) :
    (∃ h v, decodeCoinID b = .ok (h, v) ∧ toCoinID h v = b) ∧
    (∀ b2 : List Nat, b2.length = 36 → (∀ x ∈ b2, x < 256) →
      decodeCoinID b2 = decodeCoinID b → b2 = b) := by
  refine ⟨decodeCoinID_reencode b hlen hbytes, ?_⟩
  intro b2 hlen2 hbytes2 heq
  obtain ⟨h, v, hd, he⟩ := decodeCoinID_reencode b hlen hbytes
  obtain ⟨h2, v2, hd2, he2⟩ := decodeCoinID_reencode b2 hlen2 hbytes2
  rw [hd, hd2] at heq
  simp only [Except.ok.injEq, Prod.mk.injEq] at heq
  rw [← he, ← he2, heq.1, heq.2]

/-- Witness of C31: the coin id of scenario S4 of the spec, 32 bytes of `0x11`
followed by `01 02 03 04`, decodes to the hash `hashS4` and the vout
`0x01020304`, which encode to it again. -/
theorem C31_reencode_is_identity_witness :
    (decodeCoinID coinIDS4 = .ok (hashS4, 0x01020304) ∧
      toCoinID hashS4 0x01020304 = coinIDS4) ∧
    ((∃ h v, decodeCoinID coinIDS4 = .ok (h, v) ∧ toCoinID h v = coinIDS4) ∧
      (∀ b2 : List Nat, b2.length = 36 → (∀ x ∈ b2, x < 256) →
        decodeCoinID b2 = decodeCoinID coinIDS4 → b2 = coinIDS4)) :=
  ⟨⟨rfl, by decide⟩, C31_reencode_is_identity coinIDS4 (by decide) (by decide)⟩

/-! ### Book then unbook: the two readings of a removal within a level -/

/-- With the deletion of the last entry carrying the id, an order appended to a
level and removed again leaves the level as it was, whatever the level
held. -/
theorem removeLastFromBin_append (q : List Order) (o : Order) :
    removeLastFromBin o.OrderID (q ++ [o]) = some q := by
  simp [removeLastFromBin, removeFromBin]

/-- With the deletion of the first entry carrying the id, an order appended to
a level that already holds the id and removed again leaves the level changed:
on the level of `bookLeftover` the older entry goes. -/
theorem removeFromBin_append_leftover :
    removeFromBin (idOf 1) ([⟨idOf 1, 1, 5, 100, 0⟩] ++ [⟨idOf 1, 1, 7, 100, 0⟩]) =
      some [⟨idOf 1, 1, 7, 100, 0⟩] := by
  decide

end Dcrdex
